import Mathlib

/-!
Verification development for the food-storage fulfillment engine.

The Go program is shallowly embedded: `time.Duration` and `time.Time`
become `Int` (nanoseconds), Go maps become association lists iterated in
insertion order (Go map iteration order is unspecified; the embedding
fixes insertion order as the deterministic choice), and every stateful
operation becomes a pure function returning the updated state.
Go's integer division on `int64` truncates toward zero, which is
`Int.div`.
-/

namespace FoodStorage


/-- Temperature type constants from config/constant.go. -/

def TEMP_TYPE_HOT : String := "hot"

/-- Temperature type constant for cold orders. -/

def TEMP_TYPE_COLD : String := "cold"

/-- Temperature type constant for room-temperature orders. -/

def TEMP_TYPE_ROOM : String := "room"

/-- Action type constant for placements. -/

def ACTION_TYPE_PLACE : String := "place"

/-- Action type constant for moves. -/

def ACTION_TYPE_MOVE : String := "move"

/-- Action type constant for pickups. -/

def ACTION_TYPE_PICKUP : String := "pickup"

/-- Action type constant for discards. -/

def ACTION_TYPE_DISCARD : String := "discard"

/-- Order represents a food order (entity.Order).  Durations are `Int`
nanoseconds. -/

structure Order where
  id : String
  name : String
  temperature : String
  freshness : Int
  initialFreshness : Int
deriving Repr, DecidableEq

/-- StoredOrder wraps an Order along with its placement time
(entity.StoredOrder). -/

structure StoredOrder where
  order : Order
  placedAt : Int
deriving Repr, DecidableEq

/-- The contents of a Go `map[string]*StoredOrder`, modelled as an
association list iterated in insertion order. -/

abbrev OrderMap := List (String × StoredOrder)

/-- Lookup in the order map (Go `m[k]`). -/

def mapGet (m : OrderMap) (k : String) : Option StoredOrder :=
  match m with
  | [] => none
  | (k', v) :: rest => if k' = k then some v else mapGet rest k

/-- Assignment `m[k] = v` in Go: overwrite in place when the key is
present, append otherwise. -/

def mapInsert (m : OrderMap) (k : String) (v : StoredOrder) : OrderMap :=
  match m with
  | [] => [(k, v)]
  | (k', v') :: rest => if k' = k then (k, v) :: rest else (k', v') :: mapInsert rest k v

/-- Go `delete(m, k)`. -/

def mapDelete (m : OrderMap) (k : String) : OrderMap :=
  m.filter (fun p => p.1 ≠ k)

/-- Storage represents a single storage unit with a fixed capacity
(entity.Storage).  The capacity is a Go `int`. -/

structure Storage where
  name : String
  capacity : Int
  orders : OrderMap
deriving Repr, DecidableEq

/-- NewStorage creates a new storage instance. -/

def NewStorage (name : String) (capacity : Int) : Storage :=
  { name := name, capacity := capacity, orders := [] }

/-- Get retrieves an order by ID (Storage.GetOrder). -/

def Storage.GetOrder (s : Storage) (orderID : String) : Option StoredOrder :=
  mapGet s.orders orderID

/-- Add attempts to add an order to storage (Storage.Add): overwrite when
the id is present, insert when there is room, fail otherwise. -/

def Storage.Add (s : Storage) (order : StoredOrder) : Storage × Bool :=
  if (mapGet s.orders order.order.id).isSome then
    ({ s with orders := mapInsert s.orders order.order.id order }, true)
  else if (s.orders.length : Int) < s.capacity then
    ({ s with orders := s.orders ++ [(order.order.id, order)] }, true)
  else
    (s, false)

/-- Remove deletes an order by ID (Storage.Remove). -/

def Storage.Remove (s : Storage) (orderID : String) : Storage × Option StoredOrder :=
  match mapGet s.orders orderID with
  | some so => ({ s with orders := mapDelete s.orders orderID }, some so)
  | none => (s, none)

/-- IsFull checks if the storage is at capacity (Storage.IsFull). -/

def Storage.IsFull (s : Storage) : Bool :=
  (s.orders.length : Int) ≥ s.capacity

/-- ListOrders returns a snapshot of orders in storage (Storage.ListOrders);
the Go loop over the map becomes the value list in insertion order. -/

def Storage.ListOrders (s : Storage) : List StoredOrder :=
  s.orders.map Prod.snd

/-- StorageGroup is an ordered collection of storage units of one
temperature class (entity.StorageGroup). -/

structure StorageGroup where
  storages : List Storage
deriving Repr, DecidableEq

/-- First-fit scan of StorageGroup.Add: skip full units, try Add on the
rest, stop at the first success. -/

def groupAddScan (storages : List Storage) (order : StoredOrder) : List Storage × Bool :=
  match storages with
  | [] => ([], false)
  | st :: rest =>
    if st.IsFull then
      let r := groupAddScan rest order
      (st :: r.1, r.2)
    else
      let a := st.Add order
      if a.2 then (a.1 :: rest, true)
      else
        let r := groupAddScan rest order
        (a.1 :: r.1, r.2)

/-- StorageGroup.Add: try to add the order to one of the storages. -/

def StorageGroup.Add (sg : StorageGroup) (order : StoredOrder) : StorageGroup × Bool :=
  let r := groupAddScan sg.storages order
  (⟨r.1⟩, r.2)

/-- Scan of StorageGroup.Remove: remove from the first unit containing
the id. -/

def groupRemoveScan (storages : List Storage) (orderID : String) :
    List Storage × Option StoredOrder :=
  match storages with
  | [] => ([], none)
  | st :: rest =>
    let r := st.Remove orderID
    match r.2 with
    | some so => (r.1 :: rest, some so)
    | none =>
      let r' := groupRemoveScan rest orderID
      (st :: r'.1, r'.2)

/-- StorageGroup.Remove. -/

def StorageGroup.Remove (sg : StorageGroup) (orderID : String) :
    StorageGroup × Option StoredOrder :=
  let r := groupRemoveScan sg.storages orderID
  (⟨r.1⟩, r.2)

/-- RemainingFreshness (method on StoredOrder): single-rate formula for
room-temperature orders and halved nominal freshness for every other
temperature.  `now` stands for `time.Now()`. -/

def StoredOrder.RemainingFreshness (so : StoredOrder) (now : Int) : Int :=
  let elapsed := now - so.placedAt
  if so.order.temperature = TEMP_TYPE_ROOM then
    so.order.freshness - elapsed
  else
    Int.tdiv so.order.freshness 2 - elapsed

/-- StorageGroup.ListOrders: concatenation of all units' snapshots. -/

def StorageGroup.ListOrders (sg : StorageGroup) : List StoredOrder :=
  (sg.storages.map Storage.ListOrders).flatten

/-- StorageGroup.GetLeastFreshOrder: linear scan keeping the strictly
less fresh order, so the first encountered wins ties. -/

def StorageGroup.GetLeastFreshOrder (sg : StorageGroup) (now : Int) : Option StoredOrder :=
  sg.ListOrders.foldl
    (fun acc so =>
      match acc with
      | none => some so
      | some lf =>
        if so.RemainingFreshness now < lf.RemainingFreshness now then some so else some lf)
    none

/-- StorageGroup.IsFull: true only if every member unit is full. -/

def StorageGroup.IsFull (sg : StorageGroup) : Bool :=
  sg.storages.all Storage.IsFull

/-- Action represents an event on an order (logic.Action); the timestamp
is in microseconds (`UnixMicro`). -/

structure Action where
  timestamp : Int
  orderID : String
  action : String
deriving Repr, DecidableEq

/-- FulfillmentConfig (config.FulfillmentConfig); counts and capacities
are Go ints. -/

structure FulfillmentConfig where
  numCoolers : Int
  coolerCap : Int
  numHeaters : Int
  heaterCap : Int
  numShelves : Int
  shelfCap : Int
deriving Repr, DecidableEq

/-- FulfillmentSystem encapsulates the order processing state
(logic.FulfillmentSystem); locks disappear in the sequential embedding. -/

structure FulfillmentSystem where
  coolerGroup : StorageGroup
  heaterGroup : StorageGroup
  shelfGroup : StorageGroup
  actions : List Action
deriving Repr, DecidableEq

/-- Build the units `Name-1 .. Name-n` of one group
(loop in NewFulfillmentSystem). -/

def mkStorages (prefixName : String) (n : Int) (cap : Int) : List Storage :=
  (List.range n.toNat).map (fun i => NewStorage (prefixName ++ "-" ++ toString (i + 1)) cap)

/-- NewFulfillmentSystem initializes the system based on a Config. -/

def NewFulfillmentSystem (cfg : FulfillmentConfig) : FulfillmentSystem :=
  { coolerGroup := ⟨mkStorages "Cooler" cfg.numCoolers cfg.coolerCap⟩
    heaterGroup := ⟨mkStorages "Heater" cfg.numHeaters cfg.heaterCap⟩
    shelfGroup := ⟨mkStorages "Shelf" cfg.numShelves cfg.shelfCap⟩
    actions := [] }

/-- logAction records an action; `executeTime` is in nanoseconds and the
recorded timestamp in microseconds (UnixMicro). -/

def FulfillmentSystem.logAction (fs : FulfillmentSystem) (orderID actionType : String)
    (executeTime : Int) : FulfillmentSystem :=
  { fs with actions := fs.actions ++ [⟨Int.tdiv executeTime 1000, orderID, actionType⟩] }

/-- The destination scan of atomicMoveOrder: find the first destination
unit with spare capacity and write the order into it. -/

def destInsertScan (storages : List Storage) (orderID : String) (order : StoredOrder) :
    Option (List Storage) :=
  match storages with
  | [] => none
  | st :: rest =>
    if (st.orders.length : Int) < st.capacity then
      some ({ st with orders := mapInsert st.orders orderID order } :: rest)
    else
      match destInsertScan rest orderID order with
      | some rest' => some (st :: rest')
      | none => none

/-- Tail of atomicMoveOrder: move the (possibly rewritten) order from the
source into the first destination unit with room, or fail leaving the
source as given. -/

def moveToDestination (source : Storage) (destination : StorageGroup) (orderID : String)
    (order : StoredOrder) : Storage × StorageGroup × Bool :=
  match destInsertScan destination.storages orderID order with
  | some storages' =>
      ({ source with orders := mapDelete source.orders orderID }, ⟨storages'⟩, true)
  | none => (source, destination, false)

/-- atomicMoveOrder (logic.FulfillmentSystem.atomicMoveOrder) restricted
to its state effect on the source unit and destination group.  Note that
for a non-room order the Go code rewrites the stored order's `PlacedAt`
and `Freshness` through the map pointer before scanning the destination
units, so the rewrite persists even when the move then fails for lack of
capacity. -/

def atomicMoveOrder (source : Storage) (destination : StorageGroup) (orderID : String)
    (now : Int) : Storage × StorageGroup × Bool :=
  match mapGet source.orders orderID with
  | none => (source, destination, false)
  | some order =>
    if order.order.temperature ≠ TEMP_TYPE_ROOM then
      let t := now - order.placedAt
      let newRemaining := order.order.initialFreshness - 2 * t
      if newRemaining ≤ 0 then
        (source, destination, false)
      else
        let order' : StoredOrder :=
          { order with placedAt := now, order := { order.order with freshness := newRemaining } }
        let source' := { source with orders := mapInsert source.orders orderID order' }
        moveToDestination source' destination orderID order'
    else
      moveToDestination source destination orderID order

/-- Inner loop of tryMoveFromShelfGroup and ReallocateOrders: attempt
`atomicMoveOrder` of one order id over every shelf unit in turn, stopping
at the first success. -/

def moveOverShelfStorages (storages : List Storage) (destination : StorageGroup)
    (orderID : String) (now : Int) : List Storage × StorageGroup × Bool :=
  match storages with
  | [] => ([], destination, false)
  | st :: rest =>
    let r := atomicMoveOrder st destination orderID now
    if r.2.2 then (r.1 :: rest, r.2.1, true)
    else
      let r' := moveOverShelfStorages rest r.2.1 orderID now
      (r.1 :: r'.1, r'.2.1, r'.2.2)

/-- Outer loop of tryMoveFromShelfGroup: walk the snapshot of shelf
orders, and for each order of the requested temperature try to move it;
stop at the first successful move, reporting the moved id. -/

def tryMoveScan (snapshot : List StoredOrder) (temp : String) (storages : List Storage)
    (destination : StorageGroup) (now : Int) :
    List Storage × StorageGroup × Option String :=
  match snapshot with
  | [] => (storages, destination, none)
  | so :: rest =>
    if so.order.temperature = temp then
      let r := moveOverShelfStorages storages destination so.order.id now
      if r.2.2 then (r.1, r.2.1, some so.order.id)
      else tryMoveScan rest temp r.1 r.2.1 now
    else
      tryMoveScan rest temp storages destination now

/-- tryMoveFromShelfGroup: pick the ideal group by temperature, scan the
shelf for a movable order of that temperature, and log a move action on
success. -/

def FulfillmentSystem.tryMoveFromShelfGroup (fs : FulfillmentSystem) (temp : String)
    (now : Int) : FulfillmentSystem × Bool :=
  if temp = TEMP_TYPE_HOT then
    let r := tryMoveScan fs.shelfGroup.ListOrders temp fs.shelfGroup.storages fs.heaterGroup now
    match r.2.2 with
    | some oid =>
        (({ fs with shelfGroup := ⟨r.1⟩, heaterGroup := r.2.1 }).logAction
          oid ACTION_TYPE_MOVE now, true)
    | none => ({ fs with shelfGroup := ⟨r.1⟩, heaterGroup := r.2.1 }, false)
  else if temp = TEMP_TYPE_COLD then
    let r := tryMoveScan fs.shelfGroup.ListOrders temp fs.shelfGroup.storages fs.coolerGroup now
    match r.2.2 with
    | some oid =>
        (({ fs with shelfGroup := ⟨r.1⟩, coolerGroup := r.2.1 }).logAction
          oid ACTION_TYPE_MOVE now, true)
    | none => ({ fs with shelfGroup := ⟨r.1⟩, coolerGroup := r.2.1 }, false)
  else
    (fs, false)

/-- discardOrderFromShelfGroup: select the least fresh shelf order, first
try to move an order of its temperature class, and only on failure remove
the selected order and log a discard. -/

def FulfillmentSystem.discardOrderFromShelfGroup (fs : FulfillmentSystem) (now : Int) :
    FulfillmentSystem :=
  match fs.shelfGroup.GetLeastFreshOrder now with
  | none => fs
  | some candidate =>
    let r := fs.tryMoveFromShelfGroup candidate.order.temperature now
    if r.2 then r.1
    else
      let rm := r.1.shelfGroup.Remove candidate.order.id
      match rm.2 with
      | some _ =>
          ({ r.1 with shelfGroup := rm.1 }).logAction
            candidate.order.id ACTION_TYPE_DISCARD now
      | none => { r.1 with shelfGroup := rm.1 }

/-- The ideal-group insertion at the head of PlaceOrder for hot and cold
orders (`idealGroup.Add(storedOrder)`). -/

def FulfillmentSystem.placeIdealAdd (fs : FulfillmentSystem) (storedOrder : StoredOrder) :
    FulfillmentSystem × Bool :=
  if storedOrder.order.temperature = TEMP_TYPE_HOT then
    let r := fs.heaterGroup.Add storedOrder
    ({ fs with heaterGroup := r.1 }, r.2)
  else
    let r := fs.coolerGroup.Add storedOrder
    ({ fs with coolerGroup := r.1 }, r.2)

/-- The discard guard of PlaceOrder:
`if IsFull { discardOrderFromShelfGroup() }`. -/

def FulfillmentSystem.discardStep (g : FulfillmentSystem) (now : Int) : FulfillmentSystem :=
  if g.shelfGroup.IsFull then g.discardOrderFromShelfGroup now else g

/-- The final `if ShelfGroup.Add { log place }` retry of PlaceOrder. -/

def FulfillmentSystem.addRetry (g : FulfillmentSystem) (so : StoredOrder) (now : Int) :
    FulfillmentSystem :=
  if (g.shelfGroup.Add so).2 then
    ({ g with shelfGroup := (g.shelfGroup.Add so).1 }).logAction
      so.order.id ACTION_TYPE_PLACE now
  else { g with shelfGroup := (g.shelfGroup.Add so).1 }

/-- The fallback tail of the hot/cold branch of PlaceOrder: when the
shelf is full first try a move, retrying the insert on success; if no
early return happened, discard (when still full) and retry the insert. -/

def FulfillmentSystem.hotColdFallback (fs : FulfillmentSystem) (storedOrder : StoredOrder)
    (now : Int) : FulfillmentSystem :=
  let afterTry : FulfillmentSystem × Bool :=
    if fs.shelfGroup.IsFull then
      let tm := fs.tryMoveFromShelfGroup storedOrder.order.temperature now
      if tm.2 then
        let sa := tm.1.shelfGroup.Add storedOrder
        let fs' := { tm.1 with shelfGroup := sa.1 }
        if sa.2 then (fs'.logAction storedOrder.order.id ACTION_TYPE_PLACE now, true)
        else (fs', false)
      else (tm.1, false)
    else (fs, false)
  if afterTry.2 then afterTry.1
  else (afterTry.1.discardStep now).addRetry storedOrder now

/-- PlaceOrder: core placement logic; `now` stands for the calls to
`time.Now()` during the operation. -/

def FulfillmentSystem.PlaceOrder (fs : FulfillmentSystem) (order : Order) (now : Int) :
    FulfillmentSystem :=
  let storedOrder : StoredOrder := { order := order, placedAt := now }
  if order.temperature = TEMP_TYPE_HOT ∨ order.temperature = TEMP_TYPE_COLD then
    let ia := fs.placeIdealAdd storedOrder
    if ia.2 then ia.1.logAction order.id ACTION_TYPE_PLACE now
    else
      let sa := ia.1.shelfGroup.Add storedOrder
      let fs2 := { ia.1 with shelfGroup := sa.1 }
      if sa.2 then fs2.logAction order.id ACTION_TYPE_PLACE now
      else fs2.hotColdFallback storedOrder now
  else
    let sa := fs.shelfGroup.Add storedOrder
    let fs1 := { fs with shelfGroup := sa.1 }
    if sa.2 then fs1.logAction order.id ACTION_TYPE_PLACE now
    else (fs1.discardStep now).addRetry storedOrder now

/-- PickupOrder: attempt removal from heater, then cooler, then shelf,
logging a pickup on the first success; a no-op when absent everywhere. -/

def FulfillmentSystem.PickupOrder (fs : FulfillmentSystem) (orderID : String) (now : Int) :
    FulfillmentSystem :=
  let rh := fs.heaterGroup.Remove orderID
  let fs1 := { fs with heaterGroup := rh.1 }
  match rh.2 with
  | some so => fs1.logAction so.order.id ACTION_TYPE_PICKUP now
  | none =>
    let rc := fs1.coolerGroup.Remove orderID
    let fs2 := { fs1 with coolerGroup := rc.1 }
    match rc.2 with
    | some so => fs2.logAction so.order.id ACTION_TYPE_PICKUP now
    | none =>
      let rs := fs2.shelfGroup.Remove orderID
      let fs3 := { fs2 with shelfGroup := rs.1 }
      match rs.2 with
      | some so => fs3.logAction so.order.id ACTION_TYPE_PICKUP now
      | none => fs3

/-- Move one shelf order into the heater (true) or cooler (false) group:
the inner unit loop of ReallocateOrders, logging a move on success. -/

def FulfillmentSystem.moveShelfOrderTo (fs : FulfillmentSystem) (orderID : String)
    (toHeater : Bool) (now : Int) : FulfillmentSystem :=
  let dst := if toHeater then fs.heaterGroup else fs.coolerGroup
  let r := moveOverShelfStorages fs.shelfGroup.storages dst orderID now
  let fs' :=
    if toHeater then { fs with shelfGroup := ⟨r.1⟩, heaterGroup := r.2.1 }
    else { fs with shelfGroup := ⟨r.1⟩, coolerGroup := r.2.1 }
  if r.2.2 then fs'.logAction orderID ACTION_TYPE_MOVE now else fs'

/-- The body of the snapshot loop of ReallocateOrders. -/

def reallocScan (snapshot : List StoredOrder) (fs : FulfillmentSystem) (now : Int) :
    FulfillmentSystem :=
  match snapshot with
  | [] => fs
  | so :: rest =>
    let fs' :=
      if so.order.temperature = TEMP_TYPE_HOT ∧ ¬ fs.heaterGroup.IsFull then
        fs.moveShelfOrderTo so.order.id true now
      else if so.order.temperature = TEMP_TYPE_COLD ∧ ¬ fs.coolerGroup.IsFull then
        fs.moveShelfOrderTo so.order.id false now
      else fs
    reallocScan rest fs' now

/-- One tick of the background ReallocateOrders loop: skip the cycle when
the shelf group is not full, otherwise walk the shelf snapshot moving
hot/cold orders whose ideal group is not full. -/

def FulfillmentSystem.ReallocateTick (fs : FulfillmentSystem) (now : Int) :
    FulfillmentSystem :=
  if fs.shelfGroup.IsFull then reallocScan fs.shelfGroup.ListOrders fs now
  else fs

/-- A raw engine-level atomic move: `atomicMoveOrder(id, shelfUnit i,
heater or cooler group)` exactly as every call site of the source invokes
it. -/

def FulfillmentSystem.applyAtomicMoveAt (fs : FulfillmentSystem) (i : Nat) (toHeater : Bool)
    (orderID : String) (now : Int) : FulfillmentSystem :=
  match fs.shelfGroup.storages.get? i with
  | none => fs
  | some st =>
    let dst := if toHeater then fs.heaterGroup else fs.coolerGroup
    let r := atomicMoveOrder st dst orderID now
    let shelves' := fs.shelfGroup.storages.set i r.1
    if toHeater then { fs with shelfGroup := ⟨shelves'⟩, heaterGroup := r.2.1 }
    else { fs with shelfGroup := ⟨shelves'⟩, coolerGroup := r.2.1 }

/-- The operations the engine can perform on the shared storage state. -/

inductive SysOp where
  | place (order : Order) (now : Int)
  | pickup (orderID : String) (now : Int)
  | tick (now : Int)
  | moveOp (srcIdx : Nat) (toHeater : Bool) (orderID : String) (now : Int)
  | discardOp (now : Int)
deriving Repr, DecidableEq

/-- Apply one engine operation. -/

def FulfillmentSystem.applyOp (fs : FulfillmentSystem) : SysOp → FulfillmentSystem
  | .place o now => fs.PlaceOrder o now
  | .pickup oid now => fs.PickupOrder oid now
  | .tick now => fs.ReallocateTick now
  | .moveOp i toHeater oid now => fs.applyAtomicMoveAt i toHeater oid now
  | .discardOp now => fs.discardOrderFromShelfGroup now

/-- Apply a sequence of engine operations. -/

def FulfillmentSystem.applyOps (fs : FulfillmentSystem) (ops : List SysOp) :
    FulfillmentSystem :=
  ops.foldl FulfillmentSystem.applyOp fs

/-! ### Key-multiset helpers -/

/-- The keys of an order map, in iteration order. -/

def keysOf (m : OrderMap) : List String :=
  m.map Prod.fst

/-- Number of entries of `m` stored under key `k`. -/

def keyCount (m : OrderMap) (k : String) : Nat :=
  match m with
  | [] => 0
  | (k', _) :: rest => (if k' = k then 1 else 0) + keyCount rest k

@[simp] theorem keysOf_nil : keysOf [] = [] := rfl

@[simp] theorem keysOf_cons (k : String) (v : StoredOrder) (rest : OrderMap) :
    keysOf ((k, v) :: rest) = k :: keysOf rest := rfl

@[simp] theorem keysOf_append (m m' : OrderMap) :
    keysOf (m ++ m') = keysOf m ++ keysOf m' := by
  simp [keysOf]

/-! ### Invariants -/

/-- The occupancy bound of a single unit. -/

def Storage.SizeOk (st : Storage) : Prop :=
  (st.orders.length : Int) ≤ st.capacity

/-- Occupancy bound over a group. -/

def StorageGroup.SizeOk (sg : StorageGroup) : Prop :=
  ∀ st ∈ sg.storages, st.SizeOk

/-- Occupancy bound over the whole system. -/

def FulfillmentSystem.SizeOk (fs : FulfillmentSystem) : Prop :=
  fs.coolerGroup.SizeOk ∧ fs.heaterGroup.SizeOk ∧ fs.shelfGroup.SizeOk

/-- Every map entry is stored under its order's id. -/

def Storage.WellKeyed (st : Storage) : Prop :=
  ∀ p ∈ st.orders, p.1 = p.2.order.id

/-- WellKeyed over a group. -/

def StorageGroup.WellKeyed (sg : StorageGroup) : Prop :=
  ∀ st ∈ sg.storages, st.WellKeyed

/-- Total number of entries stored under `id` across a list of units. -/

def listKeyCount (storages : List Storage) (id : String) : Nat :=
  match storages with
  | [] => 0
  | st :: rest => keyCount st.orders id + listKeyCount rest id

/-- Total number of entries stored under `id` across the whole system. -/

def sysKeyCount (fs : FulfillmentSystem) (id : String) : Nat :=
  listKeyCount fs.coolerGroup.storages id + listKeyCount fs.heaterGroup.storages id +
    listKeyCount fs.shelfGroup.storages id

instance (st : Storage) : Decidable st.SizeOk := by
  unfold Storage.SizeOk; infer_instance

instance (sg : StorageGroup) : Decidable sg.SizeOk := by
  unfold StorageGroup.SizeOk; infer_instance

instance (fs : FulfillmentSystem) : Decidable fs.SizeOk := by
  unfold FulfillmentSystem.SizeOk; infer_instance

instance (st : Storage) : Decidable st.WellKeyed := by
  unfold Storage.WellKeyed; infer_instance

instance (sg : StorageGroup) : Decidable sg.WellKeyed := by
  unfold StorageGroup.WellKeyed; infer_instance

/-- The non-room rewrite that atomicMoveOrder applies before scanning the
destination: anchor reset to `now`, freshness set to
`InitialFreshness - 2*t`. -/

def rewriteForMove (order : StoredOrder) (now : Int) : StoredOrder :=
  let newRemaining := order.order.initialFreshness - 2 * (now - order.placedAt)
  { order with placedAt := now, order := { order.order with freshness := newRemaining } }

/-! ### Shelf-scan lemmas -/

/-- After a failed operation a unit keeps its keys and capacity. -/

def KeysPreserved (a b : Storage) : Prop :=
  keysOf b.orders = keysOf a.orders ∧ b.capacity = a.capacity

/-! ### Engine-level helper lemmas -/

/-- WellKeyed over the whole system. -/

def FulfillmentSystem.WellKeyed (fs : FulfillmentSystem) : Prop :=
  (∀ st ∈ fs.coolerGroup.storages, st.WellKeyed) ∧
    (∀ st ∈ fs.heaterGroup.storages, st.WellKeyed) ∧
    ∀ st ∈ fs.shelfGroup.storages, st.WellKeyed

instance (fs : FulfillmentSystem) : Decidable fs.WellKeyed := by
  unfold FulfillmentSystem.WellKeyed; infer_instance

/-- The accumulator step of GetLeastFreshOrder. -/

def leastStep (now : Int) (acc : Option StoredOrder) (so : StoredOrder) :
    Option StoredOrder :=
  match acc with
  | none => some so
  | some lf =>
    if so.RemainingFreshness now < lf.RemainingFreshness now then some so else some lf

/-- One when the operation is a PlaceOrder of this id, zero otherwise. -/

def SysOp.placeInd : SysOp → String → Nat
  | .place o _, id => if o.id = id then 1 else 0
  | _, _ => 0

/-- How many of the operations place an order with this id. -/

def placeIdCount (ops : List SysOp) (id : String) : Nat :=
  match ops with
  | [] => 0
  | op :: rest => op.placeInd id + placeIdCount rest id

/-- The ids of the orders placed by a sequence of operations. -/

def placeIds (ops : List SysOp) : List String :=
  ops.filterMap (fun op => match op with
    | .place o _ => some o.id
    | _ => none)

/-! ### Specification-side freshness formula and concrete scenarios -/

/-- The remaining-freshness formula exactly as the specification words it:
single rate for room orders, single rate for hot/cold orders in their
ideal class, double rate (halved nominal freshness) only for shelf-stored
hot/cold orders.  `onShelf` says whether the order sits on the shelf. -/

def specRemainingFreshness (onShelf : Bool) (so : StoredOrder) (now : Int) : Int :=
  if so.order.temperature = TEMP_TYPE_ROOM then
    so.order.freshness - (now - so.placedAt)
  else if onShelf then
    Int.tdiv so.order.freshness 2 - (now - so.placedAt)
  else
    so.order.freshness - (now - so.placedAt)

/-- A hot stored order with 10ns of nominal and initial freshness. -/

def scnHotOrder : StoredOrder := ⟨⟨"h", "", TEMP_TYPE_HOT, 10, 10⟩, 0⟩

/-- A long-lived occupant keeping a heater unit at capacity. -/

def scnBlocker : StoredOrder := ⟨⟨"x", "", TEMP_TYPE_HOT, 100, 100⟩, 0⟩

/-- A shelf unit holding the hot order with room to spare. -/

def scnShelfUnit : Storage :=
  { name := "Shelf-1", capacity := 2, orders := [("h", scnHotOrder)] }

/-- A heater group whose only unit is at capacity. -/

def scnFullHeater : StorageGroup :=
  ⟨[{ name := "Heater-1", capacity := 1, orders := [("x", scnBlocker)] }]⟩

/-- A heater group with one empty unit. -/

def scnEmptyHeater : StorageGroup :=
  ⟨[{ name := "Heater-1", capacity := 1, orders := [] }]⟩

/-- No coolers, one heater of capacity 1, one shelf of capacity 2. -/

def scnConfig : FulfillmentConfig := ⟨0, 0, 1, 1, 1, 2⟩

/-- C7 scenario, step 1: place a hot order into the heater. -/

def c7s1 : FulfillmentSystem :=
  (NewFulfillmentSystem scnConfig).PlaceOrder ⟨"H0", "", TEMP_TYPE_HOT, 100, 100⟩ 0

/-- C7 scenario, step 2: a room order lands on the shelf. -/

def c7s2 : FulfillmentSystem := c7s1.PlaceOrder ⟨"R1", "", TEMP_TYPE_ROOM, 10, 10⟩ 2

/-- C7 scenario, step 3: a hot order overflows to the shelf (heater full). -/

def c7s3 : FulfillmentSystem := c7s2.PlaceOrder ⟨"H1", "", TEMP_TYPE_HOT, 10, 10⟩ 6

/-- C7 scenario, step 4: a fourth order forces the discard path. -/

def c7s4 : FulfillmentSystem := c7s3.PlaceOrder ⟨"H2", "", TEMP_TYPE_HOT, 50, 50⟩ 10

/-- The state on which PlaceOrder invokes the discard: after its own
failed tryMoveFromShelfGroup already rewrote H1 in place. -/

def c7mid : FulfillmentSystem := (c7s3.tryMoveFromShelfGroup TEMP_TYPE_HOT 10).1

/-- The record the discard removes: H1 with its freshness reset to the
full initial 10ns and its anchor reset to the discard instant by the
second failed move attempt. -/

def c7discarded : StoredOrder := ⟨⟨"H1", "", TEMP_TYPE_HOT, 10, 10⟩, 10⟩

/-- The room order that stays on the shelf across the discard. -/

def c7survivor : StoredOrder := ⟨⟨"R1", "", TEMP_TYPE_ROOM, 10, 10⟩, 2⟩

/-- C4 scenario, step 1: a hot order fills the heater. -/

def c4s1 : FulfillmentSystem :=
  (NewFulfillmentSystem scnConfig).PlaceOrder ⟨"H0", "", TEMP_TYPE_HOT, 100, 100⟩ 0

/-- C4 scenario, step 2: a fresher hot order overflows to the shelf. -/

def c4s2 : FulfillmentSystem := c4s1.PlaceOrder ⟨"HFresh", "", TEMP_TYPE_HOT, 40, 40⟩ 0

/-- C4 scenario, step 3: a staler hot order fills the shelf. -/

def c4s3 : FulfillmentSystem := c4s2.PlaceOrder ⟨"HStale", "", TEMP_TYPE_HOT, 4, 4⟩ 0

/-- C4 scenario: picking up H0 frees the heater, leaving a full shelf
whose least-fresh order is HStale. -/

def c4state : FulfillmentSystem := c4s3.PickupOrder "H0" 1

/-- The least-fresh shelf order of the C4 scenario. -/

def c4least : StoredOrder := ⟨⟨"HStale", "", TEMP_TYPE_HOT, 4, 4⟩, 0⟩

/-- C2 scenario: a hot order stored in its ideal heater group. -/

def c2state : FulfillmentSystem :=
  (NewFulfillmentSystem scnConfig).PlaceOrder ⟨"h", "", TEMP_TYPE_HOT, 10, 10⟩ 0

/-- The heater-stored record of the C2 scenario. -/

def c2rec : StoredOrder := ⟨⟨"h", "", TEMP_TYPE_HOT, 10, 10⟩, 0⟩

/-- C8 scenario configuration: a single shelf unit of capacity 1. -/

def c8cfg : FulfillmentConfig := ⟨0, 0, 0, 0, 1, 1⟩

/-- C8 scenario: the shelf already full when the next order arrives. -/

def c8state : FulfillmentSystem :=
  (NewFulfillmentSystem c8cfg).PlaceOrder ⟨"R1", "", TEMP_TYPE_ROOM, 10, 10⟩ 0

/-- An operation sequence with pairwise-distinct placed ids. -/

def c6ops : List SysOp :=
  [SysOp.place ⟨"a", "", TEMP_TYPE_HOT, 5, 5⟩ 0,
   SysOp.place ⟨"b", "", TEMP_TYPE_ROOM, 9, 9⟩ 1,
   SysOp.pickup "a" 2,
   SysOp.tick 3,
   SysOp.discardOp 4]

theorem mapGet_isSome_iff {m : OrderMap} {k : String} :
    (mapGet m k).isSome = true ↔ k ∈ keysOf m := by
  induction m with
  | nil => simp [mapGet]
  | cons p rest ih =>
    obtain ⟨k', v⟩ := p
    by_cases h : k' = k <;> simp [mapGet, h, ih]
    exact fun hh => absurd hh.symm h

theorem mapGet_eq_none_iff {m : OrderMap} {k : String} :
    mapGet m k = none ↔ k ∉ keysOf m := by
  rw [← mapGet_isSome_iff]
  cases mapGet m k <;> simp

theorem keyCount_pos_of_mapGet {m : OrderMap} {k : String} {v : StoredOrder}
    (h : mapGet m k = some v) : 1 ≤ keyCount m k := by
  induction m with
  | nil => simp [mapGet] at h
  | cons p rest ih =>
    obtain ⟨k', v'⟩ := p
    by_cases hk : k' = k
    · simp [keyCount, hk]
    · simp [mapGet, hk] at h
      simp [keyCount, hk]
      exact ih h

theorem keysOf_mapInsert_of_mem {m : OrderMap} {k : String} (v : StoredOrder)
    (h : k ∈ keysOf m) : keysOf (mapInsert m k v) = keysOf m := by
  induction m with
  | nil => simp at h
  | cons p rest ih =>
    obtain ⟨k', v'⟩ := p
    by_cases hk : k' = k
    · simp [mapInsert, hk]
    · simp [List.mem_cons] at h
      rcases h with h | h
      · exact absurd h.symm hk
      · simp [mapInsert, hk, ih h]

theorem keysOf_mapInsert_of_not_mem {m : OrderMap} {k : String} (v : StoredOrder)
    (h : k ∉ keysOf m) : keysOf (mapInsert m k v) = keysOf m ++ [k] := by
  induction m with
  | nil => simp [mapInsert]
  | cons p rest ih =>
    obtain ⟨k', v'⟩ := p
    simp [List.mem_cons] at h
    push_neg at h
    simp [mapInsert, Ne.symm h.1, ih h.2]

theorem keyCount_append (m m' : OrderMap) (k : String) :
    keyCount (m ++ m') k = keyCount m k + keyCount m' k := by
  induction m with
  | nil => simp [keyCount]
  | cons p rest ih => obtain ⟨k', v'⟩ := p; simp [keyCount, ih]; omega

theorem keyCount_mapInsert_le (m : OrderMap) (k : String) (v : StoredOrder) (id : String) :
    keyCount (mapInsert m k v) id ≤ keyCount m id + (if k = id then 1 else 0) := by
  induction m with
  | nil => simp [mapInsert, keyCount]
  | cons p rest ih =>
    obtain ⟨k', v'⟩ := p
    by_cases hk : k' = k
    · subst hk
      simp [mapInsert, keyCount]
    · simp [mapInsert, hk, keyCount]
      omega

theorem keyCount_mapInsert_of_mem (m : OrderMap) (k : String) (v : StoredOrder) (id : String)
    (h : k ∈ keysOf m) : keyCount (mapInsert m k v) id = keyCount m id := by
  induction m with
  | nil => simp at h
  | cons p rest ih =>
    obtain ⟨k', v'⟩ := p
    by_cases hk : k' = k
    · subst hk; simp [mapInsert, keyCount]
    · simp [List.mem_cons] at h
      rcases h with h | h
      · exact absurd h.symm hk
      · simp [mapInsert, hk, keyCount, ih h]

theorem mapDelete_cons (k k' : String) (v : StoredOrder) (rest : OrderMap) :
    mapDelete ((k', v) :: rest) k =
      if k' = k then mapDelete rest k else (k', v) :: mapDelete rest k := by
  by_cases h : k' = k <;> simp [mapDelete, h]

theorem keyCount_mapDelete (m : OrderMap) (k id : String) :
    keyCount (mapDelete m k) id = if k = id then 0 else keyCount m id := by
  induction m with
  | nil => simp [mapDelete, keyCount]
  | cons p rest ih =>
    obtain ⟨k', v'⟩ := p
    by_cases hk : k' = k
    · subst hk
      by_cases hid : k' = id
      · subst hid
        simpa [mapDelete_cons, keyCount] using ih
      · simp [mapDelete_cons, keyCount, ih, hid]
    · by_cases hid : k' = id
      · subst hid
        have hne : ¬ (k = k') := fun hh => hk hh.symm
        simp [mapDelete_cons, keyCount, ih, hk, hne]
      · simp [mapDelete_cons, keyCount, ih, hk, hid]

theorem length_mapInsert_of_mem {m : OrderMap} {k : String} (v : StoredOrder)
    (h : k ∈ keysOf m) : (mapInsert m k v).length = m.length := by
  have h1 := keysOf_mapInsert_of_mem v h
  have h2 : (keysOf (mapInsert m k v)).length = (keysOf m).length := by rw [h1]
  simpa [keysOf] using h2

theorem length_mapInsert_le (m : OrderMap) (k : String) (v : StoredOrder) :
    (mapInsert m k v).length ≤ m.length + 1 := by
  by_cases h : k ∈ keysOf m
  · rw [length_mapInsert_of_mem v h]; omega
  · have h1 := keysOf_mapInsert_of_not_mem v h
    have h2 : (keysOf (mapInsert m k v)).length = (keysOf m).length + 1 := by
      rw [h1]; simp
    simp [keysOf] at h2
    omega

theorem mem_keysOf_mapInsert (m : OrderMap) (k : String) (v : StoredOrder) :
    k ∈ keysOf (mapInsert m k v) := by
  by_cases h : k ∈ keysOf m
  · rw [keysOf_mapInsert_of_mem v h]; exact h
  · rw [keysOf_mapInsert_of_not_mem v h]; simp

theorem length_mapDelete_le (m : OrderMap) (k : String) :
    (mapDelete m k).length ≤ m.length :=
  List.length_filter_le _ m

theorem length_mapDelete_lt_of_mem {m : OrderMap} {k : String} (h : k ∈ keysOf m) :
    (mapDelete m k).length < m.length := by
  induction m with
  | nil => simp at h
  | cons p rest ih =>
    obtain ⟨k', v'⟩ := p
    by_cases hk : k' = k
    · subst hk
      have := length_mapDelete_le rest k'
      simp [mapDelete] at this ⊢
      omega
    · simp [List.mem_cons] at h
      rcases h with h | h
      · exact absurd h.symm hk
      · have := ih h
        simp [mapDelete, hk] at this ⊢
        omega

theorem keysOf_mapDelete (m : OrderMap) (k : String) :
    keysOf (mapDelete m k) = (keysOf m).filter (fun x => x ≠ k) := by
  induction m with
  | nil => simp [mapDelete]
  | cons p rest ih =>
    obtain ⟨k', v'⟩ := p
    by_cases hk : k' = k <;>
      simp [mapDelete, hk] at ih ⊢ <;>
      simpa [mapDelete] using ih

theorem mapGet_mapInsert_self (m : OrderMap) (k : String) (v : StoredOrder) :
    mapGet (mapInsert m k v) k = some v := by
  induction m with
  | nil => simp [mapInsert, mapGet]
  | cons p rest ih =>
    obtain ⟨k', v'⟩ := p
    by_cases hk : k' = k <;> simp [mapInsert, mapGet, hk, ih]

theorem mapGet_eq_some_mem {m : OrderMap} {k : String} {v : StoredOrder}
    (h : mapGet m k = some v) : (k, v) ∈ m := by
  induction m with
  | nil => simp [mapGet] at h
  | cons p rest ih =>
    obtain ⟨k', v'⟩ := p
    by_cases hk : k' = k
    · subst hk
      simp [mapGet] at h
      simp [h]
    · simp [mapGet, hk] at h
      simp [ih h]

/-! ### Storage-level lemmas -/

theorem Storage.add_fail_eq {st : Storage} {so : StoredOrder}
    (h : (st.Add so).2 = false) : (st.Add so).1 = st := by
  unfold Storage.Add at *
  split_ifs at * <;> simp_all

theorem Storage.add_of_not_full {st : Storage} (so : StoredOrder)
    (h : st.IsFull = false) : (st.Add so).2 = true := by
  unfold Storage.IsFull at h
  unfold Storage.Add
  split_ifs with h1 h2
  · rfl
  · rfl
  · exfalso
    simp at h
    exact h2 h

theorem Storage.add_capacity (st : Storage) (so : StoredOrder) :
    (st.Add so).1.capacity = st.capacity := by
  unfold Storage.Add
  split_ifs <;> rfl

theorem Storage.add_sizeOk {st : Storage} (so : StoredOrder)
    (h : st.SizeOk) : (st.Add so).1.SizeOk := by
  unfold Storage.SizeOk at *
  unfold Storage.Add
  split_ifs with h1 h2
  · rcases Option.isSome_iff_exists.mp h1 with ⟨v, hv⟩
    have hm : so.order.id ∈ keysOf st.orders := mapGet_isSome_iff.mp h1
    simp [length_mapInsert_of_mem so hm]
    exact h
  · simp
    omega
  · exact h

theorem Storage.add_keyCount_le (st : Storage) (so : StoredOrder) (id : String) :
    keyCount (st.Add so).1.orders id ≤
      keyCount st.orders id + (if so.order.id = id then 1 else 0) := by
  unfold Storage.Add
  by_cases h1 : (mapGet st.orders so.order.id).isSome = true
  · simp only [h1, if_true]
    exact keyCount_mapInsert_le st.orders so.order.id so id
  · by_cases h2 : (st.orders.length : Int) < st.capacity
    · simp only [h1, h2, if_false, if_true, Bool.false_eq_true]
      simp [keyCount_append, keyCount]
    · simp only [h1, h2, if_false, Bool.false_eq_true]
      simp

theorem mem_mapInsert {m : OrderMap} {k : String} {v p : _} (hp : p ∈ mapInsert m k v) :
    p = (k, v) ∨ p ∈ m := by
  induction m with
  | nil => simp [mapInsert] at hp; simp [hp]
  | cons q rest ih =>
    obtain ⟨k', v'⟩ := q
    by_cases hk : k' = k
    · simp [mapInsert, hk] at hp
      rcases hp with hp | hp
      · left; simp [hp]
      · right; simp [hp]
    · simp [mapInsert, hk] at hp
      rcases hp with hp | hp
      · right; simp [hp]
      · rcases ih hp with hh | hh
        · left; exact hh
        · right; simp [hh]

theorem Storage.add_wellKeyed {st : Storage} {so : StoredOrder}
    (h : st.WellKeyed) : (st.Add so).1.WellKeyed := by
  unfold Storage.WellKeyed at *
  unfold Storage.Add
  split_ifs with h1 h2
  · intro p hp
    simp at hp
    rcases mem_mapInsert hp with hp | hp
    · subst hp; rfl
    · exact h p hp
  · intro p hp
    simp at hp
    rcases hp with hp | hp
    · exact h p hp
    · simp [hp]
  · exact h

theorem Storage.remove_fail_eq {st : Storage} {k : String}
    (h : (st.Remove k).2 = none) : (st.Remove k).1 = st := by
  unfold Storage.Remove at *
  cases hm : mapGet st.orders k <;> simp [hm] at *

theorem Storage.remove_capacity (st : Storage) (k : String) :
    (st.Remove k).1.capacity = st.capacity := by
  unfold Storage.Remove
  cases hm : mapGet st.orders k <;> rfl

theorem Storage.remove_length_le (st : Storage) (k : String) :
    (st.Remove k).1.orders.length ≤ st.orders.length := by
  unfold Storage.Remove
  cases hm : mapGet st.orders k
  · simp
  · simpa using length_mapDelete_le st.orders k

theorem Storage.remove_some_length {st : Storage} {k : String} {so : StoredOrder}
    (h : (st.Remove k).2 = some so) :
    (st.Remove k).1.orders.length < st.orders.length := by
  unfold Storage.Remove at *
  cases hm : mapGet st.orders k
  · simp [hm] at h
  · have hmem : k ∈ keysOf st.orders := by
      rw [← mapGet_isSome_iff, hm]; rfl
    simpa [hm] using length_mapDelete_lt_of_mem hmem

theorem Storage.remove_sizeOk {st : Storage} (k : String)
    (h : st.SizeOk) : (st.Remove k).1.SizeOk := by
  unfold Storage.SizeOk at *
  rw [Storage.remove_capacity]
  have := Storage.remove_length_le st k
  omega

theorem Storage.remove_keyCount_le (st : Storage) (k id : String) :
    keyCount (st.Remove k).1.orders id ≤ keyCount st.orders id := by
  unfold Storage.Remove
  cases hm : mapGet st.orders k
  · simp
  · simp [keyCount_mapDelete]
    split_ifs <;> omega

theorem Storage.remove_isSome_iff (st : Storage) (k : String) :
    ((st.Remove k).2).isSome = true ↔ k ∈ keysOf st.orders := by
  unfold Storage.Remove
  rw [← mapGet_isSome_iff]
  cases hm : mapGet st.orders k <;> simp [hm]

theorem Storage.remove_wellKeyed {st : Storage} {k : String}
    (h : st.WellKeyed) : (st.Remove k).1.WellKeyed := by
  unfold Storage.WellKeyed at *
  unfold Storage.Remove
  cases hm : mapGet st.orders k
  · simpa using h
  · intro p hp
    simp [mapDelete] at hp
    exact h p hp.1

/-! ### Group-level lemmas -/

theorem groupAddScan_fail {storages : List Storage} {so : StoredOrder}
    (h : (groupAddScan storages so).2 = false) :
    (groupAddScan storages so).1 = storages ∧ ∀ st ∈ storages, st.IsFull = true := by
  induction storages with
  | nil => simp [groupAddScan]
  | cons st rest ih =>
    by_cases hf : st.IsFull = true
    · have h' : (groupAddScan rest so).2 = false := by
        simpa [groupAddScan, hf] using h
      rcases ih h' with ⟨h1, h2⟩
      constructor
      · simp [groupAddScan, hf, h1]
      · intro st' hst'
        rcases List.mem_cons.mp hst' with h3 | h3
        · rw [h3]; exact hf
        · exact h2 st' h3
    · exfalso
      simp at hf
      have ha : (st.Add so).2 = true := Storage.add_of_not_full so hf
      simp [groupAddScan, hf, ha] at h

theorem groupAddScan_succ_of_not_full {storages : List Storage} (so : StoredOrder)
    (h : ∃ st ∈ storages, st.IsFull = false) :
    (groupAddScan storages so).2 = true := by
  by_cases hr : (groupAddScan storages so).2 = true
  · exact hr
  · simp at hr
    rcases groupAddScan_fail hr with ⟨_, hall⟩
    rcases h with ⟨st, hst, hfull⟩
    rw [hall st hst] at hfull
    cases hfull

theorem groupAddScan_sizeOk {storages : List Storage} {so : StoredOrder}
    (h : ∀ st ∈ storages, st.SizeOk) :
    ∀ st ∈ (groupAddScan storages so).1, st.SizeOk := by
  induction storages with
  | nil => simp [groupAddScan]
  | cons st rest ih =>
    intro st' hst'
    have hhead := h st (by simp)
    have htail : ∀ s ∈ rest, s.SizeOk := fun s hs => h s (by simp [hs])
    by_cases hf : st.IsFull = true
    · simp [groupAddScan, hf] at hst'
      rcases hst' with hst' | hst'
      · rw [hst']; exact hhead
      · exact ih htail st' hst'
    · simp at hf
      by_cases ha : (st.Add so).2 = true
      · simp [groupAddScan, hf, ha] at hst'
        rcases hst' with hst' | hst'
        · rw [hst']; exact Storage.add_sizeOk so hhead
        · exact htail st' hst'
      · simp at ha
        simp [groupAddScan, hf, ha] at hst'
        rcases hst' with hst' | hst'
        · rw [hst']; exact Storage.add_sizeOk so hhead
        · exact ih htail st' hst'

theorem groupAddScan_keyCount_le (storages : List Storage) (so : StoredOrder) (id : String) :
    listKeyCount (groupAddScan storages so).1 id ≤
      listKeyCount storages id + (if so.order.id = id then 1 else 0) := by
  induction storages with
  | nil => simp [groupAddScan, listKeyCount]
  | cons st rest ih =>
    have hAdd := Storage.add_keyCount_le st so id
    by_cases hf : st.IsFull = true
    · simp [groupAddScan, hf, listKeyCount]
      omega
    · simp at hf
      by_cases ha : (st.Add so).2 = true
      · simp [groupAddScan, hf, ha, listKeyCount]
        omega
      · simp at ha
        have heq := Storage.add_fail_eq ha
        simp [groupAddScan, hf, ha, heq, listKeyCount]
        omega

theorem groupAddScan_wellKeyed {storages : List Storage} {so : StoredOrder}
    (h : ∀ st ∈ storages, st.WellKeyed) :
    ∀ st ∈ (groupAddScan storages so).1, st.WellKeyed := by
  induction storages with
  | nil => simp [groupAddScan]
  | cons st rest ih =>
    intro st' hst'
    have hhead := h st (by simp)
    have htail : ∀ s ∈ rest, s.WellKeyed := fun s hs => h s (by simp [hs])
    by_cases hf : st.IsFull = true
    · simp [groupAddScan, hf] at hst'
      rcases hst' with hst' | hst'
      · rw [hst']; exact hhead
      · exact ih htail st' hst'
    · simp at hf
      by_cases ha : (st.Add so).2 = true
      · simp [groupAddScan, hf, ha] at hst'
        rcases hst' with hst' | hst'
        · rw [hst']; exact Storage.add_wellKeyed hhead
        · exact htail st' hst'
      · simp at ha
        simp [groupAddScan, hf, ha] at hst'
        rcases hst' with hst' | hst'
        · rw [hst']; exact Storage.add_wellKeyed hhead
        · exact ih htail st' hst'

theorem groupRemoveScan_fail {storages : List Storage} {k : String}
    (h : (groupRemoveScan storages k).2 = none) :
    (groupRemoveScan storages k).1 = storages := by
  induction storages with
  | nil => simp [groupRemoveScan]
  | cons st rest ih =>
    cases hr : (st.Remove k).2 with
    | some so => simp [groupRemoveScan, hr] at h
    | none =>
      simp [groupRemoveScan, hr] at h ⊢
      exact ih h

theorem groupRemoveScan_isSome_iff (storages : List Storage) (k : String) :
    ((groupRemoveScan storages k).2).isSome = true ↔
      ∃ st ∈ storages, k ∈ keysOf st.orders := by
  induction storages with
  | nil => simp [groupRemoveScan]
  | cons st rest ih =>
    cases hr : (st.Remove k).2 with
    | some so =>
      have hk : k ∈ keysOf st.orders := (Storage.remove_isSome_iff st k).mp (by simp [hr])
      simp [groupRemoveScan, hr]
      exact Or.inl hk
    | none =>
      have hnot : k ∉ keysOf st.orders := by
        intro hmem
        have := (Storage.remove_isSome_iff st k).mpr hmem
        simp [hr] at this
      simp only [groupRemoveScan, hr]
      rw [ih]
      constructor
      · rintro ⟨s, hs, hk⟩
        exact ⟨s, by simp [hs], hk⟩
      · rintro ⟨s, hs, hk⟩
        rcases List.mem_cons.mp hs with h3 | h3
        · rw [h3] at hk; exact absurd hk hnot
        · exact ⟨s, h3, hk⟩

theorem groupRemoveScan_sizeOk {storages : List Storage} {k : String}
    (h : ∀ st ∈ storages, st.SizeOk) :
    ∀ st ∈ (groupRemoveScan storages k).1, st.SizeOk := by
  induction storages with
  | nil => simp [groupRemoveScan]
  | cons st rest ih =>
    intro st' hst'
    have hhead := h st (by simp)
    have htail : ∀ s ∈ rest, s.SizeOk := fun s hs => h s (by simp [hs])
    cases hr : (st.Remove k).2 with
    | some so =>
      simp [groupRemoveScan, hr] at hst'
      rcases hst' with hst' | hst'
      · rw [hst']; exact Storage.remove_sizeOk k hhead
      · exact htail st' hst'
    | none =>
      simp [groupRemoveScan, hr] at hst'
      rcases hst' with hst' | hst'
      · rw [hst']; exact hhead
      · exact ih htail st' hst'

theorem groupRemoveScan_keyCount_le (storages : List Storage) (k id : String) :
    listKeyCount (groupRemoveScan storages k).1 id ≤ listKeyCount storages id := by
  induction storages with
  | nil => simp [groupRemoveScan, listKeyCount]
  | cons st rest ih =>
    have hr1 := Storage.remove_keyCount_le st k id
    cases hr : (st.Remove k).2 with
    | some so =>
      simp [groupRemoveScan, hr, listKeyCount]
      omega
    | none =>
      simp [groupRemoveScan, hr, listKeyCount]
      omega

theorem groupRemoveScan_wellKeyed {storages : List Storage} {k : String}
    (h : ∀ st ∈ storages, st.WellKeyed) :
    ∀ st ∈ (groupRemoveScan storages k).1, st.WellKeyed := by
  induction storages with
  | nil => simp [groupRemoveScan]
  | cons st rest ih =>
    intro st' hst'
    have hhead := h st (by simp)
    have htail : ∀ s ∈ rest, s.WellKeyed := fun s hs => h s (by simp [hs])
    cases hr : (st.Remove k).2 with
    | some so =>
      simp [groupRemoveScan, hr] at hst'
      rcases hst' with hst' | hst'
      · rw [hst']; exact Storage.remove_wellKeyed hhead
      · exact htail st' hst'
    | none =>
      simp [groupRemoveScan, hr] at hst'
      rcases hst' with hst' | hst'
      · rw [hst']; exact hhead
      · exact ih htail st' hst'

theorem groupRemoveScan_some_freed {storages : List Storage} {k : String} {so : StoredOrder}
    (hsz : ∀ st ∈ storages, st.SizeOk)
    (h : (groupRemoveScan storages k).2 = some so) :
    ∃ st ∈ (groupRemoveScan storages k).1, (st.orders.length : Int) < st.capacity := by
  induction storages with
  | nil => simp [groupRemoveScan] at h
  | cons st rest ih =>
    have hhead := hsz st (by simp)
    have htail : ∀ s ∈ rest, s.SizeOk := fun s hs => hsz s (by simp [hs])
    cases hr : (st.Remove k).2 with
    | some so' =>
      refine ⟨(st.Remove k).1, by simp [groupRemoveScan, hr], ?_⟩
      have hlt := @Storage.remove_some_length st k so' (by simp [hr])
      have hcap := Storage.remove_capacity st k
      unfold Storage.SizeOk at hhead
      omega
    | none =>
      simp [groupRemoveScan, hr] at h
      rcases ih htail h with ⟨st', hst', hlt⟩
      exact ⟨st', by simp [groupRemoveScan, hr, hst'], hlt⟩

/-! ### Atomic-move lemmas -/

theorem destInsertScan_sizeOk {storages storages' : List Storage} {k : String}
    {v : StoredOrder} (hsz : ∀ st ∈ storages, st.SizeOk)
    (h : destInsertScan storages k v = some storages') :
    ∀ st ∈ storages', st.SizeOk := by
  induction storages generalizing storages' with
  | nil => simp [destInsertScan] at h
  | cons st rest ih =>
    have hhead := hsz st (by simp)
    have htail : ∀ s ∈ rest, s.SizeOk := fun s hs => hsz s (by simp [hs])
    by_cases hroom : (st.orders.length : Int) < st.capacity
    · simp [destInsertScan, hroom] at h
      intro s hs
      rw [← h] at hs
      rcases List.mem_cons.mp hs with h3 | h3
      · rw [h3]
        unfold Storage.SizeOk
        simp
        have := length_mapInsert_le st.orders k v
        omega
      · exact htail s h3
    · simp [destInsertScan, hroom] at h
      cases hrec : destInsertScan rest k v with
      | none => simp [hrec] at h
      | some rest' =>
        simp [hrec] at h
        intro s hs
        rw [← h] at hs
        rcases List.mem_cons.mp hs with h3 | h3
        · rw [h3]; exact hhead
        · exact ih htail hrec s h3

theorem destInsertScan_keyCount_le {storages storages' : List Storage} {k : String}
    {v : StoredOrder} (h : destInsertScan storages k v = some storages') (id : String) :
    listKeyCount storages' id ≤ listKeyCount storages id + (if k = id then 1 else 0) := by
  induction storages generalizing storages' with
  | nil => simp [destInsertScan] at h
  | cons st rest ih =>
    by_cases hroom : (st.orders.length : Int) < st.capacity
    · simp [destInsertScan, hroom] at h
      rw [← h]
      simp [listKeyCount]
      have := keyCount_mapInsert_le st.orders k v id
      omega
    · simp [destInsertScan, hroom] at h
      cases hrec : destInsertScan rest k v with
      | none => simp [hrec] at h
      | some rest' =>
        simp [hrec] at h
        rw [← h]
        simp [listKeyCount]
        have := ih hrec
        omega

theorem destInsertScan_wellKeyed {storages storages' : List Storage} {k : String}
    {v : StoredOrder} (hwk : ∀ st ∈ storages, st.WellKeyed) (hv : k = v.order.id)
    (h : destInsertScan storages k v = some storages') :
    ∀ st ∈ storages', st.WellKeyed := by
  induction storages generalizing storages' with
  | nil => simp [destInsertScan] at h
  | cons st rest ih =>
    have hhead := hwk st (by simp)
    have htail : ∀ s ∈ rest, s.WellKeyed := fun s hs => hwk s (by simp [hs])
    by_cases hroom : (st.orders.length : Int) < st.capacity
    · simp [destInsertScan, hroom] at h
      intro s hs
      rw [← h] at hs
      rcases List.mem_cons.mp hs with h3 | h3
      · rw [h3]
        intro p hp
        simp at hp
        rcases mem_mapInsert hp with hp | hp
        · rw [hp, hv]
        · exact hhead p hp
      · exact htail s h3
    · simp [destInsertScan, hroom] at h
      cases hrec : destInsertScan rest k v with
      | none => simp [hrec] at h
      | some rest' =>
        simp [hrec] at h
        intro s hs
        rw [← h] at hs
        rcases List.mem_cons.mp hs with h3 | h3
        · rw [h3]; exact hhead
        · exact ih htail hrec s h3

theorem moveToDestination_fail {source : Storage} {destination : StorageGroup}
    {orderID : String} {order : StoredOrder}
    (h : (moveToDestination source destination orderID order).2.2 = false) :
    moveToDestination source destination orderID order = (source, destination, false) := by
  unfold moveToDestination at *
  cases hd : destInsertScan destination.storages orderID order <;> simp [hd] at *

theorem moveToDestination_keyCount {source : Storage} {destination : StorageGroup}
    (orderID : String) (order : StoredOrder) (id : String)
    (hmem : 1 ≤ keyCount source.orders orderID) :
    keyCount (moveToDestination source destination orderID order).1.orders id +
        listKeyCount (moveToDestination source destination orderID order).2.1.storages id ≤
      keyCount source.orders id + listKeyCount destination.storages id := by
  unfold moveToDestination
  cases hd : destInsertScan destination.storages orderID order with
  | none => simp
  | some storages' =>
    simp [keyCount_mapDelete]
    have hins := destInsertScan_keyCount_le hd id
    by_cases hid : orderID = id
    · subst hid
      simp at hins ⊢
      omega
    · simp [hid] at hins ⊢
      omega

theorem moveToDestination_sizeOk {source : Storage} {destination : StorageGroup}
    {orderID : String} {order : StoredOrder}
    (hsrc : source.SizeOk) (hdst : ∀ st ∈ destination.storages, st.SizeOk) :
    (moveToDestination source destination orderID order).1.SizeOk ∧
      ∀ st ∈ (moveToDestination source destination orderID order).2.1.storages, st.SizeOk := by
  unfold moveToDestination
  cases hd : destInsertScan destination.storages orderID order with
  | none => exact ⟨hsrc, hdst⟩
  | some storages' =>
    constructor
    · unfold Storage.SizeOk at *
      simp
      have := length_mapDelete_le source.orders orderID
      omega
    · simpa using destInsertScan_sizeOk hdst hd

theorem moveToDestination_wellKeyed {source : Storage} {destination : StorageGroup}
    {orderID : String} {order : StoredOrder}
    (hsrc : source.WellKeyed) (hdst : ∀ st ∈ destination.storages, st.WellKeyed)
    (hv : orderID = order.order.id) :
    (moveToDestination source destination orderID order).1.WellKeyed ∧
      ∀ st ∈ (moveToDestination source destination orderID order).2.1.storages,
        st.WellKeyed := by
  unfold moveToDestination
  cases hd : destInsertScan destination.storages orderID order with
  | none => exact ⟨hsrc, hdst⟩
  | some storages' =>
    constructor
    · intro p hp
      simp [mapDelete] at hp
      exact hsrc p hp.1
    · simpa using destInsertScan_wellKeyed hdst hv hd

theorem keyCount_pos_of_mem {m : OrderMap} {k : String} (h : k ∈ keysOf m) :
    1 ≤ keyCount m k := by
  induction m with
  | nil => simp at h
  | cons p rest ih =>
    obtain ⟨k', v'⟩ := p
    by_cases hk : k' = k
    · simp [keyCount, hk]
    · simp [List.mem_cons] at h
      rcases h with h | h
      · exact absurd h.symm hk
      · simp [keyCount, hk]
        exact ih h

theorem atomicMoveOrder_eq_none {source : Storage} {destination : StorageGroup}
    {orderID : String} {now : Int} (hm : mapGet source.orders orderID = none) :
    atomicMoveOrder source destination orderID now = (source, destination, false) := by
  unfold atomicMoveOrder
  rw [hm]

theorem atomicMoveOrder_eq_room {source : Storage} {destination : StorageGroup}
    {orderID : String} {now : Int} {order : StoredOrder}
    (hm : mapGet source.orders orderID = some order)
    (htemp : order.order.temperature = TEMP_TYPE_ROOM) :
    atomicMoveOrder source destination orderID now =
      moveToDestination source destination orderID order := by
  unfold atomicMoveOrder
  rw [hm]
  simp only []
  rw [if_neg (by simp [htemp])]

theorem atomicMoveOrder_eq_expired {source : Storage} {destination : StorageGroup}
    {orderID : String} {now : Int} {order : StoredOrder}
    (hm : mapGet source.orders orderID = some order)
    (htemp : order.order.temperature ≠ TEMP_TYPE_ROOM)
    (hexp : order.order.initialFreshness - 2 * (now - order.placedAt) ≤ 0) :
    atomicMoveOrder source destination orderID now = (source, destination, false) := by
  unfold atomicMoveOrder
  rw [hm]
  simp only []
  rw [if_pos htemp, if_pos hexp]

theorem atomicMoveOrder_eq_rewrite {source : Storage} {destination : StorageGroup}
    {orderID : String} {now : Int} {order : StoredOrder}
    (hm : mapGet source.orders orderID = some order)
    (htemp : order.order.temperature ≠ TEMP_TYPE_ROOM)
    (hexp : ¬ order.order.initialFreshness - 2 * (now - order.placedAt) ≤ 0) :
    atomicMoveOrder source destination orderID now =
      moveToDestination
        { source with orders := mapInsert source.orders orderID (rewriteForMove order now) }
        destination orderID (rewriteForMove order now) := by
  unfold atomicMoveOrder
  rw [hm]
  simp only []
  rw [if_pos htemp, if_neg hexp]
  rfl

theorem atomicMoveOrder_fail {source : Storage} {destination : StorageGroup}
    {orderID : String} {now : Int}
    (h : (atomicMoveOrder source destination orderID now).2.2 = false) :
    keysOf (atomicMoveOrder source destination orderID now).1.orders =
        keysOf source.orders ∧
      (atomicMoveOrder source destination orderID now).1.capacity = source.capacity ∧
      (atomicMoveOrder source destination orderID now).2.1 = destination := by
  cases hm : mapGet source.orders orderID with
  | none => rw [atomicMoveOrder_eq_none hm]; simp
  | some order =>
    have hmem : orderID ∈ keysOf source.orders := mapGet_isSome_iff.mp (by simp [hm])
    by_cases htemp : order.order.temperature ≠ TEMP_TYPE_ROOM
    · by_cases hexp : order.order.initialFreshness - 2 * (now - order.placedAt) ≤ 0
      · rw [atomicMoveOrder_eq_expired hm htemp hexp]; simp
      · rw [atomicMoveOrder_eq_rewrite hm htemp hexp] at h ⊢
        rw [moveToDestination_fail h]
        simpa using keysOf_mapInsert_of_mem _ hmem
    · rw [atomicMoveOrder_eq_room hm (not_not.mp htemp)] at h ⊢
      rw [moveToDestination_fail h]
      simp

theorem atomicMoveOrder_success_length {source : Storage} {destination : StorageGroup}
    {orderID : String} {now : Int}
    (h : (atomicMoveOrder source destination orderID now).2.2 = true) :
    (atomicMoveOrder source destination orderID now).1.orders.length <
        source.orders.length ∧
      (atomicMoveOrder source destination orderID now).1.capacity = source.capacity := by
  cases hm : mapGet source.orders orderID with
  | none => rw [atomicMoveOrder_eq_none hm] at h; cases h
  | some order =>
    have hmem : orderID ∈ keysOf source.orders := mapGet_isSome_iff.mp (by simp [hm])
    by_cases htemp : order.order.temperature ≠ TEMP_TYPE_ROOM
    · by_cases hexp : order.order.initialFreshness - 2 * (now - order.placedAt) ≤ 0
      · rw [atomicMoveOrder_eq_expired hm htemp hexp] at h; cases h
      · rw [atomicMoveOrder_eq_rewrite hm htemp hexp] at h ⊢
        unfold moveToDestination at h ⊢
        cases hd : destInsertScan destination.storages orderID (rewriteForMove order now) with
        | none => simp [hd] at h
        | some storages' =>
          simp [hd]
          have hlen := @length_mapInsert_of_mem source.orders orderID
            (rewriteForMove order now) hmem
          have hdel := @length_mapDelete_lt_of_mem
            (mapInsert source.orders orderID (rewriteForMove order now)) orderID
            (mem_keysOf_mapInsert source.orders orderID (rewriteForMove order now))
          omega
    · rw [atomicMoveOrder_eq_room hm (not_not.mp htemp)] at h ⊢
      unfold moveToDestination at h ⊢
      cases hd : destInsertScan destination.storages orderID order with
      | none => simp [hd] at h
      | some storages' =>
        simp [hd]
        exact length_mapDelete_lt_of_mem hmem

theorem atomicMoveOrder_keyCount (source : Storage) (destination : StorageGroup)
    (orderID : String) (now : Int) (id : String) :
    keyCount (atomicMoveOrder source destination orderID now).1.orders id +
        listKeyCount (atomicMoveOrder source destination orderID now).2.1.storages id ≤
      keyCount source.orders id + listKeyCount destination.storages id := by
  cases hm : mapGet source.orders orderID with
  | none => rw [atomicMoveOrder_eq_none hm]
  | some order =>
    have hmem : orderID ∈ keysOf source.orders := mapGet_isSome_iff.mp (by simp [hm])
    by_cases htemp : order.order.temperature ≠ TEMP_TYPE_ROOM
    · by_cases hexp : order.order.initialFreshness - 2 * (now - order.placedAt) ≤ 0
      · rw [atomicMoveOrder_eq_expired hm htemp hexp]
      · rw [atomicMoveOrder_eq_rewrite hm htemp hexp]
        have hcnt := keyCount_mapInsert_of_mem source.orders orderID
          (rewriteForMove order now) id hmem
        have hbound := @moveToDestination_keyCount
          { source with
            orders := mapInsert source.orders orderID (rewriteForMove order now) }
          destination orderID (rewriteForMove order now) id
          (by simpa using
            keyCount_pos_of_mem (mem_keysOf_mapInsert source.orders orderID
              (rewriteForMove order now)))
        simp at hbound
        omega
    · rw [atomicMoveOrder_eq_room hm (not_not.mp htemp)]
      exact moveToDestination_keyCount orderID order id (keyCount_pos_of_mem hmem)

theorem atomicMoveOrder_sizeOk {source : Storage} {destination : StorageGroup}
    (orderID : String) (now : Int)
    (hsrc : source.SizeOk) (hdst : ∀ st ∈ destination.storages, st.SizeOk) :
    (atomicMoveOrder source destination orderID now).1.SizeOk ∧
      ∀ st ∈ (atomicMoveOrder source destination orderID now).2.1.storages, st.SizeOk := by
  cases hm : mapGet source.orders orderID with
  | none => rw [atomicMoveOrder_eq_none hm]; exact ⟨hsrc, hdst⟩
  | some order =>
    have hmem : orderID ∈ keysOf source.orders := mapGet_isSome_iff.mp (by simp [hm])
    by_cases htemp : order.order.temperature ≠ TEMP_TYPE_ROOM
    · by_cases hexp : order.order.initialFreshness - 2 * (now - order.placedAt) ≤ 0
      · rw [atomicMoveOrder_eq_expired hm htemp hexp]; exact ⟨hsrc, hdst⟩
      · rw [atomicMoveOrder_eq_rewrite hm htemp hexp]
        refine moveToDestination_sizeOk ?_ hdst
        unfold Storage.SizeOk at *
        simpa [length_mapInsert_of_mem _ hmem] using hsrc
    · rw [atomicMoveOrder_eq_room hm (not_not.mp htemp)]
      exact moveToDestination_sizeOk hsrc hdst

theorem atomicMoveOrder_wellKeyed {source : Storage} {destination : StorageGroup}
    (orderID : String) (now : Int)
    (hsrc : source.WellKeyed) (hdst : ∀ st ∈ destination.storages, st.WellKeyed) :
    (atomicMoveOrder source destination orderID now).1.WellKeyed ∧
      ∀ st ∈ (atomicMoveOrder source destination orderID now).2.1.storages,
        st.WellKeyed := by
  cases hm : mapGet source.orders orderID with
  | none => rw [atomicMoveOrder_eq_none hm]; exact ⟨hsrc, hdst⟩
  | some order =>
    have hid : orderID = order.order.id := hsrc _ (mapGet_eq_some_mem hm)
    by_cases htemp : order.order.temperature ≠ TEMP_TYPE_ROOM
    · by_cases hexp : order.order.initialFreshness - 2 * (now - order.placedAt) ≤ 0
      · rw [atomicMoveOrder_eq_expired hm htemp hexp]; exact ⟨hsrc, hdst⟩
      · rw [atomicMoveOrder_eq_rewrite hm htemp hexp]
        refine moveToDestination_wellKeyed ?_ hdst (by simpa [rewriteForMove] using hid)
        intro p hp
        simp at hp
        rcases mem_mapInsert hp with hp | hp
        · rw [hp]
          simpa [rewriteForMove] using hid
        · exact hsrc p hp
    · rw [atomicMoveOrder_eq_room hm (not_not.mp htemp)]
      exact moveToDestination_wellKeyed hsrc hdst hid

theorem KeysPreserved.refl (a : Storage) : KeysPreserved a a := ⟨rfl, rfl⟩

theorem forall2_keysPreserved_trans {l1 l2 l3 : List Storage}
    (h1 : List.Forall₂ KeysPreserved l1 l2) (h2 : List.Forall₂ KeysPreserved l2 l3) :
    List.Forall₂ KeysPreserved l1 l3 := by
  induction h1 generalizing l3 with
  | nil => cases h2; exact List.Forall₂.nil
  | cons hab hrest ih =>
    cases h2 with
    | cons hbc hrest2 =>
      exact List.Forall₂.cons ⟨hbc.1.trans hab.1, hbc.2.trans hab.2⟩ (ih hrest2)

theorem forall2_keysPreserved_refl (l : List Storage) :
    List.Forall₂ KeysPreserved l l := by
  induction l with
  | nil => exact List.Forall₂.nil
  | cons a rest ih => exact List.Forall₂.cons (KeysPreserved.refl a) ih

theorem forall2_keysPreserved_isFull {l l' : List Storage}
    (h : List.Forall₂ KeysPreserved l l') :
    (StorageGroup.mk l').IsFull = (StorageGroup.mk l).IsFull := by
  induction h with
  | nil => rfl
  | cons hab hrest ih =>
    rename_i a b l1 l2
    have hfull : b.IsFull = a.IsFull := by
      unfold Storage.IsFull
      have hlen : b.orders.length = a.orders.length := by
        have := congrArg List.length hab.1
        simpa [keysOf] using this
      rw [hlen, hab.2]
    simp [StorageGroup.IsFull] at ih ⊢
    rw [hfull, ih]

theorem forall2_keysPreserved_mem_key {l l' : List Storage}
    (h : List.Forall₂ KeysPreserved l l') (k : String) :
    (∃ st ∈ l', k ∈ keysOf st.orders) ↔ (∃ st ∈ l, k ∈ keysOf st.orders) := by
  induction h with
  | nil => simp
  | cons hab hrest ih =>
    rename_i a b l1 l2
    simp only [List.mem_cons]
    constructor
    · rintro ⟨st, hst, hk⟩
      rcases hst with hst | hst
      · exact ⟨a, Or.inl rfl, by rw [← hab.1, ← hst]; exact hk⟩
      · rcases ih.mp ⟨st, hst, hk⟩ with ⟨st2, hst2, hk2⟩
        exact ⟨st2, Or.inr hst2, hk2⟩
    · rintro ⟨st, hst, hk⟩
      rcases hst with hst | hst
      · exact ⟨b, Or.inl rfl, by rw [hab.1, ← hst]; exact hk⟩
      · rcases ih.mpr ⟨st, hst, hk⟩ with ⟨st2, hst2, hk2⟩
        exact ⟨st2, Or.inr hst2, hk2⟩

theorem moveOverShelfStorages_fail {storages : List Storage} {destination : StorageGroup}
    {orderID : String} {now : Int}
    (h : (moveOverShelfStorages storages destination orderID now).2.2 = false) :
    List.Forall₂ KeysPreserved storages
        (moveOverShelfStorages storages destination orderID now).1 ∧
      (moveOverShelfStorages storages destination orderID now).2.1 = destination := by
  induction storages generalizing destination with
  | nil => exact ⟨List.Forall₂.nil, rfl⟩
  | cons st rest ih =>
    by_cases hs : (atomicMoveOrder st destination orderID now).2.2 = true
    · exfalso
      simp [moveOverShelfStorages, hs] at h
    · simp at hs
      rcases atomicMoveOrder_fail hs with ⟨hk, hc, hd⟩
      simp only [moveOverShelfStorages, hs] at h ⊢
      simp only [Bool.false_eq_true, if_false] at h ⊢
      rw [hd] at h ⊢
      rcases @ih destination h with ⟨h1, h2⟩
      exact ⟨List.Forall₂.cons ⟨hk, hc⟩ h1, h2⟩

theorem moveOverShelfStorages_sizeOk {storages : List Storage} {destination : StorageGroup}
    (orderID : String) (now : Int)
    (hsz : ∀ st ∈ storages, st.SizeOk) (hdst : ∀ st ∈ destination.storages, st.SizeOk) :
    (∀ st ∈ (moveOverShelfStorages storages destination orderID now).1, st.SizeOk) ∧
      ∀ st ∈ (moveOverShelfStorages storages destination orderID now).2.1.storages,
        st.SizeOk := by
  induction storages generalizing destination with
  | nil => exact ⟨by simp [moveOverShelfStorages], by simpa [moveOverShelfStorages] using hdst⟩
  | cons st rest ih =>
    have hhead := hsz st (by simp)
    have htail : ∀ s ∈ rest, s.SizeOk := fun s hs => hsz s (by simp [hs])
    rcases @atomicMoveOrder_sizeOk st destination orderID now
      hhead hdst with ⟨h1, h2⟩
    by_cases hs : (atomicMoveOrder st destination orderID now).2.2 = true
    · simp only [moveOverShelfStorages, hs, if_true]
      constructor
      · intro s hs2
        rcases List.mem_cons.mp hs2 with h3 | h3
        · rw [h3]; exact h1
        · exact htail s h3
      · exact h2
    · simp at hs
      simp only [moveOverShelfStorages, hs, Bool.false_eq_true, if_false]
      rcases @ih (atomicMoveOrder st destination orderID now).2.1 htail h2
        with ⟨h3, h4⟩
      constructor
      · intro s hs2
        rcases List.mem_cons.mp hs2 with h5 | h5
        · rw [h5]; exact h1
        · exact h3 s h5
      · exact h4

theorem moveOverShelfStorages_wellKeyed {storages : List Storage}
    {destination : StorageGroup} (orderID : String) (now : Int)
    (hwk : ∀ st ∈ storages, st.WellKeyed)
    (hdst : ∀ st ∈ destination.storages, st.WellKeyed) :
    (∀ st ∈ (moveOverShelfStorages storages destination orderID now).1, st.WellKeyed) ∧
      ∀ st ∈ (moveOverShelfStorages storages destination orderID now).2.1.storages,
        st.WellKeyed := by
  induction storages generalizing destination with
  | nil => exact ⟨by simp [moveOverShelfStorages], by simpa [moveOverShelfStorages] using hdst⟩
  | cons st rest ih =>
    have hhead := hwk st (by simp)
    have htail : ∀ s ∈ rest, s.WellKeyed := fun s hs => hwk s (by simp [hs])
    rcases @atomicMoveOrder_wellKeyed st destination orderID now
      hhead hdst with ⟨h1, h2⟩
    by_cases hs : (atomicMoveOrder st destination orderID now).2.2 = true
    · simp only [moveOverShelfStorages, hs, if_true]
      constructor
      · intro s hs2
        rcases List.mem_cons.mp hs2 with h3 | h3
        · rw [h3]; exact h1
        · exact htail s h3
      · exact h2
    · simp at hs
      simp only [moveOverShelfStorages, hs, Bool.false_eq_true, if_false]
      rcases @ih (atomicMoveOrder st destination orderID now).2.1 htail h2
        with ⟨h3, h4⟩
      constructor
      · intro s hs2
        rcases List.mem_cons.mp hs2 with h5 | h5
        · rw [h5]; exact h1
        · exact h3 s h5
      · exact h4

theorem moveOverShelfStorages_keyCount (storages : List Storage)
    (destination : StorageGroup) (orderID : String) (now : Int) (id : String) :
    listKeyCount (moveOverShelfStorages storages destination orderID now).1 id +
        listKeyCount
          (moveOverShelfStorages storages destination orderID now).2.1.storages id ≤
      listKeyCount storages id + listKeyCount destination.storages id := by
  induction storages generalizing destination with
  | nil => simp [moveOverShelfStorages, listKeyCount]
  | cons st rest ih =>
    have hhead := atomicMoveOrder_keyCount st destination orderID now id
    by_cases hs : (atomicMoveOrder st destination orderID now).2.2 = true
    · simp only [moveOverShelfStorages, hs, if_true]
      simp [listKeyCount]
      omega
    · simp at hs
      simp only [moveOverShelfStorages, hs, Bool.false_eq_true, if_false]
      have htail := ih (atomicMoveOrder st destination orderID now).2.1
      simp [listKeyCount]
      omega

theorem moveOverShelfStorages_success_freed {storages : List Storage}
    {destination : StorageGroup} {orderID : String} {now : Int}
    (hsz : ∀ st ∈ storages, st.SizeOk)
    (h : (moveOverShelfStorages storages destination orderID now).2.2 = true) :
    ∃ st ∈ (moveOverShelfStorages storages destination orderID now).1,
      (st.orders.length : Int) < st.capacity := by
  induction storages generalizing destination with
  | nil => simp [moveOverShelfStorages] at h
  | cons st rest ih =>
    have hhead := hsz st (by simp)
    have htail : ∀ s ∈ rest, s.SizeOk := fun s hs => hsz s (by simp [hs])
    by_cases hs : (atomicMoveOrder st destination orderID now).2.2 = true
    · simp only [moveOverShelfStorages, hs, if_true]
      rcases atomicMoveOrder_success_length hs with ⟨hlen, hcap⟩
      refine ⟨(atomicMoveOrder st destination orderID now).1, by simp, ?_⟩
      rw [hcap]
      unfold Storage.SizeOk at hhead
      omega
    · simp at hs
      simp only [moveOverShelfStorages, hs, Bool.false_eq_true, if_false] at h ⊢
      rcases @ih (atomicMoveOrder st destination orderID now).2.1 htail h
        with ⟨s, hmem, hlt⟩
      exact ⟨s, by simp [hmem], hlt⟩

theorem tryMoveScan_none {snapshot : List StoredOrder} {temp : String}
    {storages : List Storage} {destination : StorageGroup} {now : Int}
    (h : (tryMoveScan snapshot temp storages destination now).2.2 = none) :
    List.Forall₂ KeysPreserved storages
        (tryMoveScan snapshot temp storages destination now).1 ∧
      (tryMoveScan snapshot temp storages destination now).2.1 = destination := by
  induction snapshot generalizing storages destination with
  | nil => exact ⟨forall2_keysPreserved_refl storages, rfl⟩
  | cons so rest ih =>
    by_cases htemp : so.order.temperature = temp
    · by_cases hmv : (moveOverShelfStorages storages destination so.order.id now).2.2 = true
      · exfalso
        simp [tryMoveScan, htemp, hmv] at h
      · simp at hmv
        rcases moveOverShelfStorages_fail hmv with ⟨h1, h2⟩
        simp only [tryMoveScan, htemp, if_true, hmv, Bool.false_eq_true, if_false] at h ⊢
        rw [h2] at h ⊢
        rcases ih h with ⟨h3, h4⟩
        exact ⟨forall2_keysPreserved_trans h1 h3, h4⟩
    · simp only [tryMoveScan, htemp, if_false] at h ⊢
      exact ih h

theorem tryMoveScan_sizeOk {snapshot : List StoredOrder} {temp : String}
    {storages : List Storage} {destination : StorageGroup} (now : Int)
    (hsz : ∀ st ∈ storages, st.SizeOk) (hdst : ∀ st ∈ destination.storages, st.SizeOk) :
    (∀ st ∈ (tryMoveScan snapshot temp storages destination now).1, st.SizeOk) ∧
      ∀ st ∈ (tryMoveScan snapshot temp storages destination now).2.1.storages,
        st.SizeOk := by
  induction snapshot generalizing storages destination with
  | nil => exact ⟨hsz, hdst⟩
  | cons so rest ih =>
    by_cases htemp : so.order.temperature = temp
    · rcases moveOverShelfStorages_sizeOk so.order.id now hsz hdst with ⟨h1, h2⟩
      by_cases hmv : (moveOverShelfStorages storages destination so.order.id now).2.2 = true
      · simp only [tryMoveScan, htemp, if_true, hmv]
        exact ⟨h1, h2⟩
      · simp at hmv
        simp only [tryMoveScan, htemp, if_true, hmv, Bool.false_eq_true, if_false]
        exact ih h1 h2
    · simp only [tryMoveScan, htemp, if_false]
      exact ih hsz hdst

theorem tryMoveScan_wellKeyed {snapshot : List StoredOrder} {temp : String}
    {storages : List Storage} {destination : StorageGroup} (now : Int)
    (hwk : ∀ st ∈ storages, st.WellKeyed)
    (hdst : ∀ st ∈ destination.storages, st.WellKeyed) :
    (∀ st ∈ (tryMoveScan snapshot temp storages destination now).1, st.WellKeyed) ∧
      ∀ st ∈ (tryMoveScan snapshot temp storages destination now).2.1.storages,
        st.WellKeyed := by
  induction snapshot generalizing storages destination with
  | nil => exact ⟨hwk, hdst⟩
  | cons so rest ih =>
    by_cases htemp : so.order.temperature = temp
    · rcases moveOverShelfStorages_wellKeyed so.order.id now hwk hdst with ⟨h1, h2⟩
      by_cases hmv : (moveOverShelfStorages storages destination so.order.id now).2.2 = true
      · simp only [tryMoveScan, htemp, if_true, hmv]
        exact ⟨h1, h2⟩
      · simp at hmv
        simp only [tryMoveScan, htemp, if_true, hmv, Bool.false_eq_true, if_false]
        exact ih h1 h2
    · simp only [tryMoveScan, htemp, if_false]
      exact ih hwk hdst

theorem tryMoveScan_keyCount (snapshot : List StoredOrder) (temp : String)
    (storages : List Storage) (destination : StorageGroup) (now : Int) (id : String) :
    listKeyCount (tryMoveScan snapshot temp storages destination now).1 id +
        listKeyCount (tryMoveScan snapshot temp storages destination now).2.1.storages id ≤
      listKeyCount storages id + listKeyCount destination.storages id := by
  induction snapshot generalizing storages destination with
  | nil => simp [tryMoveScan]
  | cons so rest ih =>
    by_cases htemp : so.order.temperature = temp
    · have hhead := moveOverShelfStorages_keyCount storages destination so.order.id now id
      by_cases hmv : (moveOverShelfStorages storages destination so.order.id now).2.2 = true
      · simp only [tryMoveScan, htemp, if_true, hmv]
        omega
      · simp at hmv
        simp only [tryMoveScan, htemp, if_true, hmv, Bool.false_eq_true, if_false]
        have htail := ih
          (moveOverShelfStorages storages destination so.order.id now).1
          (moveOverShelfStorages storages destination so.order.id now).2.1
        omega
    · simp only [tryMoveScan, htemp, if_false]
      exact ih storages destination

theorem tryMoveScan_some_freed {snapshot : List StoredOrder} {temp : String}
    {storages : List Storage} {destination : StorageGroup} {now : Int} {oid : String}
    (hsz : ∀ st ∈ storages, st.SizeOk)
    (hdst : ∀ st ∈ destination.storages, st.SizeOk)
    (h : (tryMoveScan snapshot temp storages destination now).2.2 = some oid) :
    ∃ st ∈ (tryMoveScan snapshot temp storages destination now).1,
      (st.orders.length : Int) < st.capacity := by
  induction snapshot generalizing storages destination with
  | nil => simp [tryMoveScan] at h
  | cons so rest ih =>
    by_cases htemp : so.order.temperature = temp
    · by_cases hmv : (moveOverShelfStorages storages destination so.order.id now).2.2 = true
      · simp only [tryMoveScan, htemp, if_true, hmv]
        exact moveOverShelfStorages_success_freed hsz hmv
      · simp at hmv
        simp only [tryMoveScan, htemp, if_true, hmv, Bool.false_eq_true, if_false] at h ⊢
        rcases moveOverShelfStorages_sizeOk so.order.id now hsz hdst with ⟨h1, h2⟩
        exact ih h1 h2 h
    · simp only [tryMoveScan, htemp, if_false] at h ⊢
      exact ih hsz hdst h

theorem getLeastFreshOrder_eq_foldl (sg : StorageGroup) (now : Int) :
    sg.GetLeastFreshOrder now = sg.ListOrders.foldl (leastStep now) none := rfl

theorem foldl_leastStep_some (now : Int) (l : List StoredOrder) (x : StoredOrder) :
    ∃ y, l.foldl (leastStep now) (some x) = some y ∧ (y = x ∨ y ∈ l) := by
  induction l generalizing x with
  | nil => exact ⟨x, rfl, Or.inl rfl⟩
  | cons a rest ih =>
    by_cases hlt : a.RemainingFreshness now < x.RemainingFreshness now
    · rcases ih a with ⟨y, hy, hm⟩
      refine ⟨y, ?_, ?_⟩
      · simpa [leastStep, hlt] using hy
      · rcases hm with hm | hm
        · exact Or.inr (by simp [hm])
        · exact Or.inr (by simp [hm])
    · rcases ih x with ⟨y, hy, hm⟩
      refine ⟨y, ?_, ?_⟩
      · simpa [leastStep, hlt] using hy
      · rcases hm with hm | hm
        · exact Or.inl hm
        · exact Or.inr (by simp [hm])

theorem getLeastFreshOrder_some_of_ne_nil {sg : StorageGroup} {now : Int}
    (h : sg.ListOrders ≠ []) :
    ∃ c, sg.GetLeastFreshOrder now = some c ∧ c ∈ sg.ListOrders := by
  rw [getLeastFreshOrder_eq_foldl]
  cases hl : sg.ListOrders with
  | nil => exact absurd hl h
  | cons a rest =>
    have : (a :: rest).foldl (leastStep now) none = rest.foldl (leastStep now) (some a) := by
      simp [leastStep]
    rw [this]
    rcases foldl_leastStep_some now rest a with ⟨y, hy, hm⟩
    refine ⟨y, hy, ?_⟩
    rcases hm with hm | hm
    · simp [hm]
    · simp [hm]

theorem getLeastFreshOrder_mem {sg : StorageGroup} {now : Int} {c : StoredOrder}
    (h : sg.GetLeastFreshOrder now = some c) : c ∈ sg.ListOrders := by
  cases hl : sg.ListOrders with
  | nil =>
    rw [getLeastFreshOrder_eq_foldl, hl] at h
    simp at h
  | cons a rest =>
    have hne : sg.ListOrders ≠ [] := by rw [hl]; simp
    rcases @getLeastFreshOrder_some_of_ne_nil _ now hne with ⟨c2, hc2, hm⟩
    rw [h] at hc2
    have hcc : c = c2 := Option.some_inj.mp hc2
    rw [hl] at hm
    rw [hcc]
    exact hm

theorem mem_listOrders_key {sg : StorageGroup} {so : StoredOrder}
    (hwk : ∀ st ∈ sg.storages, st.WellKeyed) (h : so ∈ sg.ListOrders) :
    ∃ st ∈ sg.storages, so.order.id ∈ keysOf st.orders := by
  unfold StorageGroup.ListOrders at h
  rcases List.mem_flatten.mp h with ⟨l, hl, hso⟩
  rcases List.mem_map.mp hl with ⟨st, hst, hmap⟩
  rw [← hmap] at hso
  unfold Storage.ListOrders at hso
  rcases List.mem_map.mp hso with ⟨p, hp, hsnd⟩
  refine ⟨st, hst, ?_⟩
  have hk := hwk st hst p hp
  rw [← hsnd, ← hk] at *
  exact List.mem_map.mpr ⟨p, hp, rfl⟩

theorem storage_not_full_iff (st : Storage) :
    st.IsFull = false ↔ (st.orders.length : Int) < st.capacity := by
  unfold Storage.IsFull
  simp

theorem group_isFull_iff (sg : StorageGroup) :
    sg.IsFull = true ↔ ∀ st ∈ sg.storages, st.IsFull = true := by
  unfold StorageGroup.IsFull
  simp [List.all_eq_true]

theorem group_add_fail {sg : StorageGroup} {so : StoredOrder}
    (h : (sg.Add so).2 = false) : (sg.Add so).1 = sg ∧ sg.IsFull = true := by
  unfold StorageGroup.Add at *
  rcases groupAddScan_fail h with ⟨h1, h2⟩
  constructor
  · simp [h1]
  · rw [group_isFull_iff]
    exact h2

theorem group_add_succ {sg : StorageGroup} (so : StoredOrder)
    (h : ∃ st ∈ sg.storages, (st.orders.length : Int) < st.capacity) :
    (sg.Add so).2 = true := by
  unfold StorageGroup.Add
  rcases h with ⟨st, hst, hlt⟩
  exact groupAddScan_succ_of_not_full so ⟨st, hst, (storage_not_full_iff st).mpr hlt⟩

theorem group_add_sizeOk {sg : StorageGroup} {so : StoredOrder}
    (h : sg.SizeOk) : (sg.Add so).1.SizeOk := by
  unfold StorageGroup.Add StorageGroup.SizeOk at *
  simpa using groupAddScan_sizeOk h

theorem group_add_wellKeyed {sg : StorageGroup} {so : StoredOrder}
    (h : ∀ st ∈ sg.storages, st.WellKeyed) :
    ∀ st ∈ (sg.Add so).1.storages, st.WellKeyed := by
  unfold StorageGroup.Add
  simpa using groupAddScan_wellKeyed h

theorem group_add_keyCount_le (sg : StorageGroup) (so : StoredOrder) (id : String) :
    listKeyCount (sg.Add so).1.storages id ≤
      listKeyCount sg.storages id + (if so.order.id = id then 1 else 0) := by
  unfold StorageGroup.Add
  simpa using groupAddScan_keyCount_le sg.storages so id

theorem group_remove_fail {sg : StorageGroup} {k : String}
    (h : (sg.Remove k).2 = none) : (sg.Remove k).1 = sg := by
  unfold StorageGroup.Remove at *
  simp [groupRemoveScan_fail h]

theorem group_remove_isSome_iff (sg : StorageGroup) (k : String) :
    ((sg.Remove k).2).isSome = true ↔ ∃ st ∈ sg.storages, k ∈ keysOf st.orders := by
  unfold StorageGroup.Remove
  simpa using groupRemoveScan_isSome_iff sg.storages k

theorem group_remove_sizeOk {sg : StorageGroup} {k : String}
    (h : sg.SizeOk) : (sg.Remove k).1.SizeOk := by
  unfold StorageGroup.Remove StorageGroup.SizeOk at *
  simpa using groupRemoveScan_sizeOk h

theorem group_remove_wellKeyed {sg : StorageGroup} {k : String}
    (h : ∀ st ∈ sg.storages, st.WellKeyed) :
    ∀ st ∈ (sg.Remove k).1.storages, st.WellKeyed := by
  unfold StorageGroup.Remove
  simpa using groupRemoveScan_wellKeyed h

theorem group_remove_keyCount_le (sg : StorageGroup) (k id : String) :
    listKeyCount (sg.Remove k).1.storages id ≤ listKeyCount sg.storages id := by
  unfold StorageGroup.Remove
  simpa using groupRemoveScan_keyCount_le sg.storages k id

theorem group_remove_some_freed {sg : StorageGroup} {k : String} {so : StoredOrder}
    (hsz : sg.SizeOk) (h : (sg.Remove k).2 = some so) :
    ∃ st ∈ (sg.Remove k).1.storages, (st.orders.length : Int) < st.capacity := by
  unfold StorageGroup.Remove at *
  simpa using groupRemoveScan_some_freed hsz (by simpa using h)

/-- Projection facts for logAction. -/

theorem logAction_spec (fs : FulfillmentSystem) (orderID actionType : String) (t : Int) :
    (fs.logAction orderID actionType t).coolerGroup = fs.coolerGroup ∧
      (fs.logAction orderID actionType t).heaterGroup = fs.heaterGroup ∧
      (fs.logAction orderID actionType t).shelfGroup = fs.shelfGroup ∧
      (fs.logAction orderID actionType t).actions =
        fs.actions ++ [⟨Int.tdiv t 1000, orderID, actionType⟩] := by
  unfold FulfillmentSystem.logAction
  exact ⟨rfl, rfl, rfl, rfl⟩

theorem tryMoveFromShelfGroup_eq_other {fs : FulfillmentSystem} {temp : String} {now : Int}
    (h1 : temp ≠ TEMP_TYPE_HOT) (h2 : temp ≠ TEMP_TYPE_COLD) :
    fs.tryMoveFromShelfGroup temp now = (fs, false) := by
  unfold FulfillmentSystem.tryMoveFromShelfGroup
  rw [if_neg h1, if_neg h2]

theorem tryMoveFromShelfGroup_eq_hot {fs : FulfillmentSystem} {now : Int} :
    fs.tryMoveFromShelfGroup TEMP_TYPE_HOT now =
      (match (tryMoveScan fs.shelfGroup.ListOrders TEMP_TYPE_HOT fs.shelfGroup.storages
          fs.heaterGroup now).2.2 with
        | some oid =>
          (({ fs with
              shelfGroup := ⟨(tryMoveScan fs.shelfGroup.ListOrders TEMP_TYPE_HOT
                fs.shelfGroup.storages fs.heaterGroup now).1⟩,
              heaterGroup := (tryMoveScan fs.shelfGroup.ListOrders TEMP_TYPE_HOT
                fs.shelfGroup.storages fs.heaterGroup now).2.1 }).logAction
            oid ACTION_TYPE_MOVE now, true)
        | none =>
          ({ fs with
              shelfGroup := ⟨(tryMoveScan fs.shelfGroup.ListOrders TEMP_TYPE_HOT
                fs.shelfGroup.storages fs.heaterGroup now).1⟩,
              heaterGroup := (tryMoveScan fs.shelfGroup.ListOrders TEMP_TYPE_HOT
                fs.shelfGroup.storages fs.heaterGroup now).2.1 }, false)) := by
  unfold FulfillmentSystem.tryMoveFromShelfGroup
  rw [if_pos rfl]

theorem tryMoveFromShelfGroup_eq_cold {fs : FulfillmentSystem} {now : Int} :
    fs.tryMoveFromShelfGroup TEMP_TYPE_COLD now =
      (match (tryMoveScan fs.shelfGroup.ListOrders TEMP_TYPE_COLD fs.shelfGroup.storages
          fs.coolerGroup now).2.2 with
        | some oid =>
          (({ fs with
              shelfGroup := ⟨(tryMoveScan fs.shelfGroup.ListOrders TEMP_TYPE_COLD
                fs.shelfGroup.storages fs.coolerGroup now).1⟩,
              coolerGroup := (tryMoveScan fs.shelfGroup.ListOrders TEMP_TYPE_COLD
                fs.shelfGroup.storages fs.coolerGroup now).2.1 }).logAction
            oid ACTION_TYPE_MOVE now, true)
        | none =>
          ({ fs with
              shelfGroup := ⟨(tryMoveScan fs.shelfGroup.ListOrders TEMP_TYPE_COLD
                fs.shelfGroup.storages fs.coolerGroup now).1⟩,
              coolerGroup := (tryMoveScan fs.shelfGroup.ListOrders TEMP_TYPE_COLD
                fs.shelfGroup.storages fs.coolerGroup now).2.1 }, false)) := by
  unfold FulfillmentSystem.tryMoveFromShelfGroup
  rw [if_neg (by decide), if_pos rfl]

theorem tryMoveFromShelfGroup_sizeOk (fs : FulfillmentSystem) (temp : String) (now : Int)
    (h : fs.SizeOk) : (fs.tryMoveFromShelfGroup temp now).1.SizeOk := by
  rcases h with ⟨hc, hh, hs⟩
  by_cases h1 : temp = TEMP_TYPE_HOT
  · subst h1
    rcases @tryMoveScan_sizeOk fs.shelfGroup.ListOrders TEMP_TYPE_HOT
      fs.shelfGroup.storages fs.heaterGroup now hs hh
      with ⟨h2, h3⟩
    rw [tryMoveFromShelfGroup_eq_hot]
    cases hscan : (tryMoveScan fs.shelfGroup.ListOrders TEMP_TYPE_HOT fs.shelfGroup.storages
        fs.heaterGroup now).2.2 with
    | some oid =>
      simp only [hscan]
      unfold FulfillmentSystem.SizeOk StorageGroup.SizeOk at *
      simp [FulfillmentSystem.logAction]
      exact ⟨hc, h3, h2⟩
    | none =>
      simp only [hscan]
      unfold FulfillmentSystem.SizeOk StorageGroup.SizeOk at *
      simp
      exact ⟨hc, h3, h2⟩
  · by_cases h2 : temp = TEMP_TYPE_COLD
    · subst h2
      rcases @tryMoveScan_sizeOk fs.shelfGroup.ListOrders
        TEMP_TYPE_COLD fs.shelfGroup.storages
        fs.coolerGroup now hs hc with ⟨h3, h4⟩
      rw [tryMoveFromShelfGroup_eq_cold]
      cases hscan : (tryMoveScan fs.shelfGroup.ListOrders TEMP_TYPE_COLD
          fs.shelfGroup.storages fs.coolerGroup now).2.2 with
      | some oid =>
        simp only [hscan]
        unfold FulfillmentSystem.SizeOk StorageGroup.SizeOk at *
        simp [FulfillmentSystem.logAction]
        exact ⟨h4, hh, h3⟩
      | none =>
        simp only [hscan]
        unfold FulfillmentSystem.SizeOk StorageGroup.SizeOk at *
        simp
        exact ⟨h4, hh, h3⟩
    · rw [tryMoveFromShelfGroup_eq_other h1 h2]
      exact ⟨hc, hh, hs⟩

theorem tryMoveFromShelfGroup_wellKeyed (fs : FulfillmentSystem) (temp : String) (now : Int)
    (h : fs.WellKeyed) : (fs.tryMoveFromShelfGroup temp now).1.WellKeyed := by
  rcases h with ⟨hc, hh, hs⟩
  by_cases h1 : temp = TEMP_TYPE_HOT
  · subst h1
    rcases @tryMoveScan_wellKeyed fs.shelfGroup.ListOrders
      TEMP_TYPE_HOT fs.shelfGroup.storages
      fs.heaterGroup now hs hh with ⟨h2, h3⟩
    rw [tryMoveFromShelfGroup_eq_hot]
    cases hscan : (tryMoveScan fs.shelfGroup.ListOrders TEMP_TYPE_HOT fs.shelfGroup.storages
        fs.heaterGroup now).2.2 with
    | some oid =>
      simp only [hscan]
      unfold FulfillmentSystem.WellKeyed at *
      simp [FulfillmentSystem.logAction]
      exact ⟨hc, h3, h2⟩
    | none =>
      simp only [hscan]
      unfold FulfillmentSystem.WellKeyed at *
      simp
      exact ⟨hc, h3, h2⟩
  · by_cases h2 : temp = TEMP_TYPE_COLD
    · subst h2
      rcases @tryMoveScan_wellKeyed fs.shelfGroup.ListOrders
        TEMP_TYPE_COLD fs.shelfGroup.storages
        fs.coolerGroup now hs hc with ⟨h3, h4⟩
      rw [tryMoveFromShelfGroup_eq_cold]
      cases hscan : (tryMoveScan fs.shelfGroup.ListOrders TEMP_TYPE_COLD
          fs.shelfGroup.storages fs.coolerGroup now).2.2 with
      | some oid =>
        simp only [hscan]
        unfold FulfillmentSystem.WellKeyed at *
        simp [FulfillmentSystem.logAction]
        exact ⟨h4, hh, h3⟩
      | none =>
        simp only [hscan]
        unfold FulfillmentSystem.WellKeyed at *
        simp
        exact ⟨h4, hh, h3⟩
    · rw [tryMoveFromShelfGroup_eq_other h1 h2]
      exact ⟨hc, hh, hs⟩

theorem tryMoveFromShelfGroup_keyCount (fs : FulfillmentSystem) (temp : String) (now : Int)
    (id : String) :
    sysKeyCount (fs.tryMoveFromShelfGroup temp now).1 id ≤ sysKeyCount fs id := by
  by_cases h1 : temp = TEMP_TYPE_HOT
  · subst h1
    have hb := tryMoveScan_keyCount fs.shelfGroup.ListOrders TEMP_TYPE_HOT
      fs.shelfGroup.storages fs.heaterGroup now id
    rw [tryMoveFromShelfGroup_eq_hot]
    cases hscan : (tryMoveScan fs.shelfGroup.ListOrders TEMP_TYPE_HOT fs.shelfGroup.storages
        fs.heaterGroup now).2.2 with
    | some oid =>
      simp only [hscan]
      unfold sysKeyCount at *
      simp [FulfillmentSystem.logAction]
      omega
    | none =>
      simp only [hscan]
      unfold sysKeyCount at *
      simp
      omega
  · by_cases h2 : temp = TEMP_TYPE_COLD
    · subst h2
      have hb := tryMoveScan_keyCount fs.shelfGroup.ListOrders TEMP_TYPE_COLD
        fs.shelfGroup.storages fs.coolerGroup now id
      rw [tryMoveFromShelfGroup_eq_cold]
      cases hscan : (tryMoveScan fs.shelfGroup.ListOrders TEMP_TYPE_COLD
          fs.shelfGroup.storages fs.coolerGroup now).2.2 with
      | some oid =>
        simp only [hscan]
        unfold sysKeyCount at *
        simp [FulfillmentSystem.logAction]
        omega
      | none =>
        simp only [hscan]
        unfold sysKeyCount at *
        simp
        omega
    · rw [tryMoveFromShelfGroup_eq_other h1 h2]

theorem tryMoveFromShelfGroup_false {fs : FulfillmentSystem} {temp : String} {now : Int}
    (h : (fs.tryMoveFromShelfGroup temp now).2 = false) :
    List.Forall₂ KeysPreserved fs.shelfGroup.storages
        (fs.tryMoveFromShelfGroup temp now).1.shelfGroup.storages ∧
      (fs.tryMoveFromShelfGroup temp now).1.heaterGroup = fs.heaterGroup ∧
      (fs.tryMoveFromShelfGroup temp now).1.coolerGroup = fs.coolerGroup ∧
      (fs.tryMoveFromShelfGroup temp now).1.actions = fs.actions := by
  by_cases h1 : temp = TEMP_TYPE_HOT
  · subst h1
    rw [tryMoveFromShelfGroup_eq_hot] at h ⊢
    cases hscan : (tryMoveScan fs.shelfGroup.ListOrders TEMP_TYPE_HOT fs.shelfGroup.storages
        fs.heaterGroup now).2.2 with
    | some oid => simp only [hscan] at h; cases h
    | none =>
      simp only [hscan]
      rcases tryMoveScan_none hscan with ⟨hkp, hdst⟩
      refine ⟨hkp, ?_⟩
      simp [hdst]
  · by_cases h2 : temp = TEMP_TYPE_COLD
    · subst h2
      rw [tryMoveFromShelfGroup_eq_cold] at h ⊢
      cases hscan : (tryMoveScan fs.shelfGroup.ListOrders TEMP_TYPE_COLD
          fs.shelfGroup.storages fs.coolerGroup now).2.2 with
      | some oid => simp only [hscan] at h; cases h
      | none =>
        simp only [hscan]
        rcases tryMoveScan_none hscan with ⟨hkp, hdst⟩
        refine ⟨hkp, ?_⟩
        simp [hdst]
    · rw [tryMoveFromShelfGroup_eq_other h1 h2]
      refine ⟨forall2_keysPreserved_refl _, ?_⟩
      simp

theorem tryMoveFromShelfGroup_true_freed {fs : FulfillmentSystem} {temp : String} {now : Int}
    (hsz : fs.SizeOk) (h : (fs.tryMoveFromShelfGroup temp now).2 = true) :
    ∃ st ∈ (fs.tryMoveFromShelfGroup temp now).1.shelfGroup.storages,
      (st.orders.length : Int) < st.capacity := by
  rcases hsz with ⟨hc, hh, hs⟩
  by_cases h1 : temp = TEMP_TYPE_HOT
  · subst h1
    rw [tryMoveFromShelfGroup_eq_hot] at h ⊢
    cases hscan : (tryMoveScan fs.shelfGroup.ListOrders TEMP_TYPE_HOT fs.shelfGroup.storages
        fs.heaterGroup now).2.2 with
    | some oid =>
      simp only [hscan]
      have := tryMoveScan_some_freed hs hh hscan
      simpa [FulfillmentSystem.logAction] using this
    | none => simp only [hscan] at h; cases h
  · by_cases h2 : temp = TEMP_TYPE_COLD
    · subst h2
      rw [tryMoveFromShelfGroup_eq_cold] at h ⊢
      cases hscan : (tryMoveScan fs.shelfGroup.ListOrders TEMP_TYPE_COLD
          fs.shelfGroup.storages fs.coolerGroup now).2.2 with
      | some oid =>
        simp only [hscan]
        have := tryMoveScan_some_freed hs hc hscan
        simpa [FulfillmentSystem.logAction] using this
      | none => simp only [hscan] at h; cases h
    · rw [tryMoveFromShelfGroup_eq_other h1 h2] at h
      cases h

theorem tryMoveFromShelfGroup_true_actions {fs : FulfillmentSystem} {temp : String}
    {now : Int} (h : (fs.tryMoveFromShelfGroup temp now).2 = true) :
    ∃ oid, (fs.tryMoveFromShelfGroup temp now).1.actions =
      fs.actions ++ [⟨Int.tdiv now 1000, oid, ACTION_TYPE_MOVE⟩] := by
  by_cases h1 : temp = TEMP_TYPE_HOT
  · subst h1
    rw [tryMoveFromShelfGroup_eq_hot] at h ⊢
    cases hscan : (tryMoveScan fs.shelfGroup.ListOrders TEMP_TYPE_HOT fs.shelfGroup.storages
        fs.heaterGroup now).2.2 with
    | some oid =>
      simp only [hscan]
      exact ⟨oid, by simp [FulfillmentSystem.logAction]⟩
    | none => simp only [hscan] at h; cases h
  · by_cases h2 : temp = TEMP_TYPE_COLD
    · subst h2
      rw [tryMoveFromShelfGroup_eq_cold] at h ⊢
      cases hscan : (tryMoveScan fs.shelfGroup.ListOrders TEMP_TYPE_COLD
          fs.shelfGroup.storages fs.coolerGroup now).2.2 with
      | some oid =>
        simp only [hscan]
        exact ⟨oid, by simp [FulfillmentSystem.logAction]⟩
      | none => simp only [hscan] at h; cases h
    · rw [tryMoveFromShelfGroup_eq_other h1 h2] at h
      cases h

/-! ### Discard lemmas -/

theorem discard_eq_none {fs : FulfillmentSystem} {now : Int}
    (hc : fs.shelfGroup.GetLeastFreshOrder now = none) :
    fs.discardOrderFromShelfGroup now = fs := by
  unfold FulfillmentSystem.discardOrderFromShelfGroup
  rw [hc]

theorem discard_eq_some {fs : FulfillmentSystem} {now : Int} {c : StoredOrder}
    (hc : fs.shelfGroup.GetLeastFreshOrder now = some c) :
    fs.discardOrderFromShelfGroup now =
      (if (fs.tryMoveFromShelfGroup c.order.temperature now).2 then
        (fs.tryMoveFromShelfGroup c.order.temperature now).1
      else
        match ((fs.tryMoveFromShelfGroup c.order.temperature now).1.shelfGroup.Remove
            c.order.id).2 with
        | some _ =>
          ({ (fs.tryMoveFromShelfGroup c.order.temperature now).1 with
            shelfGroup := ((fs.tryMoveFromShelfGroup c.order.temperature now).1.shelfGroup.Remove
              c.order.id).1 }).logAction c.order.id ACTION_TYPE_DISCARD now
        | none =>
          { (fs.tryMoveFromShelfGroup c.order.temperature now).1 with
            shelfGroup := ((fs.tryMoveFromShelfGroup c.order.temperature now).1.shelfGroup.Remove
              c.order.id).1 }) := by
  unfold FulfillmentSystem.discardOrderFromShelfGroup
  rw [hc]

theorem discard_sizeOk (fs : FulfillmentSystem) (now : Int) (h : fs.SizeOk) :
    (fs.discardOrderFromShelfGroup now).SizeOk := by
  cases hc : fs.shelfGroup.GetLeastFreshOrder now with
  | none => rw [discard_eq_none hc]; exact h
  | some c =>
    rw [discard_eq_some hc]
    have h1 := tryMoveFromShelfGroup_sizeOk fs c.order.temperature now h
    by_cases hmv : (fs.tryMoveFromShelfGroup c.order.temperature now).2 = true
    · rw [if_pos hmv]
      exact h1
    · simp at hmv
      rw [if_neg (by simp [hmv])]
      rcases h1 with ⟨h2, h3, h4⟩
      cases hr : (((fs.tryMoveFromShelfGroup c.order.temperature now).1.shelfGroup.Remove
          c.order.id)).2 with
      | some so =>
        simp only [hr]
        unfold FulfillmentSystem.SizeOk
        simp [FulfillmentSystem.logAction]
        exact ⟨h2, h3, group_remove_sizeOk h4⟩
      | none =>
        simp only [hr]
        unfold FulfillmentSystem.SizeOk
        simp
        exact ⟨h2, h3, group_remove_sizeOk h4⟩

theorem discard_wellKeyed (fs : FulfillmentSystem) (now : Int) (h : fs.WellKeyed) :
    (fs.discardOrderFromShelfGroup now).WellKeyed := by
  cases hc : fs.shelfGroup.GetLeastFreshOrder now with
  | none => rw [discard_eq_none hc]; exact h
  | some c =>
    rw [discard_eq_some hc]
    have h1 := tryMoveFromShelfGroup_wellKeyed fs c.order.temperature now h
    by_cases hmv : (fs.tryMoveFromShelfGroup c.order.temperature now).2 = true
    · rw [if_pos hmv]
      exact h1
    · simp at hmv
      rw [if_neg (by simp [hmv])]
      rcases h1 with ⟨h2, h3, h4⟩
      cases hr : (((fs.tryMoveFromShelfGroup c.order.temperature now).1.shelfGroup.Remove
          c.order.id)).2 with
      | some so =>
        simp only [hr]
        unfold FulfillmentSystem.WellKeyed
        simp [FulfillmentSystem.logAction]
        exact ⟨h2, h3, group_remove_wellKeyed h4⟩
      | none =>
        simp only [hr]
        unfold FulfillmentSystem.WellKeyed
        simp
        exact ⟨h2, h3, group_remove_wellKeyed h4⟩

theorem discard_keyCount (fs : FulfillmentSystem) (now : Int) (id : String) :
    sysKeyCount (fs.discardOrderFromShelfGroup now) id ≤ sysKeyCount fs id := by
  cases hc : fs.shelfGroup.GetLeastFreshOrder now with
  | none => rw [discard_eq_none hc]
  | some c =>
    rw [discard_eq_some hc]
    have h1 := tryMoveFromShelfGroup_keyCount fs c.order.temperature now id
    by_cases hmv : (fs.tryMoveFromShelfGroup c.order.temperature now).2 = true
    · rw [if_pos hmv]
      exact h1
    · simp at hmv
      rw [if_neg (by simp [hmv])]
      have h2 := group_remove_keyCount_le
        (fs.tryMoveFromShelfGroup c.order.temperature now).1.shelfGroup c.order.id id
      cases hr : (((fs.tryMoveFromShelfGroup c.order.temperature now).1.shelfGroup.Remove
          c.order.id)).2 with
      | some so =>
        simp only [hr]
        unfold sysKeyCount at *
        simp [FulfillmentSystem.logAction]
        omega
      | none =>
        simp only [hr]
        unfold sysKeyCount at *
        simp
        omega

theorem discard_actions (fs : FulfillmentSystem) (now : Int) :
    ∃ extra, (fs.discardOrderFromShelfGroup now).actions = fs.actions ++ extra ∧
      ∀ a ∈ extra, a.action ≠ ACTION_TYPE_PLACE := by
  cases hc : fs.shelfGroup.GetLeastFreshOrder now with
  | none =>
    rw [discard_eq_none hc]
    exact ⟨[], by simp, by simp⟩
  | some c =>
    rw [discard_eq_some hc]
    by_cases hmv : (fs.tryMoveFromShelfGroup c.order.temperature now).2 = true
    · rw [if_pos hmv]
      rcases tryMoveFromShelfGroup_true_actions hmv with ⟨oid, hact⟩
      refine ⟨[⟨Int.tdiv now 1000, oid, ACTION_TYPE_MOVE⟩], hact, ?_⟩
      intro a ha
      simp at ha
      rw [ha]
      simp [ACTION_TYPE_MOVE, ACTION_TYPE_PLACE]
    · simp at hmv
      rw [if_neg (by simp [hmv])]
      rcases tryMoveFromShelfGroup_false hmv with ⟨hkp, hh, hcl, hact⟩
      cases hr : (((fs.tryMoveFromShelfGroup c.order.temperature now).1.shelfGroup.Remove
          c.order.id)).2 with
      | some so =>
        simp only [hr]
        refine ⟨[⟨Int.tdiv now 1000, c.order.id, ACTION_TYPE_DISCARD⟩], ?_, ?_⟩
        · simp [FulfillmentSystem.logAction, hact]
        · intro a ha
          simp at ha
          rw [ha]
          simp [ACTION_TYPE_DISCARD, ACTION_TYPE_PLACE]
      | none =>
        simp only [hr]
        exact ⟨[], by simp [hact], by simp⟩

theorem discard_freed {fs : FulfillmentSystem} {now : Int}
    (hsz : fs.SizeOk) (hwk : ∀ st ∈ fs.shelfGroup.storages, st.WellKeyed)
    (hfull : fs.shelfGroup.IsFull = true)
    (hcap : ∃ st ∈ fs.shelfGroup.storages, 1 ≤ st.capacity) :
    ∃ st ∈ (fs.discardOrderFromShelfGroup now).shelfGroup.storages,
      (st.orders.length : Int) < st.capacity := by
  rcases hcap with ⟨st0, hst0, hcap0⟩
  have hfull0 := (group_isFull_iff fs.shelfGroup).mp hfull st0 hst0
  have hlen0 : 1 ≤ st0.orders.length := by
    unfold Storage.IsFull at hfull0
    simp at hfull0
    omega
  have hne : fs.shelfGroup.ListOrders ≠ [] := by
    intro hnil
    unfold StorageGroup.ListOrders at hnil
    have : st0.ListOrders ∈ (fs.shelfGroup.storages.map Storage.ListOrders) :=
      List.mem_map.mpr ⟨st0, hst0, rfl⟩
    rw [List.flatten_eq_nil_iff] at hnil
    have h0 := hnil _ this
    unfold Storage.ListOrders at h0
    have h1 : st0.orders.length = 0 := by
      have := congrArg List.length h0
      simpa using this
    omega
  rcases @getLeastFreshOrder_some_of_ne_nil _ now hne with ⟨c, hc, hcm⟩
  rw [discard_eq_some hc]
  by_cases hmv : (fs.tryMoveFromShelfGroup c.order.temperature now).2 = true
  · rw [if_pos hmv]
    exact tryMoveFromShelfGroup_true_freed hsz hmv
  · simp at hmv
    rw [if_neg (by simp [hmv])]
    rcases tryMoveFromShelfGroup_false hmv with ⟨hkp, hh, hcl, hact⟩
    have hkey : ∃ st ∈ fs.shelfGroup.storages, c.order.id ∈ keysOf st.orders :=
      mem_listOrders_key hwk hcm
    have hkey2 : ∃ st ∈ (fs.tryMoveFromShelfGroup c.order.temperature now).1.shelfGroup.storages,
        c.order.id ∈ keysOf st.orders :=
      (forall2_keysPreserved_mem_key hkp c.order.id).mpr hkey
    have hrs : (((fs.tryMoveFromShelfGroup c.order.temperature now).1.shelfGroup.Remove
        c.order.id).2).isSome = true :=
      (group_remove_isSome_iff _ _).mpr hkey2
    have hsz2 : (fs.tryMoveFromShelfGroup c.order.temperature now).1.shelfGroup.SizeOk :=
      (tryMoveFromShelfGroup_sizeOk fs c.order.temperature now hsz).2.2
    cases hr : (((fs.tryMoveFromShelfGroup c.order.temperature now).1.shelfGroup.Remove
        c.order.id)).2 with
    | none => rw [hr] at hrs; cases hrs
    | some so =>
      simp only [hr]
      have := group_remove_some_freed hsz2 hr
      simpa [FulfillmentSystem.logAction] using this

/-! ### PlaceOrder lemmas -/

theorem shelfSet_sizeOk {fs : FulfillmentSystem} {sg : StorageGroup}
    (h : fs.SizeOk) (hsg : sg.SizeOk) : ({ fs with shelfGroup := sg } : FulfillmentSystem).SizeOk := by
  rcases h with ⟨hc, hh, _⟩
  exact ⟨hc, hh, hsg⟩

theorem logAction_sizeOk {fs : FulfillmentSystem} {a b : String} {t : Int}
    (h : fs.SizeOk) : (fs.logAction a b t).SizeOk := by
  rcases h with ⟨hc, hh, hs⟩
  exact ⟨hc, hh, hs⟩

theorem logAction_wellKeyed {fs : FulfillmentSystem} {a b : String} {t : Int}
    (h : fs.WellKeyed) : (fs.logAction a b t).WellKeyed := by
  rcases h with ⟨hc, hh, hs⟩
  exact ⟨hc, hh, hs⟩

theorem logAction_sysKeyCount (fs : FulfillmentSystem) (a b : String) (t : Int)
    (id : String) : sysKeyCount (fs.logAction a b t) id = sysKeyCount fs id := rfl

theorem placeIdealAdd_fail {fs : FulfillmentSystem} {so : StoredOrder}
    (h : (fs.placeIdealAdd so).2 = false) : (fs.placeIdealAdd so).1 = fs := by
  unfold FulfillmentSystem.placeIdealAdd at *
  by_cases ht : so.order.temperature = TEMP_TYPE_HOT
  · rw [if_pos ht] at h ⊢
    simp at h ⊢
    rw [(group_add_fail h).1]
  · rw [if_neg ht] at h ⊢
    simp at h ⊢
    rw [(group_add_fail h).1]

theorem placeIdealAdd_sizeOk {fs : FulfillmentSystem} {so : StoredOrder}
    (h : fs.SizeOk) : (fs.placeIdealAdd so).1.SizeOk := by
  rcases h with ⟨hc, hh, hs⟩
  unfold FulfillmentSystem.placeIdealAdd
  by_cases ht : so.order.temperature = TEMP_TYPE_HOT
  · rw [if_pos ht]
    exact ⟨hc, group_add_sizeOk hh, hs⟩
  · rw [if_neg ht]
    exact ⟨group_add_sizeOk hc, hh, hs⟩

theorem placeIdealAdd_wellKeyed {fs : FulfillmentSystem} {so : StoredOrder}
    (h : fs.WellKeyed) : (fs.placeIdealAdd so).1.WellKeyed := by
  rcases h with ⟨hc, hh, hs⟩
  unfold FulfillmentSystem.placeIdealAdd
  by_cases ht : so.order.temperature = TEMP_TYPE_HOT
  · rw [if_pos ht]
    exact ⟨hc, group_add_wellKeyed hh, hs⟩
  · rw [if_neg ht]
    exact ⟨group_add_wellKeyed hc, hh, hs⟩

theorem placeIdealAdd_keyCount (fs : FulfillmentSystem) (so : StoredOrder) (id : String) :
    sysKeyCount (fs.placeIdealAdd so).1 id ≤
      sysKeyCount fs id + (if so.order.id = id then 1 else 0) := by
  unfold FulfillmentSystem.placeIdealAdd sysKeyCount
  by_cases ht : so.order.temperature = TEMP_TYPE_HOT
  · rw [if_pos ht]
    have := group_add_keyCount_le fs.heaterGroup so id
    simp
    omega
  · rw [if_neg ht]
    have := group_add_keyCount_le fs.coolerGroup so id
    simp
    omega

theorem placeIdealAdd_shelf (fs : FulfillmentSystem) (so : StoredOrder) :
    (fs.placeIdealAdd so).1.shelfGroup = fs.shelfGroup ∧
      (fs.placeIdealAdd so).1.actions = fs.actions := by
  unfold FulfillmentSystem.placeIdealAdd
  by_cases ht : so.order.temperature = TEMP_TYPE_HOT
  · rw [if_pos ht]; exact ⟨rfl, rfl⟩
  · rw [if_neg ht]; exact ⟨rfl, rfl⟩

theorem forall2_keysPreserved_cap {l l' : List Storage}
    (h : List.Forall₂ KeysPreserved l l') :
    (∃ st ∈ l', 1 ≤ st.capacity) ↔ (∃ st ∈ l, 1 ≤ st.capacity) := by
  induction h with
  | nil => simp
  | cons hab hrest ih =>
    rename_i a b l1 l2
    simp only [List.mem_cons]
    constructor
    · rintro ⟨st, hst, hk⟩
      rcases hst with hst | hst
      · exact ⟨a, Or.inl rfl, by rw [← hab.2, ← hst]; exact hk⟩
      · rcases ih.mp ⟨st, hst, hk⟩ with ⟨st2, hst2, hk2⟩
        exact ⟨st2, Or.inr hst2, hk2⟩
    · rintro ⟨st, hst, hk⟩
      rcases hst with hst | hst
      · exact ⟨b, Or.inl rfl, by rw [hab.2, ← hst]; exact hk⟩
      · rcases ih.mpr ⟨st, hst, hk⟩ with ⟨st2, hst2, hk2⟩
        exact ⟨st2, Or.inr hst2, hk2⟩

theorem group_not_full_ex {sg : StorageGroup} (h : sg.IsFull = false) :
    ∃ st ∈ sg.storages, (st.orders.length : Int) < st.capacity := by
  unfold StorageGroup.IsFull at h
  have h2 : ¬ ∀ st ∈ sg.storages, st.IsFull = true := by
    intro hall
    rw [List.all_eq_true.mpr hall] at h
    cases h
  push_neg at h2
  rcases h2 with ⟨st, hst, hfull⟩
  refine ⟨st, hst, ?_⟩
  rw [← storage_not_full_iff]
  simpa using hfull

theorem discardStep_sizeOk (g : FulfillmentSystem) (now : Int) (h : g.SizeOk) :
    (g.discardStep now).SizeOk := by
  unfold FulfillmentSystem.discardStep
  by_cases hfull : g.shelfGroup.IsFull = true
  · rw [if_pos hfull]; exact discard_sizeOk g now h
  · rw [if_neg (by simp [hfull])]; exact h

theorem discardStep_wellKeyed (g : FulfillmentSystem) (now : Int) (h : g.WellKeyed) :
    (g.discardStep now).WellKeyed := by
  unfold FulfillmentSystem.discardStep
  by_cases hfull : g.shelfGroup.IsFull = true
  · rw [if_pos hfull]; exact discard_wellKeyed g now h
  · rw [if_neg (by simp [hfull])]; exact h

theorem discardStep_keyCount (g : FulfillmentSystem) (now : Int) (id : String) :
    sysKeyCount (g.discardStep now) id ≤ sysKeyCount g id := by
  unfold FulfillmentSystem.discardStep
  by_cases hfull : g.shelfGroup.IsFull = true
  · rw [if_pos hfull]; exact discard_keyCount g now id
  · rw [if_neg (by simp [hfull])]

theorem discardStep_actions (g : FulfillmentSystem) (now : Int) :
    ∃ extra, (g.discardStep now).actions = g.actions ++ extra ∧
      ∀ a ∈ extra, a.action ≠ ACTION_TYPE_PLACE := by
  unfold FulfillmentSystem.discardStep
  by_cases hfull : g.shelfGroup.IsFull = true
  · rw [if_pos hfull]; exact discard_actions g now
  · rw [if_neg (by simp [hfull])]; exact ⟨[], by simp, by simp⟩

theorem discardStep_freed {g : FulfillmentSystem} (now : Int)
    (hsz : g.SizeOk) (hwk : ∀ st ∈ g.shelfGroup.storages, st.WellKeyed)
    (hcap : ∃ st ∈ g.shelfGroup.storages, 1 ≤ st.capacity) :
    ∃ st ∈ (g.discardStep now).shelfGroup.storages,
      (st.orders.length : Int) < st.capacity := by
  unfold FulfillmentSystem.discardStep
  by_cases hfull : g.shelfGroup.IsFull = true
  · rw [if_pos hfull]
    exact discard_freed hsz hwk hfull hcap
  · rw [if_neg (by simp [hfull])]
    simp at hfull
    exact group_not_full_ex hfull

theorem addRetry_sizeOk (g : FulfillmentSystem) (so : StoredOrder) (now : Int)
    (h : g.SizeOk) : (g.addRetry so now).SizeOk := by
  unfold FulfillmentSystem.addRetry
  by_cases ha : (g.shelfGroup.Add so).2 = true
  · rw [if_pos ha]
    exact logAction_sizeOk (shelfSet_sizeOk h (group_add_sizeOk h.2.2))
  · rw [if_neg (by simp [ha])]
    exact shelfSet_sizeOk h (group_add_sizeOk h.2.2)

theorem addRetry_wellKeyed (g : FulfillmentSystem) (so : StoredOrder) (now : Int)
    (h : g.WellKeyed) : (g.addRetry so now).WellKeyed := by
  have h2 : (({ g with shelfGroup := (g.shelfGroup.Add so).1 }) : FulfillmentSystem).WellKeyed :=
    ⟨h.1, h.2.1, group_add_wellKeyed h.2.2⟩
  unfold FulfillmentSystem.addRetry
  by_cases ha : (g.shelfGroup.Add so).2 = true
  · rw [if_pos ha]
    exact logAction_wellKeyed h2
  · rw [if_neg (by simp [ha])]
    exact h2

theorem addRetry_keyCount (g : FulfillmentSystem) (so : StoredOrder) (now : Int)
    (id : String) :
    sysKeyCount (g.addRetry so now) id ≤
      sysKeyCount g id + (if so.order.id = id then 1 else 0) := by
  have hb := group_add_keyCount_le g.shelfGroup so id
  unfold FulfillmentSystem.addRetry
  by_cases ha : (g.shelfGroup.Add so).2 = true
  · rw [if_pos ha]
    rw [logAction_sysKeyCount]
    unfold sysKeyCount
    simp
    omega
  · rw [if_neg (by simp [ha])]
    unfold sysKeyCount
    simp
    omega

theorem addRetry_places {g : FulfillmentSystem} {so : StoredOrder} {now : Int}
    (hfree : ∃ st ∈ g.shelfGroup.storages, (st.orders.length : Int) < st.capacity) :
    (g.addRetry so now).actions =
      g.actions ++ [⟨Int.tdiv now 1000, so.order.id, ACTION_TYPE_PLACE⟩] := by
  have ha := group_add_succ so hfree
  unfold FulfillmentSystem.addRetry
  rw [if_pos ha]
  simp [FulfillmentSystem.logAction]

/-- The discard-then-retry tail records exactly one place action. -/

theorem placeTail_places {g : FulfillmentSystem} {so : StoredOrder} {now : Int}
    (hsz : g.SizeOk) (hwk : ∀ st ∈ g.shelfGroup.storages, st.WellKeyed)
    (hcap : ∃ st ∈ g.shelfGroup.storages, 1 ≤ st.capacity) :
    ∃ extra, ((g.discardStep now).addRetry so now).actions =
        g.actions ++ extra ++ [⟨Int.tdiv now 1000, so.order.id, ACTION_TYPE_PLACE⟩] ∧
      ∀ a ∈ extra, a.action ≠ ACTION_TYPE_PLACE := by
  rcases discardStep_actions g now with ⟨extra, hact, hnp⟩
  have hfree := discardStep_freed now hsz hwk hcap
  rcases @addRetry_places _ so now hfree with hplace
  exact ⟨extra, by rw [hplace, hact, List.append_assoc], hnp⟩

theorem hotColdFallback_sizeOk (fs : FulfillmentSystem) (so : StoredOrder) (now : Int)
    (h : fs.SizeOk) : (fs.hotColdFallback so now).SizeOk := by
  unfold FulfillmentSystem.hotColdFallback
  by_cases hfull : fs.shelfGroup.IsFull = true
  · rw [if_pos hfull]
    have h1 := tryMoveFromShelfGroup_sizeOk fs so.order.temperature now h
    by_cases hmv : (fs.tryMoveFromShelfGroup so.order.temperature now).2 = true
    · simp only [hmv, if_true]
      by_cases hadd : ((fs.tryMoveFromShelfGroup so.order.temperature now).1.shelfGroup.Add
          so).2 = true
      · simp only [hadd, if_true]
        exact logAction_sizeOk (shelfSet_sizeOk h1 (group_add_sizeOk h1.2.2))
      · simp only [hadd, Bool.false_eq_true, if_false]
        exact addRetry_sizeOk _ so now
          (discardStep_sizeOk _ now (shelfSet_sizeOk h1 (group_add_sizeOk h1.2.2)))
    · simp only [hmv, Bool.false_eq_true, if_false]
      exact addRetry_sizeOk _ so now (discardStep_sizeOk _ now h1)
  · have hfull2 : fs.shelfGroup.IsFull = false := by simp [hfull]
    simp only [hfull2, Bool.false_eq_true, if_false]
    exact addRetry_sizeOk _ so now (discardStep_sizeOk _ now h)

theorem hotColdFallback_wellKeyed (fs : FulfillmentSystem) (so : StoredOrder) (now : Int)
    (h : fs.WellKeyed) : (fs.hotColdFallback so now).WellKeyed := by
  unfold FulfillmentSystem.hotColdFallback
  by_cases hfull : fs.shelfGroup.IsFull = true
  · rw [if_pos hfull]
    have h1 := tryMoveFromShelfGroup_wellKeyed fs so.order.temperature now h
    have h2 : (({ (fs.tryMoveFromShelfGroup so.order.temperature now).1 with
        shelfGroup := ((fs.tryMoveFromShelfGroup so.order.temperature
          now).1.shelfGroup.Add so).1 }) : FulfillmentSystem).WellKeyed :=
      ⟨h1.1, h1.2.1, group_add_wellKeyed h1.2.2⟩
    by_cases hmv : (fs.tryMoveFromShelfGroup so.order.temperature now).2 = true
    · simp only [hmv, if_true]
      by_cases hadd : ((fs.tryMoveFromShelfGroup so.order.temperature now).1.shelfGroup.Add
          so).2 = true
      · simp only [hadd, if_true]
        exact logAction_wellKeyed h2
      · simp only [hadd, Bool.false_eq_true, if_false]
        exact addRetry_wellKeyed _ so now (discardStep_wellKeyed _ now h2)
    · simp only [hmv, Bool.false_eq_true, if_false]
      exact addRetry_wellKeyed _ so now (discardStep_wellKeyed _ now h1)
  · have hfull2 : fs.shelfGroup.IsFull = false := by simp [hfull]
    simp only [hfull2, Bool.false_eq_true, if_false]
    exact addRetry_wellKeyed _ so now (discardStep_wellKeyed _ now h)

theorem sysKeyCount_shelfSet (fs : FulfillmentSystem) (sg : StorageGroup) (id : String) :
    sysKeyCount ({ fs with shelfGroup := sg }) id =
      listKeyCount fs.coolerGroup.storages id + listKeyCount fs.heaterGroup.storages id +
        listKeyCount sg.storages id := rfl

theorem hotColdFallback_keyCount (fs : FulfillmentSystem) (so : StoredOrder) (now : Int)
    (id : String) :
    sysKeyCount (fs.hotColdFallback so now) id ≤
      sysKeyCount fs id + (if so.order.id = id then 1 else 0) := by
  unfold FulfillmentSystem.hotColdFallback
  by_cases hfull : fs.shelfGroup.IsFull = true
  · rw [if_pos hfull]
    have h1 := tryMoveFromShelfGroup_keyCount fs so.order.temperature now id
    have h2 := group_add_keyCount_le
      (fs.tryMoveFromShelfGroup so.order.temperature now).1.shelfGroup so id
    by_cases hmv : (fs.tryMoveFromShelfGroup so.order.temperature now).2 = true
    · simp only [hmv, if_true]
      by_cases hadd : ((fs.tryMoveFromShelfGroup so.order.temperature now).1.shelfGroup.Add
          so).2 = true
      · simp only [hadd, if_true]
        rw [logAction_sysKeyCount, sysKeyCount_shelfSet]
        unfold sysKeyCount at h1 ⊢
        omega
      · simp only [hadd, Bool.false_eq_true, if_false]
        have hfail := (group_add_fail (by simpa using hadd)).1
        rw [hfail]
        have hG : ({ (fs.tryMoveFromShelfGroup so.order.temperature now).1 with
            shelfGroup := (fs.tryMoveFromShelfGroup so.order.temperature
              now).1.shelfGroup } : FulfillmentSystem) =
            (fs.tryMoveFromShelfGroup so.order.temperature now).1 := rfl
        rw [hG]
        have h3 := discardStep_keyCount
          (fs.tryMoveFromShelfGroup so.order.temperature now).1 now id
        have h4 := addRetry_keyCount
          ((fs.tryMoveFromShelfGroup so.order.temperature now).1.discardStep now) so now id
        omega
    · simp only [hmv, Bool.false_eq_true, if_false]
      have h3 := discardStep_keyCount
        (fs.tryMoveFromShelfGroup so.order.temperature now).1 now id
      have h4 := addRetry_keyCount
        ((fs.tryMoveFromShelfGroup so.order.temperature now).1.discardStep now) so now id
      omega
  · have hfull2 : fs.shelfGroup.IsFull = false := by simp [hfull]
    simp only [hfull2, Bool.false_eq_true, if_false]
    have h3 := discardStep_keyCount fs now id
    have h4 := addRetry_keyCount (fs.discardStep now) so now id
    omega

theorem hotColdFallback_places {fs : FulfillmentSystem} {so : StoredOrder} {now : Int}
    (hsz : fs.SizeOk) (hwk : fs.WellKeyed)
    (hcap : ∃ st ∈ fs.shelfGroup.storages, 1 ≤ st.capacity)
    (hfull : fs.shelfGroup.IsFull = true) :
    ∃ extra, (fs.hotColdFallback so now).actions =
        fs.actions ++ extra ++ [⟨Int.tdiv now 1000, so.order.id, ACTION_TYPE_PLACE⟩] ∧
      ∀ a ∈ extra, a.action ≠ ACTION_TYPE_PLACE := by
  unfold FulfillmentSystem.hotColdFallback
  rw [if_pos hfull]
  by_cases hmv : (fs.tryMoveFromShelfGroup so.order.temperature now).2 = true
  · have hfree := tryMoveFromShelfGroup_true_freed hsz hmv
    have hadd := group_add_succ so hfree
    simp only [hmv, if_true, hadd]
    rcases tryMoveFromShelfGroup_true_actions hmv with ⟨oid, hact⟩
    refine ⟨[⟨Int.tdiv now 1000, oid, ACTION_TYPE_MOVE⟩], ?_, ?_⟩
    · simp [FulfillmentSystem.logAction, hact]
    · intro a ha
      simp at ha
      rw [ha]
      simp [ACTION_TYPE_MOVE, ACTION_TYPE_PLACE]
  · simp only [hmv, Bool.false_eq_true, if_false]
    rcases tryMoveFromShelfGroup_false (by simpa using hmv) with ⟨hkp, hh, hcl, hact⟩
    have hsz1 := tryMoveFromShelfGroup_sizeOk fs so.order.temperature now hsz
    have hwk1 := tryMoveFromShelfGroup_wellKeyed fs so.order.temperature now hwk
    have hcap1 : ∃ st ∈ (fs.tryMoveFromShelfGroup so.order.temperature
        now).1.shelfGroup.storages, 1 ≤ st.capacity :=
      (forall2_keysPreserved_cap hkp).mpr hcap
    rcases @placeTail_places _ so now hsz1 hwk1.2.2 hcap1 with ⟨extra, he, hnp⟩
    exact ⟨extra, by rw [he, hact], hnp⟩

theorem placeOrder_sizeOk (fs : FulfillmentSystem) (o : Order) (now : Int)
    (h : fs.SizeOk) : (fs.PlaceOrder o now).SizeOk := by
  unfold FulfillmentSystem.PlaceOrder
  by_cases ht : (o.temperature = TEMP_TYPE_HOT ∨ o.temperature = TEMP_TYPE_COLD)
  · rw [if_pos ht]
    have h1 := @placeIdealAdd_sizeOk _ ⟨o, now⟩ h
    by_cases hia : (fs.placeIdealAdd ⟨o, now⟩).2 = true
    · simp only [hia, if_true]
      exact logAction_sizeOk h1
    · simp only [hia, Bool.false_eq_true, if_false]
      by_cases hsa : ((fs.placeIdealAdd ⟨o, now⟩).1.shelfGroup.Add ⟨o, now⟩).2 = true
      · simp only [hsa, if_true]
        exact logAction_sizeOk (shelfSet_sizeOk h1 (group_add_sizeOk h1.2.2))
      · simp only [hsa, Bool.false_eq_true, if_false]
        exact hotColdFallback_sizeOk _ _ now
          (shelfSet_sizeOk h1 (group_add_sizeOk h1.2.2))
  · rw [if_neg ht]
    by_cases hsa : (fs.shelfGroup.Add ⟨o, now⟩).2 = true
    · simp only [hsa, if_true]
      exact logAction_sizeOk (shelfSet_sizeOk h (group_add_sizeOk h.2.2))
    · simp only [hsa, Bool.false_eq_true, if_false]
      exact addRetry_sizeOk _ _ now (discardStep_sizeOk _ now
        (shelfSet_sizeOk h (group_add_sizeOk h.2.2)))

theorem placeOrder_wellKeyed (fs : FulfillmentSystem) (o : Order) (now : Int)
    (h : fs.WellKeyed) : (fs.PlaceOrder o now).WellKeyed := by
  unfold FulfillmentSystem.PlaceOrder
  by_cases ht : (o.temperature = TEMP_TYPE_HOT ∨ o.temperature = TEMP_TYPE_COLD)
  · rw [if_pos ht]
    have h1 := @placeIdealAdd_wellKeyed _ ⟨o, now⟩ h
    have h2 : (({ (fs.placeIdealAdd ⟨o, now⟩).1 with
        shelfGroup := ((fs.placeIdealAdd ⟨o, now⟩).1.shelfGroup.Add
          ⟨o, now⟩).1 }) : FulfillmentSystem).WellKeyed :=
      ⟨h1.1, h1.2.1, group_add_wellKeyed h1.2.2⟩
    by_cases hia : (fs.placeIdealAdd ⟨o, now⟩).2 = true
    · simp only [hia, if_true]
      exact logAction_wellKeyed h1
    · simp only [hia, Bool.false_eq_true, if_false]
      by_cases hsa : ((fs.placeIdealAdd ⟨o, now⟩).1.shelfGroup.Add ⟨o, now⟩).2 = true
      · simp only [hsa, if_true]
        exact logAction_wellKeyed h2
      · simp only [hsa, Bool.false_eq_true, if_false]
        exact hotColdFallback_wellKeyed _ _ now h2
  · rw [if_neg ht]
    have h2 : (({ fs with shelfGroup := (fs.shelfGroup.Add
        ⟨o, now⟩).1 }) : FulfillmentSystem).WellKeyed :=
      ⟨h.1, h.2.1, group_add_wellKeyed h.2.2⟩
    by_cases hsa : (fs.shelfGroup.Add ⟨o, now⟩).2 = true
    · simp only [hsa, if_true]
      exact logAction_wellKeyed h2
    · simp only [hsa, Bool.false_eq_true, if_false]
      exact addRetry_wellKeyed _ _ now (discardStep_wellKeyed _ now h2)

theorem placeOrder_keyCount (fs : FulfillmentSystem) (o : Order) (now : Int) (id : String) :
    sysKeyCount (fs.PlaceOrder o now) id ≤
      sysKeyCount fs id + (if o.id = id then 1 else 0) := by
  have hred : ({ order := o, placedAt := now } : StoredOrder).order.id = o.id := rfl
  unfold FulfillmentSystem.PlaceOrder
  by_cases ht : (o.temperature = TEMP_TYPE_HOT ∨ o.temperature = TEMP_TYPE_COLD)
  · rw [if_pos ht]
    by_cases hia : (fs.placeIdealAdd ⟨o, now⟩).2 = true
    · simp only [hia, if_true]
      rw [logAction_sysKeyCount]
      have h1 := placeIdealAdd_keyCount fs ⟨o, now⟩ id
      rw [hred] at h1
      exact h1
    · simp only [hia, Bool.false_eq_true, if_false]
      rw [placeIdealAdd_fail (by simpa using hia)]
      have h2 := group_add_keyCount_le fs.shelfGroup ⟨o, now⟩ id
      rw [hred] at h2
      by_cases hsa : (fs.shelfGroup.Add ⟨o, now⟩).2 = true
      · simp only [hsa, if_true]
        rw [logAction_sysKeyCount, sysKeyCount_shelfSet]
        unfold sysKeyCount
        omega
      · simp only [hsa, Bool.false_eq_true, if_false]
        rw [(group_add_fail (by simpa using hsa)).1]
        have h3 := hotColdFallback_keyCount
          ({ fs with shelfGroup := fs.shelfGroup }) ⟨o, now⟩ now id
        rw [hred] at h3
        simpa using h3
  · rw [if_neg ht]
    have h2 := group_add_keyCount_le fs.shelfGroup ⟨o, now⟩ id
    rw [hred] at h2
    by_cases hsa : (fs.shelfGroup.Add ⟨o, now⟩).2 = true
    · simp only [hsa, if_true]
      rw [logAction_sysKeyCount, sysKeyCount_shelfSet]
      unfold sysKeyCount
      omega
    · simp only [hsa, Bool.false_eq_true, if_false]
      rw [(group_add_fail (by simpa using hsa)).1]
      have heta : ({ coolerGroup := fs.coolerGroup, heaterGroup := fs.heaterGroup, shelfGroup := fs.shelfGroup, actions := fs.actions } : FulfillmentSystem) = fs := rfl
      rw [heta]
      have h3 := discardStep_keyCount fs now id
      have h4 := addRetry_keyCount (fs.discardStep now) ⟨o, now⟩ now id
      rw [hred] at h4
      omega

theorem placeOrder_places {fs : FulfillmentSystem} {o : Order} {now : Int}
    (hsz : fs.SizeOk) (hwk : fs.WellKeyed)
    (hcap : ∃ st ∈ fs.shelfGroup.storages, 1 ≤ st.capacity) :
    ∃ extra, (fs.PlaceOrder o now).actions =
        fs.actions ++ extra ++ [⟨Int.tdiv now 1000, o.id, ACTION_TYPE_PLACE⟩] ∧
      ∀ a ∈ extra, a.action ≠ ACTION_TYPE_PLACE := by
  unfold FulfillmentSystem.PlaceOrder
  by_cases ht : (o.temperature = TEMP_TYPE_HOT ∨ o.temperature = TEMP_TYPE_COLD)
  · rw [if_pos ht]
    by_cases hia : (fs.placeIdealAdd ⟨o, now⟩).2 = true
    · simp only [hia, if_true]
      refine ⟨[], ?_, by simp⟩
      simp [FulfillmentSystem.logAction, (placeIdealAdd_shelf fs ⟨o, now⟩).2]
    · simp only [hia, Bool.false_eq_true, if_false]
      rw [placeIdealAdd_fail (by simpa using hia)]
      by_cases hsa : (fs.shelfGroup.Add ⟨o, now⟩).2 = true
      · simp only [hsa, if_true]
        exact ⟨[], by simp [FulfillmentSystem.logAction], by simp⟩
      · simp only [hsa, Bool.false_eq_true, if_false]
        rcases group_add_fail (by simpa using hsa :
          (fs.shelfGroup.Add ⟨o, now⟩).2 = false) with ⟨heq, hfull⟩
        rw [heq]
        have hfs : ({ fs with shelfGroup := fs.shelfGroup } : FulfillmentSystem) = fs := rfl
        rw [hfs]
        exact hotColdFallback_places hsz hwk hcap hfull
  · rw [if_neg ht]
    by_cases hsa : (fs.shelfGroup.Add ⟨o, now⟩).2 = true
    · simp only [hsa, if_true]
      exact ⟨[], by simp [FulfillmentSystem.logAction], by simp⟩
    · simp only [hsa, Bool.false_eq_true, if_false]
      rcases group_add_fail (by simpa using hsa :
        (fs.shelfGroup.Add ⟨o, now⟩).2 = false) with ⟨heq, hfull⟩
      rw [heq]
      have hfs : ({ fs with shelfGroup := fs.shelfGroup } : FulfillmentSystem) = fs := rfl
      rw [hfs]
      exact placeTail_places hsz hwk.2.2 hcap

/-! ### Pickup lemmas -/

theorem group_remove_none_of_absent {sg : StorageGroup} {k : String}
    (h : ¬ ∃ st ∈ sg.storages, k ∈ keysOf st.orders) : (sg.Remove k).2 = none := by
  cases hr : (sg.Remove k).2 with
  | none => rfl
  | some so =>
    exfalso
    exact h ((group_remove_isSome_iff sg k).mp (by simp [hr]))

theorem pickup_absent {fs : FulfillmentSystem} {orderID : String} {now : Int}
    (hh : ¬ ∃ st ∈ fs.heaterGroup.storages, orderID ∈ keysOf st.orders)
    (hc : ¬ ∃ st ∈ fs.coolerGroup.storages, orderID ∈ keysOf st.orders)
    (hs : ¬ ∃ st ∈ fs.shelfGroup.storages, orderID ∈ keysOf st.orders) :
    fs.PickupOrder orderID now = fs := by
  have h1 := group_remove_none_of_absent hh
  have e1 := group_remove_fail h1
  have h2 := group_remove_none_of_absent hc
  have e2 := group_remove_fail h2
  have h3 := group_remove_none_of_absent hs
  have e3 := group_remove_fail h3
  simp only [FulfillmentSystem.PickupOrder, h1, e1, h2, e2, h3, e3]

theorem pickup_in_heater {fs : FulfillmentSystem} {orderID : String} {now : Int}
    (hh : ∃ st ∈ fs.heaterGroup.storages, orderID ∈ keysOf st.orders) :
    ∃ so, (fs.heaterGroup.Remove orderID).2 = some so ∧
      fs.PickupOrder orderID now =
        ({ fs with heaterGroup := (fs.heaterGroup.Remove orderID).1 }).logAction
          so.order.id ACTION_TYPE_PICKUP now := by
  have h1 : ((fs.heaterGroup.Remove orderID).2).isSome = true :=
    (group_remove_isSome_iff _ _).mpr hh
  cases hr : (fs.heaterGroup.Remove orderID).2 with
  | none => rw [hr] at h1; cases h1
  | some so =>
    refine ⟨so, rfl, ?_⟩
    simp only [FulfillmentSystem.PickupOrder, hr]

theorem pickup_in_cooler {fs : FulfillmentSystem} {orderID : String} {now : Int}
    (hh : ¬ ∃ st ∈ fs.heaterGroup.storages, orderID ∈ keysOf st.orders)
    (hc : ∃ st ∈ fs.coolerGroup.storages, orderID ∈ keysOf st.orders) :
    ∃ so, (fs.coolerGroup.Remove orderID).2 = some so ∧
      fs.PickupOrder orderID now =
        ({ fs with coolerGroup := (fs.coolerGroup.Remove orderID).1 }).logAction
          so.order.id ACTION_TYPE_PICKUP now := by
  have h1 := group_remove_none_of_absent hh
  have e1 := group_remove_fail h1
  have h2 : ((fs.coolerGroup.Remove orderID).2).isSome = true :=
    (group_remove_isSome_iff _ _).mpr hc
  cases hr : (fs.coolerGroup.Remove orderID).2 with
  | none => rw [hr] at h2; cases h2
  | some so =>
    refine ⟨so, rfl, ?_⟩
    simp only [FulfillmentSystem.PickupOrder, h1, e1, hr]

theorem pickup_in_shelf {fs : FulfillmentSystem} {orderID : String} {now : Int}
    (hh : ¬ ∃ st ∈ fs.heaterGroup.storages, orderID ∈ keysOf st.orders)
    (hc : ¬ ∃ st ∈ fs.coolerGroup.storages, orderID ∈ keysOf st.orders)
    (hs : ∃ st ∈ fs.shelfGroup.storages, orderID ∈ keysOf st.orders) :
    ∃ so, (fs.shelfGroup.Remove orderID).2 = some so ∧
      fs.PickupOrder orderID now =
        ({ fs with shelfGroup := (fs.shelfGroup.Remove orderID).1 }).logAction
          so.order.id ACTION_TYPE_PICKUP now := by
  have h1 := group_remove_none_of_absent hh
  have e1 := group_remove_fail h1
  have h2 := group_remove_none_of_absent hc
  have e2 := group_remove_fail h2
  have h3 : ((fs.shelfGroup.Remove orderID).2).isSome = true :=
    (group_remove_isSome_iff _ _).mpr hs
  cases hr : (fs.shelfGroup.Remove orderID).2 with
  | none => rw [hr] at h3; cases h3
  | some so =>
    refine ⟨so, rfl, ?_⟩
    simp only [FulfillmentSystem.PickupOrder, h1, e1, h2, e2, hr]

theorem pickup_sizeOk (fs : FulfillmentSystem) (orderID : String) (now : Int)
    (h : fs.SizeOk) : (fs.PickupOrder orderID now).SizeOk := by
  rcases h with ⟨hc, hh, hs⟩
  by_cases p1 : ∃ st ∈ fs.heaterGroup.storages, orderID ∈ keysOf st.orders
  · rcases @pickup_in_heater _ _ now p1 with ⟨so, _, heq⟩
    rw [heq]
    exact logAction_sizeOk ⟨hc, group_remove_sizeOk hh, hs⟩
  · by_cases p2 : ∃ st ∈ fs.coolerGroup.storages, orderID ∈ keysOf st.orders
    · rcases @pickup_in_cooler _ _ now p1 p2 with ⟨so, _, heq⟩
      rw [heq]
      exact logAction_sizeOk ⟨group_remove_sizeOk hc, hh, hs⟩
    · by_cases p3 : ∃ st ∈ fs.shelfGroup.storages, orderID ∈ keysOf st.orders
      · rcases @pickup_in_shelf _ _ now p1 p2 p3 with ⟨so, _, heq⟩
        rw [heq]
        exact logAction_sizeOk ⟨hc, hh, group_remove_sizeOk hs⟩
      · rw [pickup_absent p1 p2 p3]
        exact ⟨hc, hh, hs⟩

theorem pickup_wellKeyed (fs : FulfillmentSystem) (orderID : String) (now : Int)
    (h : fs.WellKeyed) : (fs.PickupOrder orderID now).WellKeyed := by
  rcases h with ⟨hc, hh, hs⟩
  by_cases p1 : ∃ st ∈ fs.heaterGroup.storages, orderID ∈ keysOf st.orders
  · rcases @pickup_in_heater _ _ now p1 with ⟨so, _, heq⟩
    rw [heq]
    exact logAction_wellKeyed ⟨hc, group_remove_wellKeyed hh, hs⟩
  · by_cases p2 : ∃ st ∈ fs.coolerGroup.storages, orderID ∈ keysOf st.orders
    · rcases @pickup_in_cooler _ _ now p1 p2 with ⟨so, _, heq⟩
      rw [heq]
      exact logAction_wellKeyed ⟨group_remove_wellKeyed hc, hh, hs⟩
    · by_cases p3 : ∃ st ∈ fs.shelfGroup.storages, orderID ∈ keysOf st.orders
      · rcases @pickup_in_shelf _ _ now p1 p2 p3 with ⟨so, _, heq⟩
        rw [heq]
        exact logAction_wellKeyed ⟨hc, hh, group_remove_wellKeyed hs⟩
      · rw [pickup_absent p1 p2 p3]
        exact ⟨hc, hh, hs⟩

theorem pickup_keyCount (fs : FulfillmentSystem) (orderID : String) (now : Int)
    (id : String) :
    sysKeyCount (fs.PickupOrder orderID now) id ≤ sysKeyCount fs id := by
  have b1 := group_remove_keyCount_le fs.heaterGroup orderID id
  have b2 := group_remove_keyCount_le fs.coolerGroup orderID id
  have b3 := group_remove_keyCount_le fs.shelfGroup orderID id
  by_cases p1 : ∃ st ∈ fs.heaterGroup.storages, orderID ∈ keysOf st.orders
  · rcases @pickup_in_heater _ _ now p1 with ⟨so, _, heq⟩
    rw [heq, logAction_sysKeyCount]
    unfold sysKeyCount
    simp
    omega
  · by_cases p2 : ∃ st ∈ fs.coolerGroup.storages, orderID ∈ keysOf st.orders
    · rcases @pickup_in_cooler _ _ now p1 p2 with ⟨so, _, heq⟩
      rw [heq, logAction_sysKeyCount]
      unfold sysKeyCount
      simp
      omega
    · by_cases p3 : ∃ st ∈ fs.shelfGroup.storages, orderID ∈ keysOf st.orders
      · rcases @pickup_in_shelf _ _ now p1 p2 p3 with ⟨so, _, heq⟩
        rw [heq, logAction_sysKeyCount]
        unfold sysKeyCount
        simp
        omega
      · rw [pickup_absent p1 p2 p3]

/-! ### Reallocation lemmas -/

theorem moveShelfOrderTo_sizeOk (fs : FulfillmentSystem) (orderID : String)
    (toHeater : Bool) (now : Int) (h : fs.SizeOk) :
    (fs.moveShelfOrderTo orderID toHeater now).SizeOk := by
  rcases h with ⟨hc, hh, hs⟩
  unfold FulfillmentSystem.moveShelfOrderTo
  cases toHeater with
  | true =>
    rcases @moveOverShelfStorages_sizeOk fs.shelfGroup.storages
      fs.heaterGroup orderID now hs hh with ⟨h1, h2⟩
    simp only [if_true]
    by_cases hmv : (moveOverShelfStorages fs.shelfGroup.storages fs.heaterGroup
        orderID now).2.2 = true
    · simp only [hmv, if_true]
      exact logAction_sizeOk ⟨hc, h2, h1⟩
    · simp only [hmv, Bool.false_eq_true, if_false]
      exact ⟨hc, h2, h1⟩
  | false =>
    rcases @moveOverShelfStorages_sizeOk fs.shelfGroup.storages
      fs.coolerGroup orderID now hs hc with ⟨h1, h2⟩
    simp only [Bool.false_eq_true, if_false]
    by_cases hmv : (moveOverShelfStorages fs.shelfGroup.storages fs.coolerGroup
        orderID now).2.2 = true
    · simp only [hmv, if_true]
      exact logAction_sizeOk ⟨h2, hh, h1⟩
    · simp only [hmv, Bool.false_eq_true, if_false]
      exact ⟨h2, hh, h1⟩

theorem moveShelfOrderTo_keyCount (fs : FulfillmentSystem) (orderID : String)
    (toHeater : Bool) (now : Int) (id : String) :
    sysKeyCount (fs.moveShelfOrderTo orderID toHeater now) id ≤ sysKeyCount fs id := by
  unfold FulfillmentSystem.moveShelfOrderTo
  cases toHeater with
  | true =>
    have hb := moveOverShelfStorages_keyCount fs.shelfGroup.storages fs.heaterGroup
      orderID now id
    simp only [if_true]
    by_cases hmv : (moveOverShelfStorages fs.shelfGroup.storages fs.heaterGroup
        orderID now).2.2 = true
    · simp only [hmv, if_true]
      rw [logAction_sysKeyCount]
      unfold sysKeyCount
      simp
      omega
    · simp only [hmv, Bool.false_eq_true, if_false]
      unfold sysKeyCount
      simp
      omega
  | false =>
    have hb := moveOverShelfStorages_keyCount fs.shelfGroup.storages fs.coolerGroup
      orderID now id
    simp only [Bool.false_eq_true, if_false]
    by_cases hmv : (moveOverShelfStorages fs.shelfGroup.storages fs.coolerGroup
        orderID now).2.2 = true
    · simp only [hmv, if_true]
      rw [logAction_sysKeyCount]
      unfold sysKeyCount
      simp
      omega
    · simp only [hmv, Bool.false_eq_true, if_false]
      unfold sysKeyCount
      simp
      omega

theorem moveShelfOrderTo_actions (fs : FulfillmentSystem) (orderID : String)
    (toHeater : Bool) (now : Int) :
    (fs.moveShelfOrderTo orderID toHeater now).actions = fs.actions ∨
      (fs.moveShelfOrderTo orderID toHeater now).actions =
        fs.actions ++ [⟨Int.tdiv now 1000, orderID, ACTION_TYPE_MOVE⟩] := by
  unfold FulfillmentSystem.moveShelfOrderTo
  cases toHeater with
  | true =>
    simp only [if_true]
    by_cases hmv : (moveOverShelfStorages fs.shelfGroup.storages fs.heaterGroup
        orderID now).2.2 = true
    · simp only [hmv, if_true]
      right
      simp [FulfillmentSystem.logAction]
    · simp only [hmv, Bool.false_eq_true, if_false]
      left
      trivial
  | false =>
    simp only [Bool.false_eq_true, if_false]
    by_cases hmv : (moveOverShelfStorages fs.shelfGroup.storages fs.coolerGroup
        orderID now).2.2 = true
    · simp only [hmv, if_true]
      right
      simp [FulfillmentSystem.logAction]
    · simp only [hmv, Bool.false_eq_true, if_false]
      left
      trivial

theorem reallocScan_sizeOk (snapshot : List StoredOrder) (fs : FulfillmentSystem)
    (now : Int) (h : fs.SizeOk) : (reallocScan snapshot fs now).SizeOk := by
  induction snapshot generalizing fs with
  | nil => exact h
  | cons so rest ih =>
    unfold reallocScan
    by_cases h1 : (so.order.temperature = TEMP_TYPE_HOT ∧ ¬ fs.heaterGroup.IsFull = true)
    · rw [if_pos h1]
      exact ih _ (moveShelfOrderTo_sizeOk fs so.order.id true now h)
    · rw [if_neg h1]
      by_cases h2 : (so.order.temperature = TEMP_TYPE_COLD ∧ ¬ fs.coolerGroup.IsFull = true)
      · rw [if_pos h2]
        exact ih _ (moveShelfOrderTo_sizeOk fs so.order.id false now h)
      · rw [if_neg h2]
        exact ih _ h

theorem reallocScan_keyCount (snapshot : List StoredOrder) (fs : FulfillmentSystem)
    (now : Int) (id : String) :
    sysKeyCount (reallocScan snapshot fs now) id ≤ sysKeyCount fs id := by
  induction snapshot generalizing fs with
  | nil => exact Nat.le_refl _
  | cons so rest ih =>
    unfold reallocScan
    by_cases h1 : (so.order.temperature = TEMP_TYPE_HOT ∧ ¬ fs.heaterGroup.IsFull = true)
    · rw [if_pos h1]
      exact Nat.le_trans (ih _) (moveShelfOrderTo_keyCount fs so.order.id true now id)
    · rw [if_neg h1]
      by_cases h2 : (so.order.temperature = TEMP_TYPE_COLD ∧ ¬ fs.coolerGroup.IsFull = true)
      · rw [if_pos h2]
        exact Nat.le_trans (ih _) (moveShelfOrderTo_keyCount fs so.order.id false now id)
      · rw [if_neg h2]
        exact ih _

theorem reallocScan_actions (snapshot : List StoredOrder) (fs : FulfillmentSystem)
    (now : Int) :
    ∃ extra, (reallocScan snapshot fs now).actions = fs.actions ++ extra ∧
      ∀ a ∈ extra, a.action = ACTION_TYPE_MOVE ∧
        ∃ so ∈ snapshot, so.order.id = a.orderID ∧
          (so.order.temperature = TEMP_TYPE_HOT ∨ so.order.temperature = TEMP_TYPE_COLD) := by
  induction snapshot generalizing fs with
  | nil => exact ⟨[], by simp [reallocScan], by simp⟩
  | cons so rest ih =>
    unfold reallocScan
    by_cases h1 : (so.order.temperature = TEMP_TYPE_HOT ∧ ¬ fs.heaterGroup.IsFull = true)
    · rw [if_pos h1]
      rcases ih (fs.moveShelfOrderTo so.order.id true now) with ⟨extra, he, hp⟩
      rcases moveShelfOrderTo_actions fs so.order.id true now with hm | hm
      · refine ⟨extra, by rw [he, hm], ?_⟩
        intro a ha
        rcases hp a ha with ⟨hk, so2, hso2, hrest⟩
        exact ⟨hk, so2, by simp [hso2], hrest⟩
      · refine ⟨⟨Int.tdiv now 1000, so.order.id, ACTION_TYPE_MOVE⟩ :: extra, ?_, ?_⟩
        · rw [he, hm]
          simp
        · intro a ha
          rcases List.mem_cons.mp ha with ha | ha
          · rw [ha]
            exact ⟨rfl, so, by simp, rfl, Or.inl h1.1⟩
          · rcases hp a ha with ⟨hk, so2, hso2, hrest⟩
            exact ⟨hk, so2, by simp [hso2], hrest⟩
    · rw [if_neg h1]
      by_cases h2 : (so.order.temperature = TEMP_TYPE_COLD ∧ ¬ fs.coolerGroup.IsFull = true)
      · rw [if_pos h2]
        rcases ih (fs.moveShelfOrderTo so.order.id false now) with ⟨extra, he, hp⟩
        rcases moveShelfOrderTo_actions fs so.order.id false now with hm | hm
        · refine ⟨extra, by rw [he, hm], ?_⟩
          intro a ha
          rcases hp a ha with ⟨hk, so2, hso2, hrest⟩
          exact ⟨hk, so2, by simp [hso2], hrest⟩
        · refine ⟨⟨Int.tdiv now 1000, so.order.id, ACTION_TYPE_MOVE⟩ :: extra, ?_, ?_⟩
          · rw [he, hm]
            simp
          · intro a ha
            rcases List.mem_cons.mp ha with ha | ha
            · rw [ha]
              exact ⟨rfl, so, by simp, rfl, Or.inr h2.1⟩
            · rcases hp a ha with ⟨hk, so2, hso2, hrest⟩
              exact ⟨hk, so2, by simp [hso2], hrest⟩
      · rw [if_neg h2]
        rcases ih fs with ⟨extra, he, hp⟩
        refine ⟨extra, he, ?_⟩
        intro a ha
        rcases hp a ha with ⟨hk, so2, hso2, hrest⟩
        exact ⟨hk, so2, by simp [hso2], hrest⟩

theorem reallocScan_allFull (snapshot : List StoredOrder) (fs : FulfillmentSystem)
    (now : Int) (hh : fs.heaterGroup.IsFull = true) (hc : fs.coolerGroup.IsFull = true) :
    reallocScan snapshot fs now = fs := by
  induction snapshot with
  | nil => rfl
  | cons so rest ih =>
    unfold reallocScan
    rw [if_neg (by simp [hh]), if_neg (by simp [hc])]
    exact ih

theorem reallocTick_sizeOk (fs : FulfillmentSystem) (now : Int) (h : fs.SizeOk) :
    (fs.ReallocateTick now).SizeOk := by
  unfold FulfillmentSystem.ReallocateTick
  by_cases hfull : fs.shelfGroup.IsFull = true
  · rw [if_pos hfull]
    exact reallocScan_sizeOk _ fs now h
  · rw [if_neg (by simp [hfull] : ¬ fs.shelfGroup.IsFull = true)]
    exact h

theorem reallocTick_keyCount (fs : FulfillmentSystem) (now : Int) (id : String) :
    sysKeyCount (fs.ReallocateTick now) id ≤ sysKeyCount fs id := by
  unfold FulfillmentSystem.ReallocateTick
  by_cases hfull : fs.shelfGroup.IsFull = true
  · rw [if_pos hfull]
    exact reallocScan_keyCount _ fs now id
  · rw [if_neg (by simp [hfull] : ¬ fs.shelfGroup.IsFull = true)]

/-! ### Raw atomic-move operation lemmas -/

theorem mem_of_mem_setStorage {l : List Storage} {i : Nat} {b a : Storage}
    (h : a ∈ l.set i b) : a = b ∨ a ∈ l := by
  induction l generalizing i with
  | nil => simp at h
  | cons x xs ih =>
    cases i with
    | zero =>
      simp at h
      rcases h with h | h
      · exact Or.inl h
      · exact Or.inr (by simp [h])
    | succ j =>
      simp at h
      rcases h with h | h
      · exact Or.inr (by simp [h])
      · rcases ih h with hh | hh
        · exact Or.inl hh
        · exact Or.inr (by simp [hh])

theorem listKeyCount_set {l : List Storage} {i : Nat} {st : Storage}
    (h : l.get? i = some st) (st2 : Storage) (id : String) :
    listKeyCount (l.set i st2) id + keyCount st.orders id =
      listKeyCount l id + keyCount st2.orders id := by
  induction l generalizing i with
  | nil => simp at h
  | cons x xs ih =>
    cases i with
    | zero =>
      have hx : x = st := by
        rw [List.get?_cons_zero] at h
        exact Option.some_inj.mp h
      rw [← hx]
      simp [listKeyCount]
      omega
    | succ j =>
      rw [List.get?_cons_succ] at h
      have := ih h
      simp [listKeyCount]
      omega

theorem applyAtomicMoveAt_sizeOk (fs : FulfillmentSystem) (i : Nat) (toHeater : Bool)
    (orderID : String) (now : Int) (h : fs.SizeOk) :
    (fs.applyAtomicMoveAt i toHeater orderID now).SizeOk := by
  rcases h with ⟨hc, hh, hs⟩
  unfold FulfillmentSystem.applyAtomicMoveAt
  cases hg : fs.shelfGroup.storages.get? i with
  | none => exact ⟨hc, hh, hs⟩
  | some st =>
    have hstm : st ∈ fs.shelfGroup.storages := List.get?_mem hg
    have hst : st.SizeOk := hs st hstm
    cases toHeater with
    | true =>
      rcases @atomicMoveOrder_sizeOk st fs.heaterGroup
        orderID now hst hh with ⟨h1, h2⟩
      simp only [if_true]
      refine ⟨hc, h2, ?_⟩
      intro s hsmem
      rcases mem_of_mem_setStorage hsmem with hcase | hcase
      · rw [hcase]; exact h1
      · exact hs s hcase
    | false =>
      rcases @atomicMoveOrder_sizeOk st fs.coolerGroup
        orderID now hst hc with ⟨h1, h2⟩
      simp only [Bool.false_eq_true, if_false]
      refine ⟨h2, hh, ?_⟩
      intro s hsmem
      rcases mem_of_mem_setStorage hsmem with hcase | hcase
      · rw [hcase]; exact h1
      · exact hs s hcase

theorem applyAtomicMoveAt_keyCount (fs : FulfillmentSystem) (i : Nat) (toHeater : Bool)
    (orderID : String) (now : Int) (id : String) :
    sysKeyCount (fs.applyAtomicMoveAt i toHeater orderID now) id ≤ sysKeyCount fs id := by
  unfold FulfillmentSystem.applyAtomicMoveAt
  cases hg : fs.shelfGroup.storages.get? i with
  | none => exact Nat.le_refl _
  | some st =>
    cases toHeater with
    | true =>
      have hb := atomicMoveOrder_keyCount st fs.heaterGroup orderID now id
      have hset := listKeyCount_set hg
        (atomicMoveOrder st fs.heaterGroup orderID now).1 id
      simp only [if_true]
      unfold sysKeyCount
      simp
      omega
    | false =>
      have hb := atomicMoveOrder_keyCount st fs.coolerGroup orderID now id
      have hset := listKeyCount_set hg
        (atomicMoveOrder st fs.coolerGroup orderID now).1 id
      simp only [Bool.false_eq_true, if_false]
      unfold sysKeyCount
      simp
      omega

/-! ### Whole-operation lemmas -/

theorem applyOp_sizeOk (fs : FulfillmentSystem) (op : SysOp) (h : fs.SizeOk) :
    (fs.applyOp op).SizeOk := by
  cases op with
  | place o now => exact placeOrder_sizeOk fs o now h
  | pickup oid now => exact pickup_sizeOk fs oid now h
  | tick now => exact reallocTick_sizeOk fs now h
  | moveOp i toHeater oid now => exact applyAtomicMoveAt_sizeOk fs i toHeater oid now h
  | discardOp now => exact discard_sizeOk fs now h

theorem applyOp_keyCount (fs : FulfillmentSystem) (op : SysOp) (id : String) :
    sysKeyCount (fs.applyOp op) id ≤ sysKeyCount fs id + op.placeInd id := by
  cases op with
  | place o now => exact placeOrder_keyCount fs o now id
  | pickup oid now => exact pickup_keyCount fs oid now id
  | tick now =>
    have := reallocTick_keyCount fs now id
    simpa [SysOp.placeInd] using this
  | moveOp i toHeater oid now =>
    have := applyAtomicMoveAt_keyCount fs i toHeater oid now id
    simpa [SysOp.placeInd] using this
  | discardOp now =>
    have := discard_keyCount fs now id
    simpa [SysOp.placeInd] using this

theorem applyOps_take_bound (ops : List SysOp) (fs : FulfillmentSystem) (id : String)
    (h : sysKeyCount fs id + placeIdCount ops id ≤ 1) (n : Nat) :
    sysKeyCount (fs.applyOps (ops.take n)) id ≤ 1 := by
  induction ops generalizing fs n with
  | nil =>
    simp [FulfillmentSystem.applyOps]
    simpa [placeIdCount] using h
  | cons op rest ih =>
    cases n with
    | zero =>
      simp [FulfillmentSystem.applyOps]
      simp [placeIdCount] at h
      omega
    | succ m =>
      have hstep := applyOp_keyCount fs op id
      have hnext : sysKeyCount (fs.applyOp op) id + placeIdCount rest id ≤ 1 := by
        simp [placeIdCount] at h
        omega
      have := ih (fs.applyOp op) hnext m
      simpa [FulfillmentSystem.applyOps] using this

theorem listKeyCount_empty {sts : List Storage} (h : ∀ st ∈ sts, st.orders = [])
    (id : String) : listKeyCount sts id = 0 := by
  induction sts with
  | nil => rfl
  | cons st rest ih =>
    have h1 := h st (by simp)
    simp [listKeyCount, h1, keyCount]
    exact ih (fun st2 h2 => h st2 (by simp [h2]))

theorem mkStorages_empty (prefixName : String) (n cap : Int) :
    ∀ st ∈ mkStorages prefixName n cap, st.orders = [] := by
  intro st hst
  unfold mkStorages at hst
  rcases List.mem_map.mp hst with ⟨i, _, hi⟩
  rw [← hi]
  rfl

theorem sysKeyCount_init (cfg : FulfillmentConfig) (id : String) :
    sysKeyCount (NewFulfillmentSystem cfg) id = 0 := by
  unfold sysKeyCount NewFulfillmentSystem
  rw [listKeyCount_empty (mkStorages_empty _ _ _) id,
    listKeyCount_empty (mkStorages_empty _ _ _) id,
    listKeyCount_empty (mkStorages_empty _ _ _) id]

/-! ### Remaining support lemmas -/

theorem mapGet_mapDelete_self (m : OrderMap) (k : String) :
    mapGet (mapDelete m k) k = none := by
  rw [mapGet_eq_none_iff, keysOf_mapDelete]
  simp

theorem destInsertScan_inserted {storages storages' : List Storage} {k : String}
    {v : StoredOrder} (h : destInsertScan storages k v = some storages') :
    ∃ st ∈ storages', mapGet st.orders k = some v := by
  induction storages generalizing storages' with
  | nil => simp [destInsertScan] at h
  | cons st rest ih =>
    by_cases hroom : (st.orders.length : Int) < st.capacity
    · simp [destInsertScan, hroom] at h
      refine ⟨{ st with orders := mapInsert st.orders k v }, ?_, ?_⟩
      · rw [← h]
        simp
      · simpa using mapGet_mapInsert_self st.orders k v
    · simp [destInsertScan, hroom] at h
      cases hrec : destInsertScan rest k v with
      | none => simp [hrec] at h
      | some rest' =>
        simp [hrec] at h
        rcases ih hrec with ⟨s, hs, hgs⟩
        refine ⟨s, ?_, hgs⟩
        rw [← h]
        simp [hs]

theorem placeIdCount_eq_count (ops : List SysOp) (id : String) :
    placeIdCount ops id = (placeIds ops).count id := by
  induction ops with
  | nil => rfl
  | cons op rest ih =>
    cases op with
    | place o now =>
      have h1 : placeIds (SysOp.place o now :: rest) = o.id :: placeIds rest := by
        simp [placeIds]
      have h2 : placeIdCount (SysOp.place o now :: rest) id =
          (if o.id = id then 1 else 0) + placeIdCount rest id := rfl
      rw [h1, h2, List.count_cons, ih]
      by_cases h : o.id = id
      · simp [h, Nat.add_comm]
      · simp [h]
    | pickup oid now =>
      have h1 : placeIds (SysOp.pickup oid now :: rest) = placeIds rest := by
        simp [placeIds]
      have h2 : placeIdCount (SysOp.pickup oid now :: rest) id = placeIdCount rest id := by
        simp [placeIdCount, SysOp.placeInd]
      rw [h1, h2, ih]
    | tick now =>
      have h1 : placeIds (SysOp.tick now :: rest) = placeIds rest := by
        simp [placeIds]
      have h2 : placeIdCount (SysOp.tick now :: rest) id = placeIdCount rest id := by
        simp [placeIdCount, SysOp.placeInd]
      rw [h1, h2, ih]
    | moveOp i toHeater oid now =>
      have h1 : placeIds (SysOp.moveOp i toHeater oid now :: rest) = placeIds rest := by
        simp [placeIds]
      have h2 : placeIdCount (SysOp.moveOp i toHeater oid now :: rest) id =
          placeIdCount rest id := by
        simp [placeIdCount, SysOp.placeInd]
      rw [h1, h2, ih]
    | discardOp now =>
      have h1 : placeIds (SysOp.discardOp now :: rest) = placeIds rest := by
        simp [placeIds]
      have h2 : placeIdCount (SysOp.discardOp now :: rest) id = placeIdCount rest id := by
        simp [placeIdCount, SysOp.placeInd]
      rw [h1, h2, ih]

theorem placeIdCount_le_one_of_nodup {ops : List SysOp} (h : (placeIds ops).Nodup)
    (id : String) : placeIdCount ops id ≤ 1 := by
  rw [placeIdCount_eq_count]
  exact List.nodup_iff_count_le_one.mp h id

/-! ### Claim theorems -/

/-! ### Presence preservation across moves -/

theorem keyCount_le_mapInsert (m : OrderMap) (k : String) (v : StoredOrder) (id : String) :
    keyCount m id ≤ keyCount (mapInsert m k v) id := by
  induction m with
  | nil => simp [keyCount]
  | cons p rest ih =>
    obtain ⟨k', v'⟩ := p
    by_cases hk : k' = k
    · subst hk
      simp [mapInsert, keyCount]
    · simp [mapInsert, hk, keyCount]
      omega

theorem keyCount_le_listKeyCount_of_mem {storages : List Storage} {st : Storage}
    (h : st ∈ storages) (id : String) :
    keyCount st.orders id ≤ listKeyCount storages id := by
  induction storages with
  | nil => simp at h
  | cons x xs ih =>
    have hl : listKeyCount (x :: xs) id = keyCount x.orders id + listKeyCount xs id := rfl
    rcases List.mem_cons.mp h with h1 | h1
    · rw [h1, hl]
      omega
    · have h2 := ih h1
      rw [hl]
      omega

theorem destInsertScan_keyCount_ge {storages storages' : List Storage} {k : String}
    {v : StoredOrder} (h : destInsertScan storages k v = some storages') (id : String) :
    listKeyCount storages id ≤ listKeyCount storages' id := by
  induction storages generalizing storages' with
  | nil => simp [destInsertScan] at h
  | cons st rest ih =>
    by_cases hroom : (st.orders.length : Int) < st.capacity
    · simp [destInsertScan, hroom] at h
      rw [← h]
      have h1 := keyCount_le_mapInsert st.orders k v id
      have hl1 : listKeyCount (st :: rest) id =
          keyCount st.orders id + listKeyCount rest id := rfl
      have hl2 : listKeyCount ({ st with orders := mapInsert st.orders k v } :: rest) id =
          keyCount (mapInsert st.orders k v) id + listKeyCount rest id := rfl
      rw [hl1, hl2]
      omega
    · simp [destInsertScan, hroom] at h
      cases hrec : destInsertScan rest k v with
      | none => simp [hrec] at h
      | some rest' =>
        simp [hrec] at h
        have h2 := ih hrec
        rw [← h]
        have hl1 : listKeyCount (st :: rest) id =
            keyCount st.orders id + listKeyCount rest id := rfl
        have hl2 : listKeyCount (st :: rest') id =
            keyCount st.orders id + listKeyCount rest' id := rfl
        rw [hl1, hl2]
        omega

theorem moveToDestination_presence {source : Storage} {destination : StorageGroup}
    (orderID : String) (order : StoredOrder) (id : String)
    (h : 1 ≤ keyCount source.orders id + listKeyCount destination.storages id) :
    1 ≤ keyCount (moveToDestination source destination orderID order).1.orders id +
      listKeyCount (moveToDestination source destination orderID order).2.1.storages id := by
  unfold moveToDestination
  cases hd : destInsertScan destination.storages orderID order with
  | none => exact h
  | some storages2 =>
    show 1 ≤ keyCount (mapDelete source.orders orderID) id + listKeyCount storages2 id
    by_cases hid : orderID = id
    · subst hid
      rcases destInsertScan_inserted hd with ⟨st, hmem, hget⟩
      have h1 := keyCount_pos_of_mapGet hget
      have h2 := keyCount_le_listKeyCount_of_mem hmem orderID
      omega
    · have h1 : keyCount (mapDelete source.orders orderID) id = keyCount source.orders id := by
        rw [keyCount_mapDelete, if_neg hid]
      have h2 := destInsertScan_keyCount_ge hd id
      omega

theorem atomicMoveOrder_presence {source : Storage} {destination : StorageGroup}
    (orderID : String) (now : Int) (id : String)
    (h : 1 ≤ keyCount source.orders id + listKeyCount destination.storages id) :
    1 ≤ keyCount (atomicMoveOrder source destination orderID now).1.orders id +
      listKeyCount (atomicMoveOrder source destination orderID now).2.1.storages id := by
  cases hm : mapGet source.orders orderID with
  | none =>
    rw [atomicMoveOrder_eq_none hm]
    exact h
  | some order =>
    by_cases htemp : order.order.temperature ≠ TEMP_TYPE_ROOM
    · by_cases hexp : order.order.initialFreshness - 2 * (now - order.placedAt) ≤ 0
      · rw [atomicMoveOrder_eq_expired hm htemp hexp]
        exact h
      · rw [atomicMoveOrder_eq_rewrite hm htemp hexp]
        apply moveToDestination_presence
        have h1 := keyCount_le_mapInsert source.orders orderID (rewriteForMove order now) id
        show 1 ≤ keyCount (mapInsert source.orders orderID (rewriteForMove order now)) id +
          listKeyCount destination.storages id
        omega
    · rw [atomicMoveOrder_eq_room hm (not_not.mp htemp)]
      exact moveToDestination_presence orderID order id h

theorem applyAtomicMoveAt_presence (fs : FulfillmentSystem) (i : Nat) (toHeater : Bool)
    (orderID : String) (now : Int) (id : String) (h : 1 ≤ sysKeyCount fs id) :
    1 ≤ sysKeyCount (fs.applyAtomicMoveAt i toHeater orderID now) id := by
  unfold FulfillmentSystem.applyAtomicMoveAt
  cases hg : fs.shelfGroup.storages.get? i with
  | none => exact h
  | some st =>
    have hmemle := keyCount_le_listKeyCount_of_mem (List.get?_mem hg) id
    cases toHeater with
    | true =>
      have hset := listKeyCount_set hg (atomicMoveOrder st fs.heaterGroup orderID now).1 id
      simp only [if_true]
      unfold sysKeyCount at h ⊢
      simp
      by_cases hp : 1 ≤ keyCount st.orders id + listKeyCount fs.heaterGroup.storages id
      · have hpres := atomicMoveOrder_presence orderID now id hp
        omega
      · omega
    | false =>
      have hset := listKeyCount_set hg (atomicMoveOrder st fs.coolerGroup orderID now).1 id
      simp only [Bool.false_eq_true, if_false]
      unfold sysKeyCount at h ⊢
      simp
      by_cases hp : 1 ≤ keyCount st.orders id + listKeyCount fs.coolerGroup.storages id
      · have hpres := atomicMoveOrder_presence orderID now id hp
        omega
      · omega

/-! ### Success characterization of the reallocation moves -/

theorem moveToDestination_success_mem {source : Storage} {destination : StorageGroup}
    {orderID : String} {order : StoredOrder}
    (h : (moveToDestination source destination orderID order).2.2 = true) :
    ∃ st ∈ (moveToDestination source destination orderID order).2.1.storages,
      orderID ∈ keysOf st.orders := by
  unfold moveToDestination at h ⊢
  cases hd : destInsertScan destination.storages orderID order with
  | none =>
    rw [hd] at h
    simp at h
  | some storages2 =>
    rcases destInsertScan_inserted hd with ⟨st, hmem, hget⟩
    exact ⟨st, hmem, mapGet_isSome_iff.mp (by simp [hget])⟩

theorem atomicMoveOrder_success_mem_dest {source : Storage} {destination : StorageGroup}
    {orderID : String} {now : Int}
    (h : (atomicMoveOrder source destination orderID now).2.2 = true) :
    ∃ st ∈ (atomicMoveOrder source destination orderID now).2.1.storages,
      orderID ∈ keysOf st.orders := by
  cases hm : mapGet source.orders orderID with
  | none =>
    rw [atomicMoveOrder_eq_none hm] at h
    exact absurd h (by simp)
  | some order =>
    by_cases htemp : order.order.temperature ≠ TEMP_TYPE_ROOM
    · by_cases hexp : order.order.initialFreshness - 2 * (now - order.placedAt) ≤ 0
      · rw [atomicMoveOrder_eq_expired hm htemp hexp] at h
        exact absurd h (by simp)
      · rw [atomicMoveOrder_eq_rewrite hm htemp hexp] at h ⊢
        exact moveToDestination_success_mem h
    · rw [atomicMoveOrder_eq_room hm (not_not.mp htemp)] at h ⊢
      exact moveToDestination_success_mem h

theorem moveOverShelfStorages_success_mem_dest {storages : List Storage}
    {destination : StorageGroup} {orderID : String} {now : Int}
    (h : (moveOverShelfStorages storages destination orderID now).2.2 = true) :
    ∃ st ∈ (moveOverShelfStorages storages destination orderID now).2.1.storages,
      orderID ∈ keysOf st.orders := by
  induction storages generalizing destination with
  | nil => simp [moveOverShelfStorages] at h
  | cons st rest ih =>
    by_cases hs : (atomicMoveOrder st destination orderID now).2.2 = true
    · simp only [moveOverShelfStorages, hs, if_true] at h ⊢
      exact atomicMoveOrder_success_mem_dest hs
    · simp at hs
      simp only [moveOverShelfStorages, hs, Bool.false_eq_true, if_false] at h ⊢
      exact @ih (atomicMoveOrder st destination orderID now).2.1 h

theorem moveShelfOrderTo_succ_actions (fs : FulfillmentSystem) (orderID : String)
    (toHeater : Bool) (now : Int)
    (h : (moveOverShelfStorages fs.shelfGroup.storages
      (if toHeater then fs.heaterGroup else fs.coolerGroup) orderID now).2.2 = true) :
    (fs.moveShelfOrderTo orderID toHeater now).actions =
        fs.actions ++ [⟨Int.tdiv now 1000, orderID, ACTION_TYPE_MOVE⟩] ∧
      ∃ st ∈ (if toHeater then (fs.moveShelfOrderTo orderID toHeater now).heaterGroup.storages
          else (fs.moveShelfOrderTo orderID toHeater now).coolerGroup.storages),
        orderID ∈ keysOf st.orders := by
  cases toHeater with
  | true =>
    simp only [if_true] at h ⊢
    unfold FulfillmentSystem.moveShelfOrderTo
    simp only [if_true, h]
    constructor
    · simp [FulfillmentSystem.logAction]
    · have h2 := moveOverShelfStorages_success_mem_dest h
      simpa [FulfillmentSystem.logAction] using h2
  | false =>
    simp only [Bool.false_eq_true, if_false] at h ⊢
    unfold FulfillmentSystem.moveShelfOrderTo
    simp only [Bool.false_eq_true, if_false, h, if_true]
    constructor
    · simp [FulfillmentSystem.logAction]
    · have h2 := moveOverShelfStorages_success_mem_dest h
      simpa [FulfillmentSystem.logAction] using h2

theorem moveShelfOrderTo_fail_actions (fs : FulfillmentSystem) (orderID : String)
    (toHeater : Bool) (now : Int)
    (h : (moveOverShelfStorages fs.shelfGroup.storages
      (if toHeater then fs.heaterGroup else fs.coolerGroup) orderID now).2.2 = false) :
    (fs.moveShelfOrderTo orderID toHeater now).actions = fs.actions := by
  cases toHeater with
  | true =>
    simp only [if_true] at h
    unfold FulfillmentSystem.moveShelfOrderTo
    simp only [if_true, h, Bool.false_eq_true, if_false]
  | false =>
    simp only [Bool.false_eq_true, if_false] at h
    unfold FulfillmentSystem.moveShelfOrderTo
    simp only [Bool.false_eq_true, if_false, h]

theorem reallocScan_cons_eq (so : StoredOrder) (rest : List StoredOrder)
    (fs : FulfillmentSystem) (now : Int) :
    reallocScan (so :: rest) fs now =
      reallocScan rest
        (if so.order.temperature = TEMP_TYPE_HOT ∧ ¬ fs.heaterGroup.IsFull then
          fs.moveShelfOrderTo so.order.id true now
        else if so.order.temperature = TEMP_TYPE_COLD ∧ ¬ fs.coolerGroup.IsFull then
          fs.moveShelfOrderTo so.order.id false now
        else fs) now := rfl

/-- C1: the claim that a failed atomicMoveOrder leaves all storage state
unchanged is refuted by the code: for a non-room order the source map
entry is rewritten (freshness recomputed, placement anchor reset to the
move time) before the destination capacity scan, so a move that then
fails for lack of capacity returns false yet leaves the mutation behind.
Here the hot order h (freshness 10, placed at 0) is moved at time 2
towards a full heater: the move reports false but h now reads freshness 6
anchored at 2. -/

theorem C1_capacity_failure_mutates_source :
    (atomicMoveOrder scnShelfUnit scnFullHeater "h" 2).2.2 = false ∧
    (atomicMoveOrder scnShelfUnit scnFullHeater "h" 2).1 ≠ scnShelfUnit ∧
    mapGet (atomicMoveOrder scnShelfUnit scnFullHeater "h" 2).1.orders "h" =
      some (rewriteForMove scnHotOrder 2) ∧
    rewriteForMove scnHotOrder 2 ≠ scnHotOrder := by
  decide

/-- C2: amended.  RemainingFreshness selects its rate purely from the
order's temperature, never from where the order is stored: every stored
order is evaluated with the shelf-stored variant of the specification
formula (single rate for room orders, halved nominal freshness for
hot/cold orders), so a hot or cold order sitting in its ideal
heater/cooler group still decays at the halved-nominal rate, contrary to
the claimed single-rate behaviour for ideally-stored orders. -/

theorem C2_rate_depends_only_on_temperature (so : StoredOrder) (now : Int) :
    so.RemainingFreshness now = specRemainingFreshness true so now := by
  unfold StoredOrder.RemainingFreshness specRemainingFreshness
  by_cases h : so.order.temperature = TEMP_TYPE_ROOM
  · simp [h]
  · simp [h]

/-- C2 counterexample: the hot order h stored in its ideal heater group
evaluates to 3 = 10/2 - 2 at time 2, not the single-rate 8 = 10 - 2 the
claim requires for ideally-stored orders. -/

theorem C2_hot_in_heater_decays_double :
    (∃ st ∈ c2state.heaterGroup.storages, mapGet st.orders "h" = some c2rec) ∧
    c2rec.order.temperature = TEMP_TYPE_HOT ∧
    c2rec.RemainingFreshness 2 = 3 ∧
    specRemainingFreshness false c2rec 2 = 8 ∧
    c2rec.RemainingFreshness 2 ≠ specRemainingFreshness false c2rec 2 := by
  decide

/-- C3: amended.  For a non-room order found in the source unit,
atomicMoveOrder refuses the move as expired exactly when
initialFreshness - 2*elapsed ≤ 0 (elapsed measured from the current
placement anchor) — twice the value of the §4.3 double-rate formula
initialFreshness/2 - elapsed — and otherwise rewrites the stored order to
`rewriteForMove`, whose freshness is exactly initialFreshness - 2*elapsed
and whose anchor is the move time; the rewrite lands in the source unit
when the move then fails and in a destination unit when it succeeds. -/

theorem C3_move_rewrite_characterization (source : Storage) (destination : StorageGroup)
    (orderID : String) (now : Int) (o : StoredOrder)
    (hm : mapGet source.orders orderID = some o)
    (htemp : o.order.temperature ≠ TEMP_TYPE_ROOM) :
    (o.order.initialFreshness - 2 * (now - o.placedAt) ≤ 0 →
      atomicMoveOrder source destination orderID now = (source, destination, false)) ∧
    (0 < o.order.initialFreshness - 2 * (now - o.placedAt) →
      ((atomicMoveOrder source destination orderID now).2.2 = false →
        mapGet (atomicMoveOrder source destination orderID now).1.orders orderID =
          some (rewriteForMove o now)) ∧
      ((atomicMoveOrder source destination orderID now).2.2 = true →
        mapGet (atomicMoveOrder source destination orderID now).1.orders orderID = none ∧
        ∃ st ∈ (atomicMoveOrder source destination orderID now).2.1.storages,
          mapGet st.orders orderID = some (rewriteForMove o now))) := by
  constructor
  · intro hexp
    exact atomicMoveOrder_eq_expired hm htemp hexp
  · intro hpos
    have hexp : ¬ o.order.initialFreshness - 2 * (now - o.placedAt) ≤ 0 := by omega
    rw [atomicMoveOrder_eq_rewrite hm htemp hexp]
    unfold moveToDestination
    cases hd : destInsertScan destination.storages orderID (rewriteForMove o now) with
    | none =>
      refine ⟨fun _ => ?_, fun htrue => ?_⟩
      · simpa using mapGet_mapInsert_self source.orders orderID (rewriteForMove o now)
      · simp at htrue
    | some storages2 =>
      refine ⟨fun hfalse => ?_, fun _ => ⟨?_, ?_⟩⟩
      · simp at hfalse
      · simpa using
          mapGet_mapDelete_self (mapInsert source.orders orderID (rewriteForMove o now)) orderID
      · simpa using destInsertScan_inserted hd

/-- C3 witness: the concrete failed move of C1 leaves the rewritten order
in the source unit, exactly as the characterization states. -/

theorem C3_move_rewrite_characterization_witness :
    mapGet (atomicMoveOrder scnShelfUnit scnFullHeater "h" 2).1.orders "h" =
      some (rewriteForMove scnHotOrder 2) :=
  ((C3_move_rewrite_characterization scnShelfUnit scnFullHeater "h" 2 scnHotOrder
    (by decide) (by decide)).2 (by decide)).1 (by decide)

/-- C3 counterexample: moving the hot order h (initial freshness 10,
placed at 0) into an empty heater at time 2 succeeds and stores freshness
6 = 10 - 2*2, not the 3 = 10/2 - 2 the claim's §4.3 double-rate formula
prescribes. -/

theorem C3_move_stores_double_remaining :
    (atomicMoveOrder scnShelfUnit scnEmptyHeater "h" 2).2.2 = true ∧
    (atomicMoveOrder scnShelfUnit scnEmptyHeater "h" 2).2.1.storages =
      [{ name := "Heater-1", capacity := 1, orders := [("h", rewriteForMove scnHotOrder 2)] }] ∧
    (rewriteForMove scnHotOrder 2).order.freshness = 6 ∧
    Int.tdiv scnHotOrder.order.initialFreshness 2 - (2 - scnHotOrder.placedAt) = 3 ∧
    (rewriteForMove scnHotOrder 2).order.freshness ≠
      Int.tdiv scnHotOrder.order.initialFreshness 2 - (2 - scnHotOrder.placedAt) := by
  decide

/-- C4: amended.  The discard path selects the shelf's least-fresh order
only to pick a temperature class: it then tries to move shelf orders of
that class in shelf iteration order, stopping at the first success, so
the moved order need not be the least-fresh one.  When some move
succeeds, the discard step is exactly that move (one move action, no
discard action); only when every such move fails and the least-fresh id
is still present is that order removed and a discard action recorded. -/

theorem C4_discard_move_first_match (fs : FulfillmentSystem) (now : Int) (c : StoredOrder)
    (hc : fs.shelfGroup.GetLeastFreshOrder now = some c) :
    ((fs.tryMoveFromShelfGroup c.order.temperature now).2 = true →
      fs.discardOrderFromShelfGroup now =
        (fs.tryMoveFromShelfGroup c.order.temperature now).1 ∧
      ∃ oid, (fs.discardOrderFromShelfGroup now).actions =
        fs.actions ++ [⟨Int.tdiv now 1000, oid, ACTION_TYPE_MOVE⟩]) ∧
    ((fs.tryMoveFromShelfGroup c.order.temperature now).2 = false →
      ∀ rm, ((fs.tryMoveFromShelfGroup c.order.temperature now).1.shelfGroup.Remove
          c.order.id).2 = some rm →
        (fs.discardOrderFromShelfGroup now).actions =
          (fs.tryMoveFromShelfGroup c.order.temperature now).1.actions ++
            [⟨Int.tdiv now 1000, c.order.id, ACTION_TYPE_DISCARD⟩]) := by
  constructor
  · intro hmv
    rw [discard_eq_some hc, if_pos hmv]
    exact ⟨rfl, tryMoveFromShelfGroup_true_actions hmv⟩
  · intro hmv rm hrm
    rw [discard_eq_some hc, if_neg (by simp [hmv])]
    simp only [hrm]
    simp [FulfillmentSystem.logAction]

/-- C4 witness: in the concrete scenario the discard path resolves to the
successful move, with the system state equal to the move result. -/

theorem C4_discard_move_first_match_witness :
    c4state.discardOrderFromShelfGroup 2 =
      (c4state.tryMoveFromShelfGroup c4least.order.temperature 2).1 :=
  ((C4_discard_move_first_match c4state 2 c4least (by decide)).1 (by decide)).1

/-- C4 counterexample: the shelf's least-fresh order is HStale, yet the
overflow placement of a room order records a move of HFresh — the first
hot shelf order in iteration order — and HStale stays on the shelf. -/

theorem C4_moved_order_not_least_fresh :
    c4state.shelfGroup.GetLeastFreshOrder 2 = some c4least ∧
    c4least.order.id = "HStale" ∧
    (c4state.PlaceOrder ⟨"R", "", TEMP_TYPE_ROOM, 10, 10⟩ 2).actions =
      c4state.actions ++
        [⟨0, "HFresh", ACTION_TYPE_MOVE⟩, ⟨0, "R", ACTION_TYPE_PLACE⟩] ∧
    (∃ st ∈ (c4state.PlaceOrder ⟨"R", "", TEMP_TYPE_ROOM, 10, 10⟩ 2).shelfGroup.storages,
      "HStale" ∈ keysOf st.orders) ∧
    "HFresh" ≠ "HStale" := by
  decide

/-- C5: occupancy never exceeds capacity: a unit-level Add preserves the
bound, every engine operation (place, pickup, reallocation tick, raw
atomic move, discard) preserves the system-wide bound, re-adding an
existing id overwrites in place (success without growing the map), and
adding a new id succeeds exactly when occupancy is strictly below
capacity. -/

theorem C5_capacity_invariant :
    (∀ (st : Storage) (so : StoredOrder), st.SizeOk → ((st.Add so).1).SizeOk) ∧
    (∀ (fs : FulfillmentSystem) (op : SysOp), fs.SizeOk → (fs.applyOp op).SizeOk) ∧
    (∀ (st : Storage) (so : StoredOrder), (mapGet st.orders so.order.id).isSome = true →
      (st.Add so).2 = true ∧ (st.Add so).1.orders.length = st.orders.length ∧
      mapGet (st.Add so).1.orders so.order.id = some so) ∧
    (∀ (st : Storage) (so : StoredOrder), mapGet st.orders so.order.id = none →
      ((st.Add so).2 = true ↔ (st.orders.length : Int) < st.capacity)) := by
  refine ⟨fun st so h => Storage.add_sizeOk so h,
    fun fs op h => applyOp_sizeOk fs op h, ?_, ?_⟩
  · intro st so h
    unfold Storage.Add
    rw [if_pos h]
    refine ⟨rfl, ?_, ?_⟩
    · exact length_mapInsert_of_mem so (mapGet_isSome_iff.mp h)
    · exact mapGet_mapInsert_self st.orders so.order.id so
  · intro st so h
    have h2 : (mapGet st.orders so.order.id).isSome = false := by simp [h]
    unfold Storage.Add
    rw [if_neg (by simp [h2])]
    by_cases hlt : (st.orders.length : Int) < st.capacity
    · rw [if_pos hlt]
      simp [hlt]
    · rw [if_neg hlt]
      simp [hlt]

/-- C5 witness: the system-wide bound holds after a concrete place. -/

theorem C5_capacity_invariant_witness :
    ((NewFulfillmentSystem scnConfig).applyOp
      (SysOp.place ⟨"a", "", TEMP_TYPE_HOT, 5, 5⟩ 0)).SizeOk :=
  C5_capacity_invariant.2.1 (NewFulfillmentSystem scnConfig)
    (SysOp.place ⟨"a", "", TEMP_TYPE_HOT, 5, 5⟩ 0) (by decide)

/-- C6: starting from the freshly built (empty) system, along any
sequence of engine operations whose placed order ids are pairwise
distinct, every id is stored at most once across all units of the whole
system at every prefix of the run, so no move ever leaves an id present
in two units; moreover a move never makes an order vanish: both the core
atomic move (over its source unit and destination group) and the
system-level raw move operation preserve presence — an id stored
somewhere before the move is still stored somewhere after it, whether
the move succeeds or fails. -/

theorem C6_no_duplication :
    (∀ (cfg : FulfillmentConfig) (ops : List SysOp) (n : Nat) (id : String),
      (placeIds ops).Nodup →
      sysKeyCount ((NewFulfillmentSystem cfg).applyOps (ops.take n)) id ≤ 1) ∧
    (∀ (source : Storage) (destination : StorageGroup) (orderID : String) (now : Int)
      (id : String),
      1 ≤ keyCount source.orders id + listKeyCount destination.storages id →
      1 ≤ keyCount (atomicMoveOrder source destination orderID now).1.orders id +
        listKeyCount (atomicMoveOrder source destination orderID now).2.1.storages id) ∧
    (∀ (fs : FulfillmentSystem) (i : Nat) (toHeater : Bool) (orderID : String) (now : Int)
      (id : String), 1 ≤ sysKeyCount fs id →
      1 ≤ sysKeyCount (fs.applyAtomicMoveAt i toHeater orderID now) id) := by
  refine ⟨?_, ?_, ?_⟩
  · intro cfg ops n id h
    have h1 : sysKeyCount (NewFulfillmentSystem cfg) id + placeIdCount ops id ≤ 1 := by
      rw [sysKeyCount_init]
      simpa using placeIdCount_le_one_of_nodup h id
    exact applyOps_take_bound ops _ id h1 n
  · intro source destination orderID now id h
    exact atomicMoveOrder_presence orderID now id h
  · intro fs i toHeater orderID now id h
    exact applyAtomicMoveAt_presence fs i toHeater orderID now id h

/-- C6 witness: a concrete five-operation run with distinct placed ids
keeps id a stored at most once at the final observation point. -/

theorem C6_no_duplication_witness :
    sysKeyCount ((NewFulfillmentSystem scnConfig).applyOps (c6ops.take 5)) "a" ≤ 1 :=
  C6_no_duplication.1 scnConfig c6ops 5 "a" (by decide)

/-- C7: the claim that a recorded discard removes an order of minimal
remaining freshness is refuted by the real run: placing H2 at time 10
records `discard H1`, but the two failed move attempts inside that same
PlaceOrder rewrote H1 through the map pointer (freshness reset to its
initial 10, anchor reset to 10), so at the discard instant the removed
record reads remaining freshness 5 while the surviving shelf order R1
reads 2. -/

theorem C7_discarded_not_minimal :
    c7s4.actions = c7s3.actions ++
      [⟨0, "H1", ACTION_TYPE_DISCARD⟩, ⟨0, "H2", ACTION_TYPE_PLACE⟩] ∧
    c7s3.shelfGroup.IsFull = true ∧
    (c7s3.tryMoveFromShelfGroup TEMP_TYPE_HOT 10).2 = false ∧
    (c7mid.discardOrderFromShelfGroup 10).actions =
      c7mid.actions ++ [⟨0, "H1", ACTION_TYPE_DISCARD⟩] ∧
    ((c7mid.tryMoveFromShelfGroup TEMP_TYPE_HOT 10).1.shelfGroup.Remove "H1").2 =
      some c7discarded ∧
    c7survivor ∈ (c7mid.tryMoveFromShelfGroup TEMP_TYPE_HOT 10).1.shelfGroup.ListOrders ∧
    c7discarded.RemainingFreshness 10 = 5 ∧
    c7survivor.RemainingFreshness 10 = 2 := by
  decide

/-- C8: when the system satisfies the occupancy and keying invariants and
some shelf unit has capacity at least 1, every PlaceOrder records exactly
one place action (the discard fallback always frees a slot the retry can
use, so the silent-drop branch is unreachable); the other recorded
actions of the same call, if any, are never place actions. -/

theorem C8_place_records_one_place (fs : FulfillmentSystem) (o : Order) (now : Int)
    (hsz : fs.SizeOk) (hwk : fs.WellKeyed)
    (hcap : ∃ st ∈ fs.shelfGroup.storages, 1 ≤ st.capacity) :
    ∃ extra, (fs.PlaceOrder o now).actions =
        fs.actions ++ extra ++ [⟨Int.tdiv now 1000, o.id, ACTION_TYPE_PLACE⟩] ∧
      ∀ a ∈ extra, a.action ≠ ACTION_TYPE_PLACE :=
  placeOrder_places hsz hwk hcap

/-- C8 witness: placing into an already-full single-unit shelf still
records exactly one place action at the end of the log. -/

theorem C8_place_records_one_place_witness :
    ∃ extra, (c8state.PlaceOrder ⟨"R2", "", TEMP_TYPE_ROOM, 10, 10⟩ 5).actions =
        c8state.actions ++ extra ++ [⟨Int.tdiv 5 1000, "R2", ACTION_TYPE_PLACE⟩] ∧
      ∀ a ∈ extra, a.action ≠ ACTION_TYPE_PLACE :=
  C8_place_records_one_place c8state ⟨"R2", "", TEMP_TYPE_ROOM, 10, 10⟩ 5
    (by decide) (by decide) (by decide)

/-- C9: PickupOrder tries the heater group, then the cooler group, then
the shelf group, stopping at the first unit holding the id and appending
exactly one pickup action via logAction; when the id is absent everywhere
the call returns the state unchanged — no storage change and no log
entry — so repeated pickups of an absent id are exact no-ops. -/

theorem C9_pickup_priority :
    (∀ (fs : FulfillmentSystem) (orderID : String) (now : Int),
      (¬ ∃ st ∈ fs.heaterGroup.storages, orderID ∈ keysOf st.orders) →
      (¬ ∃ st ∈ fs.coolerGroup.storages, orderID ∈ keysOf st.orders) →
      (¬ ∃ st ∈ fs.shelfGroup.storages, orderID ∈ keysOf st.orders) →
      fs.PickupOrder orderID now = fs) ∧
    (∀ (fs : FulfillmentSystem) (orderID : String) (now : Int),
      (∃ st ∈ fs.heaterGroup.storages, orderID ∈ keysOf st.orders) →
      ∃ so, (fs.heaterGroup.Remove orderID).2 = some so ∧
        fs.PickupOrder orderID now =
          ({ fs with heaterGroup := (fs.heaterGroup.Remove orderID).1 }).logAction
            so.order.id ACTION_TYPE_PICKUP now) ∧
    (∀ (fs : FulfillmentSystem) (orderID : String) (now : Int),
      (¬ ∃ st ∈ fs.heaterGroup.storages, orderID ∈ keysOf st.orders) →
      (∃ st ∈ fs.coolerGroup.storages, orderID ∈ keysOf st.orders) →
      ∃ so, (fs.coolerGroup.Remove orderID).2 = some so ∧
        fs.PickupOrder orderID now =
          ({ fs with coolerGroup := (fs.coolerGroup.Remove orderID).1 }).logAction
            so.order.id ACTION_TYPE_PICKUP now) ∧
    (∀ (fs : FulfillmentSystem) (orderID : String) (now : Int),
      (¬ ∃ st ∈ fs.heaterGroup.storages, orderID ∈ keysOf st.orders) →
      (¬ ∃ st ∈ fs.coolerGroup.storages, orderID ∈ keysOf st.orders) →
      (∃ st ∈ fs.shelfGroup.storages, orderID ∈ keysOf st.orders) →
      ∃ so, (fs.shelfGroup.Remove orderID).2 = some so ∧
        fs.PickupOrder orderID now =
          ({ fs with shelfGroup := (fs.shelfGroup.Remove orderID).1 }).logAction
            so.order.id ACTION_TYPE_PICKUP now) :=
  ⟨fun _ _ _ h1 h2 h3 => pickup_absent h1 h2 h3,
   fun _ _ _ h1 => pickup_in_heater h1,
   fun _ _ _ h1 h2 => pickup_in_cooler h1 h2,
   fun _ _ _ h1 h2 h3 => pickup_in_shelf h1 h2 h3⟩

/-- C9 witness: picking up an id absent from every unit of a concrete
state is an exact no-op. -/

theorem C9_pickup_priority_witness :
    c2state.PickupOrder "zz" 5 = c2state :=
  C9_pickup_priority.1 c2state "zz" 5 (by decide) (by decide) (by decide)

/-- C10: the reallocation tick is the identity whenever the shelf group
is not full, and also when the heater and cooler groups are both full.
When every shelf unit is full the tick walks the shelf's current order
snapshot: a hot order while the heater group is not full (respectively a
cold order while the cooler group is not full) is attempted as a move of
exactly that order into its ideal group, every other order is skipped
(hot with full heater, cold with full cooler, or neither hot nor cold);
a successful move appends exactly one move action for the moved order
and lands the order in a unit of its ideal group, while a failed move
appends no action. Every appended action of a tick is such a move of an
order that was on the shelf at the start of the tick, and only hot or
cold orders are ever moved. -/

theorem C10_tick_behavior :
    (∀ (fs : FulfillmentSystem) (now : Int), fs.shelfGroup.IsFull = false →
      fs.ReallocateTick now = fs) ∧
    (∀ (fs : FulfillmentSystem) (now : Int), fs.heaterGroup.IsFull = true →
      fs.coolerGroup.IsFull = true → fs.ReallocateTick now = fs) ∧
    (∀ (fs : FulfillmentSystem) (now : Int), fs.shelfGroup.IsFull = true →
      fs.ReallocateTick now = reallocScan fs.shelfGroup.ListOrders fs now) ∧
    (∀ (so : StoredOrder) (rest : List StoredOrder) (fs : FulfillmentSystem) (now : Int),
      so.order.temperature = TEMP_TYPE_HOT → fs.heaterGroup.IsFull = false →
      reallocScan (so :: rest) fs now =
        reallocScan rest (fs.moveShelfOrderTo so.order.id true now) now) ∧
    (∀ (so : StoredOrder) (rest : List StoredOrder) (fs : FulfillmentSystem) (now : Int),
      so.order.temperature = TEMP_TYPE_COLD → fs.coolerGroup.IsFull = false →
      reallocScan (so :: rest) fs now =
        reallocScan rest (fs.moveShelfOrderTo so.order.id false now) now) ∧
    (∀ (so : StoredOrder) (rest : List StoredOrder) (fs : FulfillmentSystem) (now : Int),
      so.order.temperature = TEMP_TYPE_HOT → fs.heaterGroup.IsFull = true →
      reallocScan (so :: rest) fs now = reallocScan rest fs now) ∧
    (∀ (so : StoredOrder) (rest : List StoredOrder) (fs : FulfillmentSystem) (now : Int),
      so.order.temperature = TEMP_TYPE_COLD → fs.coolerGroup.IsFull = true →
      reallocScan (so :: rest) fs now = reallocScan rest fs now) ∧
    (∀ (so : StoredOrder) (rest : List StoredOrder) (fs : FulfillmentSystem) (now : Int),
      so.order.temperature ≠ TEMP_TYPE_HOT → so.order.temperature ≠ TEMP_TYPE_COLD →
      reallocScan (so :: rest) fs now = reallocScan rest fs now) ∧
    (∀ (fs : FulfillmentSystem) (orderID : String) (toHeater : Bool) (now : Int),
      ((moveOverShelfStorages fs.shelfGroup.storages
          (if toHeater then fs.heaterGroup else fs.coolerGroup) orderID now).2.2 = true →
        (fs.moveShelfOrderTo orderID toHeater now).actions =
          fs.actions ++ [⟨Int.tdiv now 1000, orderID, ACTION_TYPE_MOVE⟩] ∧
        ∃ st ∈ (if toHeater then (fs.moveShelfOrderTo orderID toHeater now).heaterGroup.storages
            else (fs.moveShelfOrderTo orderID toHeater now).coolerGroup.storages),
          orderID ∈ keysOf st.orders) ∧
      ((moveOverShelfStorages fs.shelfGroup.storages
          (if toHeater then fs.heaterGroup else fs.coolerGroup) orderID now).2.2 = false →
        (fs.moveShelfOrderTo orderID toHeater now).actions = fs.actions)) ∧
    (∀ (fs : FulfillmentSystem) (now : Int), ∃ extra,
      (fs.ReallocateTick now).actions = fs.actions ++ extra ∧
      ∀ a ∈ extra, a.action = ACTION_TYPE_MOVE ∧
        ∃ so ∈ fs.shelfGroup.ListOrders, so.order.id = a.orderID ∧
          (so.order.temperature = TEMP_TYPE_HOT ∨
            so.order.temperature = TEMP_TYPE_COLD)) := by
  refine ⟨?_, ?_, ?_, ?_, ?_, ?_, ?_, ?_, ?_, ?_⟩
  · intro fs now h
    unfold FulfillmentSystem.ReallocateTick
    rw [if_neg (by simp [h])]
  · intro fs now hh hc
    unfold FulfillmentSystem.ReallocateTick
    by_cases hs : fs.shelfGroup.IsFull = true
    · rw [if_pos hs]
      exact reallocScan_allFull _ fs now hh hc
    · rw [if_neg hs]
  · intro fs now h
    unfold FulfillmentSystem.ReallocateTick
    rw [if_pos h]
  · intro so rest fs now h1 h2
    rw [reallocScan_cons_eq, if_pos ⟨h1, by simp [h2]⟩]
  · intro so rest fs now h1 h2
    rw [reallocScan_cons_eq,
      if_neg (by rintro ⟨hh, _⟩; rw [h1] at hh; exact absurd hh (by decide)),
      if_pos ⟨h1, by simp [h2]⟩]
  · intro so rest fs now h1 h2
    rw [reallocScan_cons_eq,
      if_neg (by rintro ⟨_, hnf⟩; exact hnf h2),
      if_neg (by rintro ⟨hc, _⟩; rw [h1] at hc; exact absurd hc (by decide))]
  · intro so rest fs now h1 h2
    rw [reallocScan_cons_eq,
      if_neg (by rintro ⟨hh, _⟩; rw [h1] at hh; exact absurd hh (by decide)),
      if_neg (by rintro ⟨_, hnf⟩; exact hnf h2)]
  · intro so rest fs now h1 h2
    rw [reallocScan_cons_eq,
      if_neg (by rintro ⟨hh, _⟩; exact h1 hh),
      if_neg (by rintro ⟨hc, _⟩; exact h2 hc)]
  · intro fs orderID toHeater now
    exact ⟨fun h => moveShelfOrderTo_succ_actions fs orderID toHeater now h,
      fun h => moveShelfOrderTo_fail_actions fs orderID toHeater now h⟩
  · intro fs now
    unfold FulfillmentSystem.ReallocateTick
    by_cases hs : fs.shelfGroup.IsFull = true
    · rw [if_pos hs]
      exact reallocScan_actions fs.shelfGroup.ListOrders fs now
    · rw [if_neg hs]
      exact ⟨[], by simp, by simp⟩

/-- C10 witness: a tick on a system whose shelf is not full is the
identity, and a tick on a concrete full-shelf system walks the shelf
snapshot. -/

theorem C10_tick_behavior_witness :
    c2state.ReallocateTick 5 = c2state ∧
    c4state.ReallocateTick 2 = reallocScan c4state.shelfGroup.ListOrders c4state 2 :=
  ⟨C10_tick_behavior.1 c2state 5 (by decide),
   C10_tick_behavior.2.2.1 c4state 2 (by decide)⟩

end FoodStorage
